import Mathlib

/-!
Verification of the Sudoku generator core (grid model, technique library,
solver, difficulty classifier, generator) against its specification.

The Python source is shallowly embedded: a `SudokuGrid` carries the board
as a total function `Nat → Nat → Nat` (value `0` = blank; cells outside
`[0, size) × [0, size)` are irrelevant and always `0` in grids built by the
constructors) and a parallel candidate table of `Finset Nat`.  Mutation is
modelled by functional update; Python's `random.shuffle` is modelled by an
oracle argument supplying the shuffled lists, and the statements quantify
over all oracles.  Python `set` iteration over small naturals is in
ascending order; it is embedded as an insertion sort of the set.  Unbounded
recursion (the solver's fixed-point loop, backtracking, the solution
counter) is embedded with an explicit fuel argument instantiated with a
bound that dominates the real recursion depth.
-/

set_option maxHeartbeats 1000000
set_option maxRecDepth 100000
set_option synthInstance.maxSize 4096
set_option synthInstance.maxHeartbeats 1000000
set_option linter.unusedVariables false

/-- Functional update of a two-argument function at one point. -/
def upd2 {α : Type} (f : Nat → Nat → α) (r c : Nat) (v : α) : Nat → Nat → α :=
  fun r' c' => if r' = r ∧ c' = c then v else f r' c'

/-- Python `set(range(1, size + 1))`: the full candidate set. -/
def fullCands (size : Nat) : Finset Nat := Finset.Icc 1 size

/-- Python `list(someSet)` for a set of small naturals: ascending order. -/
def candList (s : Finset Nat) : List Nat :=
  Quot.liftOn s.val (fun l => List.insertionSort (fun a b => a ≤ b) l)
    (fun l1 l2 h => List.eq_of_perm_of_sorted
      (((List.perm_insertionSort _ l1).trans h).trans (List.perm_insertionSort _ l2).symm)
      (List.sorted_insertionSort _ l1) (List.sorted_insertionSort _ l2))

/-- Row-major list of all cell coordinates, as produced by
`[(r, c) for r in range(size) for c in range(size)]`. -/
def allCellsList (size : Nat) : List (Nat × Nat) :=
  (List.range size).flatMap fun r => (List.range size).map fun c => (r, c)

/-- Python `range(0, n, step)` (used for box origins). -/
def stepRange (n step : Nat) : List Nat :=
  (List.range ((n + step - 1) / step)).map (· * step)

/-- Python `itertools.combinations(l, 2)`, as ordered pairs. -/
def pairsOf {α : Type} : List α → List (α × α)
  | [] => []
  | x :: xs => (xs.map fun y => (x, y)) ++ pairsOf xs

/-- Python `itertools.combinations(l, 3)`, as ordered triples. -/
def triplesOf {α : Type} : List α → List (α × α × α)
  | [] => []
  | x :: xs => ((pairsOf xs).map fun yz => (x, yz.1, yz.2)) ++ triplesOf xs

/-- Return the result of `f` on the first element where it is `some`
(the shape of Python's `for ...: if result: return result` loops). -/
def firstSome {α β : Type} (f : α → Option β) : List α → Option β
  | [] => none
  | x :: xs => match f x with
    | some y => some y
    | none => firstSome f xs

/-- Head of a Python stable sort by a `Nat` key: the first element of the
list attaining the minimal key (only element `[0]` of the sorted list is
ever used by the source, so the sort itself need not be materialised). -/
def minByKey {α : Type} (key : α → Nat) : List α → Option α
  | [] => none
  | x :: xs => some (xs.foldl (fun best y => if key y < key best then y else best) x)

/-- Row-major order on cells, used to iterate Python sets of cells
deterministically (Python's set iteration order is an implementation
detail; only the set of visited elements matters to the claims). -/
def cellLe (a b : Nat × Nat) : Prop := a.1 < b.1 ∨ (a.1 = b.1 ∧ a.2 ≤ b.2)

instance : DecidableRel cellLe := fun a b => by unfold cellLe; infer_instance

instance : IsTrans (Nat × Nat) cellLe :=
  ⟨fun a b c hab hbc => by rcases hab with h | ⟨h1, h2⟩ <;> rcases hbc with h3 | ⟨h4, h5⟩ <;>
    simp only [cellLe] <;> omega⟩

instance : IsAntisymm (Nat × Nat) cellLe :=
  ⟨fun a b hab hba => by
    rcases hab with h | ⟨h1, h2⟩ <;> rcases hba with h3 | ⟨h4, h5⟩ <;>
      [omega; omega; omega; exact Prod.ext h4.symm (Nat.le_antisymm h2 h5)]⟩

instance : IsTotal (Nat × Nat) cellLe :=
  ⟨fun a b => by simp only [cellLe]; omega⟩

/-- Python iteration over a set of cells, in row-major order. -/
def cellList (s : Finset (Nat × Nat)) : List (Nat × Nat) :=
  Quot.liftOn s.val (fun l => List.insertionSort cellLe l)
    (fun l1 l2 h => List.eq_of_perm_of_sorted
      (((List.perm_insertionSort _ l1).trans h).trans (List.perm_insertionSort _ l2).symm)
      (List.sorted_insertionSort _ l1) (List.sorted_insertionSort _ l2))

/-- The grid model of `grid.py`: size, box geometry, values and candidate
sets.  `SudokuGrid.copy` is the identity in the functional embedding. -/
structure SudokuGrid where
  size : Nat
  box_rows : Nat
  box_cols : Nat
  grid : Nat → Nat → Nat
  candidates : Nat → Nat → Finset Nat

namespace SudokuGrid

/-- Cells hit by the three candidate-discard loops of `set_value(row, col, v)`:
the row `row` (columns `0..size`), the column `col` (rows `0..size`), and the
box containing `(row, col)`.  Mirrors the loop bounds of the source. -/
def hits (g : SudokuGrid) (row col r c : Nat) : Prop :=
  (r = row ∧ c < g.size) ∨ (c = col ∧ r < g.size) ∨
    ((row / g.box_rows) * g.box_rows ≤ r ∧ r < (row / g.box_rows) * g.box_rows + g.box_rows ∧
     (col / g.box_cols) * g.box_cols ≤ c ∧ c < (col / g.box_cols) * g.box_cols + g.box_cols)

instance (g : SudokuGrid) (row col r c : Nat) : Decidable (g.hits row col r c) := by
  unfold hits; infer_instance

/-- The `value > 0` branch of `set_value`: write the value, empty the cell's
own candidate set, and discard the value from every row/column/box peer's
candidate set. -/
def set_value_pos (g : SudokuGrid) (row col value : Nat) : SudokuGrid :=
  { g with
    grid := upd2 g.grid row col value
    candidates := fun r c =>
      if r = row ∧ c = col then ∅
      else if g.hits row col r c then (g.candidates r c).erase value
      else g.candidates r c }

/-- `recalculate_candidates`: reset every candidate set to the full range,
then replay `set_value` for every currently-filled cell (row-major). -/
def recalculate_candidates (g : SudokuGrid) : SudokuGrid :=
  (allCellsList g.size).foldl
    (fun acc rc =>
      if acc.grid rc.1 rc.2 > 0 then acc.set_value_pos rc.1 rc.2 (acc.grid rc.1 rc.2) else acc)
    { g with candidates := fun _ _ => fullCands g.size }

/-- `set_value(row, col, value)`: write the value; for a positive value
discard it from all peers, for `0` rebuild all candidates from scratch. -/
def set_value (g : SudokuGrid) (row col value : Nat) : SudokuGrid :=
  if value > 0 then g.set_value_pos row col value
  else recalculate_candidates { g with grid := upd2 g.grid row col 0 }

/-- `get_value`. -/
def get_value (g : SudokuGrid) (row col : Nat) : Nat := g.grid row col

/-- `get_candidates` (the Python `.copy()` is the identity here). -/
def get_candidates (g : SudokuGrid) (row col : Nat) : Finset Nat := g.candidates row col

/-- `remove_candidate`: returns whether the candidate was present, plus the
updated grid (the mutated `self`). -/
def remove_candidate (g : SudokuGrid) (row col value : Nat) : Bool × SudokuGrid :=
  if value ∈ g.candidates row col then
    (true, { g with candidates := fun r c =>
      if r = row ∧ c = col then (g.candidates r c).erase value else g.candidates r c })
  else (false, g)

/-- `is_empty`. -/
def is_empty (g : SudokuGrid) (row col : Nat) : Bool := g.grid row col == 0

/-- `get_empty_cells`. -/
def get_empty_cells (g : SudokuGrid) : List (Nat × Nat) :=
  (allCellsList g.size).filter fun rc => g.grid rc.1 rc.2 == 0

/-- `get_row`. -/
def get_row (g : SudokuGrid) (row : Nat) : List Nat :=
  (List.range g.size).map fun c => g.grid row c

/-- `get_col`. -/
def get_col (g : SudokuGrid) (col : Nat) : List Nat :=
  (List.range g.size).map fun r => g.grid r col

/-- `get_box`: values of the box containing `(row, col)`. -/
def get_box (g : SudokuGrid) (row col : Nat) : List Nat :=
  (List.range g.box_rows).flatMap fun i =>
    (List.range g.box_cols).map fun j =>
      g.grid ((row / g.box_rows) * g.box_rows + i) ((col / g.box_cols) * g.box_cols + j)

/-- `get_box_cells`: coordinates of the box containing `(row, col)`. -/
def get_box_cells (g : SudokuGrid) (row col : Nat) : List (Nat × Nat) :=
  (List.range g.box_rows).flatMap fun i =>
    (List.range g.box_cols).map fun j =>
      ((row / g.box_rows) * g.box_rows + i, (col / g.box_cols) * g.box_cols + j)

/-- `get_peers`: all cells sharing the row, column or box, excluding the
cell itself (built as a set, as in the source). -/
def get_peers (g : SudokuGrid) (row col : Nat) : Finset (Nat × Nat) :=
  ((((Finset.range g.size).image fun c => (row, c)) ∪
    ((Finset.range g.size).image fun r => (r, col))) ∪
    (g.get_box_cells row col).toFinset).erase (row, col)

end SudokuGrid

namespace SudokuGrid

/-- Raw write to the value matrix only (`self.grid[r][c] = v` in Python),
leaving the candidate table untouched. -/
def setCellRaw (g : SudokuGrid) (row col value : Nat) : SudokuGrid :=
  { g with grid := upd2 g.grid row col value }

/-- Body of `is_valid`: scan the given cells; for each filled cell,
temporarily clear it, check its value against the row, column and box with
the cell cleared, and restore it.  Returns the boolean verdict together
with the grid object after the call (Python mutates `self` in place and
restores it on every path). -/
def is_valid_aux (g : SudokuGrid) : List (Nat × Nat) → Bool × SudokuGrid
  | [] => (true, g)
  | (r, c) :: rest =>
    let val := g.grid r c
    if val = 0 then g.is_valid_aux rest
    else
      let g0 := g.setCellRaw r c 0
      if val ∈ g0.get_row r then (false, g0.setCellRaw r c val)
      else if val ∈ g0.get_col c then (false, g0.setCellRaw r c val)
      else if val ∈ g0.get_box r c then (false, g0.setCellRaw r c val)
      else (g0.setCellRaw r c val).is_valid_aux rest

/-- `is_valid`: no duplicate value in any row, column or box. -/
def is_valid (g : SudokuGrid) : Bool × SudokuGrid :=
  g.is_valid_aux (allCellsList g.size)

/-- Boolean verdict of `is_valid` (the grid is restored on every path; see
the frame lemma `is_valid_snd_eq`). -/
def is_validB (g : SudokuGrid) : Bool := g.is_valid.1

/-- `is_complete`: completely filled and valid. -/
def is_complete (g : SudokuGrid) : Bool :=
  ((allCellsList g.size).all fun rc => g.grid rc.1 rc.2 != 0) && g.is_validB

/-- `count_clues`: number of non-zero cells. -/
def count_clues (g : SudokuGrid) : Nat :=
  ((allCellsList g.size).filter fun rc => g.grid rc.1 rc.2 != 0).length

/-- `to_string`: row-major concatenation of `str(value)` for every cell
(`''.join` concatenates the digit strings). -/
def to_string (g : SudokuGrid) : String :=
  ⟨(allCellsList g.size).flatMap fun rc => (Nat.repr (g.grid rc.1 rc.2)).data⟩

/-- A fresh grid with the given geometry: all values `0`, all candidate
sets full (the `SudokuGrid.__init__` constructor). -/
def init (size box_rows box_cols : Nat) : SudokuGrid :=
  { size := size, box_rows := box_rows, box_cols := box_cols
    grid := fun _ _ => 0
    candidates := fun _ _ => fullCands size }

end SudokuGrid

/-- `Grid6x6()`: 6×6 grid with 2×3 boxes. -/
def grid6x6 : SudokuGrid := SudokuGrid.init 6 2 3

/-- `Grid9x9()`: 9×9 grid with 3×3 boxes. -/
def grid9x9 : SudokuGrid := SudokuGrid.init 9 3 3

/-- `create_grid`: factory; any size other than 6 or 9 raises `ValueError`,
modelled as `none`. -/
def create_grid (size : Nat) : Option SudokuGrid :=
  if size = 6 then some grid6x6
  else if size = 9 then some grid9x9
  else none

/-- Python `int(char)`: the digit value, or an exception (`none`) for a
non-digit character. -/
def int_of_char (ch : Char) : Option Nat :=
  if ch.isDigit then some (ch.toNat - 48) else none

/-- Loop body of `from_string`: `for i, char in enumerate(s)` with
`r, c = i // size, i % size`; positive digits are written via `set_value`. -/
def from_string_go (size : Nat) : List Char → Nat → SudokuGrid → Option SudokuGrid
  | [], _, g => some g
  | ch :: rest, i, g =>
    match int_of_char ch with
    | none => none
    | some val =>
      if val > 0 then from_string_go size rest (i + 1) (g.set_value (i / size) (i % size) val)
      else from_string_go size rest (i + 1) g

/-- `from_string`: build a fresh grid (6×6 when `size == 6`, otherwise a
9×9 grid — note the missing size check) and replay the digits.  The
`box_rows`/`box_cols` arguments are ignored, as in the source. -/
def from_string (s : String) (size box_rows box_cols : Nat) : Option SudokuGrid :=
  from_string_go size s.data 0 (if size = 6 then grid6x6 else grid9x9)

/-- Python `range(1, size + 1)` (candidate values). -/
def numRange (size : Nat) : List Nat := (List.range size).map (· + 1)

/-- Result of applying a technique (`TechniqueResult` in `techniques.py`). -/
structure TechniqueResult where
  name : String
  level : Nat
  placements : List (Nat × Nat × Nat)
  eliminations : List (Nat × Nat × Nat)

/-- Python truthiness of a `TechniqueResult`: non-empty placements or
eliminations. -/
def TechniqueResult.truthy (t : TechniqueResult) : Bool :=
  !t.placements.isEmpty || !t.eliminations.isEmpty

/-- `_get_all_units`: all rows, columns and boxes as lists of cells. -/
def get_all_units (g : SudokuGrid) : List (List (Nat × Nat)) :=
  ((List.range g.size).map fun r => (List.range g.size).map fun c => (r, c)) ++
  ((List.range g.size).map fun c => (List.range g.size).map fun r => (r, c)) ++
  ((stepRange g.size g.box_rows).flatMap fun br =>
    (stepRange g.size g.box_cols).map fun bc =>
      (List.range g.box_rows).flatMap fun i =>
        (List.range g.box_cols).map fun j => (br + i, bc + j))

/-- `naked_singles` (level 1): place the single candidate of any cell whose
candidate set has exactly one element. -/
def naked_singles (g : SudokuGrid) : TechniqueResult :=
  let placements := (allCellsList g.size).filterMap fun rc =>
    if g.grid rc.1 rc.2 = 0 ∧ (g.candidates rc.1 rc.2).card = 1 then
      some (rc.1, rc.2, (candList (g.candidates rc.1 rc.2)).headD 0)
    else none
  ⟨"naked_singles", 1, placements, []⟩

/-- Empty cells of a unit whose candidate set contains `num`, in unit
order (the `positions` lists of several techniques). -/
def positionsOf (g : SudokuGrid) (unit : List (Nat × Nat)) (num : Nat) : List (Nat × Nat) :=
  unit.filter fun rc => decide (g.grid rc.1 rc.2 = 0 ∧ num ∈ g.candidates rc.1 rc.2)

/-- `hidden_singles` (level 1): a value with exactly one candidate position
in some row, column or box is placed there; the column and box passes skip
placements already recorded. -/
def hidden_singles (g : SudokuGrid) : TechniqueResult :=
  let size := g.size
  let rowsP := (List.range size).foldl (fun acc r =>
    (numRange size).foldl (fun acc num =>
      match positionsOf g ((List.range size).map fun c => (r, c)) num with
      | [p] => acc ++ [(p.1, p.2, num)]
      | _ => acc) acc) []
  let colsP := (List.range size).foldl (fun acc c =>
    (numRange size).foldl (fun acc num =>
      match positionsOf g ((List.range size).map fun r => (r, c)) num with
      | [p] => if (p.1, p.2, num) ∈ acc then acc else acc ++ [(p.1, p.2, num)]
      | _ => acc) acc) rowsP
  let boxesP := (stepRange size g.box_rows).foldl (fun acc br =>
    (stepRange size g.box_cols).foldl (fun acc bc =>
      (numRange size).foldl (fun acc num =>
        match positionsOf g ((List.range g.box_rows).flatMap fun i =>
            (List.range g.box_cols).map fun j => (br + i, bc + j)) num with
        | [p] => if (p.1, p.2, num) ∈ acc then acc else acc ++ [(p.1, p.2, num)]
        | _ => acc) acc) acc) colsP
  ⟨"hidden_singles", 1, boxesP, []⟩

/-- `naked_pairs` (level 2): two cells of a unit with the same 2-element
candidate set eliminate those values from the rest of the unit. -/
def naked_pairs (g : SudokuGrid) : TechniqueResult :=
  let elims := (get_all_units g).flatMap fun unit =>
    let pair_cells := unit.filter fun rc =>
      decide (g.grid rc.1 rc.2 = 0 ∧ (g.candidates rc.1 rc.2).card = 2)
    (pairsOf pair_cells).flatMap fun pq =>
      let cands1 := g.get_candidates pq.1.1 pq.1.2
      let cands2 := g.get_candidates pq.2.1 pq.2.2
      if cands1 = cands2 then
        unit.flatMap fun rc =>
          if rc ≠ pq.1 ∧ rc ≠ pq.2 ∧ g.grid rc.1 rc.2 = 0 then
            (candList cands1).filterMap fun val =>
              if val ∈ g.candidates rc.1 rc.2 then some (rc.1, rc.2, val) else none
          else []
      else []
  ⟨"naked_pairs", 2, [], elims⟩

/-- `hidden_pairs` (level 2): two values confined to the same two cells of
a unit collapse those cells' candidates to the pair. -/
def hidden_pairs (g : SudokuGrid) : TechniqueResult :=
  let elims := (get_all_units g).flatMap fun unit =>
    let cands_in_two := (numRange g.size).filter fun cand =>
      decide ((positionsOf g unit cand).length = 2)
    (pairsOf cands_in_two).flatMap fun cc =>
      if positionsOf g unit cc.1 = positionsOf g unit cc.2 then
        (positionsOf g unit cc.1).flatMap fun rc =>
          (candList (g.candidates rc.1 rc.2)).filterMap fun val =>
            if val ≠ cc.1 ∧ val ≠ cc.2 then some (rc.1, rc.2, val) else none
      else []
  ⟨"hidden_pairs", 2, [], elims⟩

/-- `naked_triples` (level 3): three cells of a unit whose candidate union
has exactly three values eliminate those values from the rest of the unit. -/
def naked_triples (g : SudokuGrid) : TechniqueResult :=
  let elims := (get_all_units g).flatMap fun unit =>
    let triple_candidates := unit.filter fun rc =>
      decide (g.grid rc.1 rc.2 = 0 ∧ 2 ≤ (g.candidates rc.1 rc.2).card ∧
        (g.candidates rc.1 rc.2).card ≤ 3)
    (triplesOf triple_candidates).flatMap fun t =>
      let all_cands := g.get_candidates t.1.1 t.1.2 ∪ g.get_candidates t.2.1.1 t.2.1.2 ∪
        g.get_candidates t.2.2.1 t.2.2.2
      if all_cands.card = 3 then
        unit.flatMap fun rc =>
          if rc ≠ t.1 ∧ rc ≠ t.2.1 ∧ rc ≠ t.2.2 ∧ g.grid rc.1 rc.2 = 0 then
            (candList all_cands).filterMap fun val =>
              if val ∈ g.candidates rc.1 rc.2 then some (rc.1, rc.2, val) else none
          else []
      else []
  ⟨"naked_triples", 3, [], elims⟩

/-- `hidden_triples` (level 3): three values whose candidate positions in a
unit union to exactly three cells collapse those cells to the triple. -/
def hidden_triples (g : SudokuGrid) : TechniqueResult :=
  let elims := (get_all_units g).flatMap fun unit =>
    let eligible := (numRange g.size).filter fun cand =>
      decide (2 ≤ (positionsOf g unit cand).length ∧ (positionsOf g unit cand).length ≤ 3)
    (triplesOf eligible).flatMap fun t =>
      let all_positions := (positionsOf g unit t.1).toFinset ∪
        (positionsOf g unit t.2.1).toFinset ∪ (positionsOf g unit t.2.2).toFinset
      if all_positions.card = 3 then
        (cellList all_positions).flatMap fun rc =>
          (candList (g.candidates rc.1 rc.2)).filterMap fun val =>
            if val ≠ t.1 ∧ val ≠ t.2.1 ∧ val ≠ t.2.2 then some (rc.1, rc.2, val) else none
      else []
  ⟨"hidden_triples", 3, [], elims⟩

/-- `pointing_pairs` (level 3): a value confined to one row (or column)
inside a box is eliminated from that row (column) outside the box. -/
def pointing_pairs (g : SudokuGrid) : TechniqueResult :=
  let elims := (stepRange g.size g.box_rows).flatMap fun box_r =>
    (stepRange g.size g.box_cols).flatMap fun box_c =>
      (numRange g.size).flatMap fun num =>
        let positions := positionsOf g ((List.range g.box_rows).flatMap fun i =>
          (List.range g.box_cols).map fun j => (box_r + i, box_c + j)) num
        if positions.length ≥ 2 then
          let rows := (positions.map Prod.fst).toFinset
          let cols := (positions.map Prod.snd).toFinset
          (if rows.card = 1 then
            let row := (candList rows).headD 0
            (List.range g.size).filterMap fun c =>
              if (c < box_c ∨ c ≥ box_c + g.box_cols) ∧ g.grid row c = 0 ∧
                  num ∈ g.candidates row c then some (row, c, num) else none
          else []) ++
          (if cols.card = 1 then
            let col := (candList cols).headD 0
            (List.range g.size).filterMap fun r =>
              if (r < box_r ∨ r ≥ box_r + g.box_rows) ∧ g.grid r col = 0 ∧
                  num ∈ g.candidates r col then some (r, col, num) else none
          else [])
        else []
  ⟨"pointing_pairs", 3, [], elims⟩

/-- `box_line_reduction` (level 3): a value confined to one box along a row
(or column) is eliminated from the rest of that box. -/
def box_line_reduction (g : SudokuGrid) : TechniqueResult :=
  let rowElims := (List.range g.size).flatMap fun row =>
    (numRange g.size).flatMap fun num =>
      let positions := positionsOf g ((List.range g.size).map fun c => (row, c)) num
      if positions.length ≥ 2 then
        let boxes := (positions.map fun rc => (rc.1 / g.box_rows, rc.2 / g.box_cols)).toFinset
        if boxes.card = 1 then
          let box := (cellList boxes).headD (0, 0)
          (List.range g.box_rows).flatMap fun i =>
            if box.1 * g.box_rows + i ≠ row then
              (List.range g.box_cols).filterMap fun j =>
                let r := box.1 * g.box_rows + i
                let c := box.2 * g.box_cols + j
                if g.grid r c = 0 ∧ num ∈ g.candidates r c then some (r, c, num) else none
            else []
        else []
      else []
  let colElims := (List.range g.size).flatMap fun col =>
    (numRange g.size).flatMap fun num =>
      let positions := positionsOf g ((List.range g.size).map fun r => (r, col)) num
      if positions.length ≥ 2 then
        let boxes := (positions.map fun rc => (rc.1 / g.box_rows, rc.2 / g.box_cols)).toFinset
        if boxes.card = 1 then
          let box := (cellList boxes).headD (0, 0)
          (List.range g.box_rows).flatMap fun i =>
            (List.range g.box_cols).filterMap fun j =>
              let r := box.1 * g.box_rows + i
              let c := box.2 * g.box_cols + j
              if c ≠ col ∧ g.grid r c = 0 ∧ num ∈ g.candidates r c then some (r, c, num)
              else none
        else []
      else []
  ⟨"box_line_reduction", 3, [], rowElims ++ colElims⟩

/-- `x_wing` (level 4): a value occupying exactly the same two columns in
two rows (or the symmetric pattern) is eliminated from those columns in
all other rows. -/
def x_wing (g : SudokuGrid) : TechniqueResult :=
  let elims := (numRange g.size).flatMap fun num =>
    let rows_with_two := (List.range g.size).filterMap fun r =>
      match (List.range g.size).filter (fun c =>
          decide (g.grid r c = 0 ∧ num ∈ g.candidates r c)) with
      | [a, b] => some (r, a, b)
      | _ => none
    let rowPart := (pairsOf rows_with_two).flatMap fun pq =>
      if pq.1.2.1 = pq.2.2.1 ∧ pq.1.2.2 = pq.2.2.2 then
        (List.range g.size).flatMap fun r =>
          if r ≠ pq.1.1 ∧ r ≠ pq.2.1 then
            (if g.grid r pq.1.2.1 = 0 ∧ num ∈ g.candidates r pq.1.2.1 then
              [(r, pq.1.2.1, num)] else []) ++
            (if g.grid r pq.1.2.2 = 0 ∧ num ∈ g.candidates r pq.1.2.2 then
              [(r, pq.1.2.2, num)] else [])
          else []
      else []
    let cols_with_two := (List.range g.size).filterMap fun c =>
      match (List.range g.size).filter (fun r =>
          decide (g.grid r c = 0 ∧ num ∈ g.candidates r c)) with
      | [a, b] => some (c, a, b)
      | _ => none
    let colPart := (pairsOf cols_with_two).flatMap fun pq =>
      if pq.1.2.1 = pq.2.2.1 ∧ pq.1.2.2 = pq.2.2.2 then
        (List.range g.size).flatMap fun c =>
          if c ≠ pq.1.1 ∧ c ≠ pq.2.1 then
            (if g.grid pq.1.2.1 c = 0 ∧ num ∈ g.candidates pq.1.2.1 c then
              [(pq.1.2.1, c, num)] else []) ++
            (if g.grid pq.1.2.2 c = 0 ∧ num ∈ g.candidates pq.1.2.2 c then
              [(pq.1.2.2, c, num)] else [])
          else []
      else []
    rowPart ++ colPart
  ⟨"x_wing", 4, [], elims⟩

/-- `y_wing` (level 4): a bivalue pivot `{X, Y}` with bivalue wing peers
`{X, Z}` and `{Y, Z}` eliminates `Z` from every common peer of the wings
(with the source's duplicate-elimination check). -/
def y_wing (g : SudokuGrid) : TechniqueResult :=
  let bi := (allCellsList g.size).filterMap fun rc =>
    if g.grid rc.1 rc.2 = 0 ∧ (g.candidates rc.1 rc.2).card = 2 then
      some (rc.1, rc.2, g.get_candidates rc.1 rc.2)
    else none
  let elims := bi.foldl (fun elims pivot =>
    let plist := candList pivot.2.2
    let X := plist.getD 0 0
    let Y := plist.getD 1 0
    let ppeers := g.get_peers pivot.1 pivot.2.1
    let wings_xz := bi.filterMap fun w =>
      if (w.1, w.2.1) ∈ ppeers ∧ X ∈ w.2.2 ∧ Y ∉ w.2.2 then
        let wl := candList w.2.2
        some (w.1, w.2.1, if wl.getD 1 0 = X then wl.getD 0 0 else wl.getD 1 0)
      else none
    let wings_yz := bi.filterMap fun w =>
      if (w.1, w.2.1) ∈ ppeers ∧ ¬(X ∈ w.2.2 ∧ Y ∉ w.2.2) ∧ Y ∈ w.2.2 ∧ X ∉ w.2.2 then
        let wl := candList w.2.2
        some (w.1, w.2.1, if wl.getD 1 0 = Y then wl.getD 0 0 else wl.getD 1 0)
      else none
    wings_xz.foldl (fun elims w1 =>
      wings_yz.foldl (fun elims w2 =>
        if w1.2.2 = w2.2.2 then
          let common := g.get_peers w1.1 w1.2.1 ∩ g.get_peers w2.1 w2.2.1
          (cellList common).foldl (fun elims rc =>
            if g.grid rc.1 rc.2 = 0 ∧ w1.2.2 ∈ g.candidates rc.1 rc.2 ∧
                (rc.1, rc.2, w1.2.2) ∉ elims then
              elims ++ [(rc.1, rc.2, w1.2.2)]
            else elims) elims
        else elims) elims) elims) []
  ⟨"y_wing", 4, [], elims⟩

/-- `swordfish` (level 5): three rows (or columns) whose candidate columns
(rows) for a value union to exactly three eliminate the value from those
columns (rows) elsewhere. -/
def swordfish (g : SudokuGrid) : TechniqueResult :=
  let elims := (numRange g.size).flatMap fun num =>
    let candidate_rows := (List.range g.size).filterMap fun r =>
      let cols := (List.range g.size).filter fun c =>
        decide (g.grid r c = 0 ∧ num ∈ g.candidates r c)
      if 2 ≤ cols.length ∧ cols.length ≤ 3 then some (r, cols.toFinset) else none
    let rowPart := (triplesOf candidate_rows).flatMap fun t =>
      let all_cols := t.1.2 ∪ t.2.1.2 ∪ t.2.2.2
      if all_cols.card = 3 then
        let row_set : Finset Nat := {t.1.1, t.2.1.1, t.2.2.1}
        (candList all_cols).flatMap fun col =>
          (List.range g.size).filterMap fun r =>
            if r ∉ row_set ∧ g.grid r col = 0 ∧ num ∈ g.candidates r col then
              some (r, col, num)
            else none
      else []
    let candidate_cols := (List.range g.size).filterMap fun c =>
      let rows := (List.range g.size).filter fun r =>
        decide (g.grid r c = 0 ∧ num ∈ g.candidates r c)
      if 2 ≤ rows.length ∧ rows.length ≤ 3 then some (c, rows.toFinset) else none
    let colPart := (triplesOf candidate_cols).flatMap fun t =>
      let all_rows := t.1.2 ∪ t.2.1.2 ∪ t.2.2.2
      if all_rows.card = 3 then
        let col_set : Finset Nat := {t.1.1, t.2.1.1, t.2.2.1}
        (candList all_rows).flatMap fun row =>
          (List.range g.size).filterMap fun c =>
            if c ∉ col_set ∧ g.grid row c = 0 ∧ num ∈ g.candidates row c then
              some (row, c, num)
            else none
      else []
    rowPart ++ colPart
  ⟨"swordfish", 5, [], elims⟩

/-- `xyz_wing` (level 5): a trivalue pivot whose two bivalue peers cover
its candidate set and intersect in a single value `Z` eliminates `Z` from
every cell peering the pivot and both wings. -/
def xyz_wing (g : SudokuGrid) : TechniqueResult :=
  let elims := (List.range g.size).foldl (fun elims pivot_r =>
    (List.range g.size).foldl (fun elims pivot_c =>
      if g.grid pivot_r pivot_c ≠ 0 then elims
      else
        let pivot_cands := g.get_candidates pivot_r pivot_c
        if pivot_cands.card ≠ 3 then elims
        else
          let pivot_peers := g.get_peers pivot_r pivot_c
          let peer_bivalues := (cellList pivot_peers).filterMap fun p =>
            if g.grid p.1 p.2 = 0 ∧ (g.candidates p.1 p.2).card = 2 ∧
                g.candidates p.1 p.2 ⊆ pivot_cands then
              some (p.1, p.2, g.get_candidates p.1 p.2)
            else none
          (pairsOf peer_bivalues).foldl (fun elims ww =>
            if ww.1.2.2 ∪ ww.2.2.2 = pivot_cands ∧ (ww.1.2.2 ∩ ww.2.2.2).card = 1 then
              let z_val := (candList (ww.1.2.2 ∩ ww.2.2.2)).headD 0
              let common := g.get_peers pivot_r pivot_c ∩
                g.get_peers ww.1.1 ww.1.2.1 ∩ g.get_peers ww.2.1 ww.2.2.1
              (cellList common).foldl (fun elims rc =>
                if g.grid rc.1 rc.2 = 0 ∧ z_val ∈ g.candidates rc.1 rc.2 ∧
                    (rc.1, rc.2, z_val) ∉ elims then
                  elims ++ [(rc.1, rc.2, z_val)]
                else elims) elims
            else elims) elims) elims) []
  ⟨"xyz_wing", 5, [], elims⟩

/-- The bivalue-cell list `bi` built at the start of `y_wing`. -/
def yWingBi (g : SudokuGrid) : List (Nat × Nat × Finset Nat) :=
  (allCellsList g.size).filterMap fun rc =>
    if g.grid rc.1 rc.2 = 0 ∧ (g.candidates rc.1 rc.2).card = 2 then
      some (rc.1, rc.2, g.get_candidates rc.1 rc.2)
    else none

/-- The `wings_xz` list of `y_wing` for a given pivot. -/
def yWingXZ (g : SudokuGrid) (pivot : Nat × Nat × Finset Nat) :
    List (Nat × Nat × Nat) :=
  (yWingBi g).filterMap fun w =>
    if (w.1, w.2.1) ∈ g.get_peers pivot.1 pivot.2.1 ∧
        (candList pivot.2.2).getD 0 0 ∈ w.2.2 ∧
        (candList pivot.2.2).getD 1 0 ∉ w.2.2 then
      some (w.1, w.2.1, if (candList w.2.2).getD 1 0 = (candList pivot.2.2).getD 0 0 then
        (candList w.2.2).getD 0 0 else (candList w.2.2).getD 1 0)
    else none

/-- The `wings_yz` list of `y_wing` for a given pivot. -/
def yWingYZ (g : SudokuGrid) (pivot : Nat × Nat × Finset Nat) :
    List (Nat × Nat × Nat) :=
  (yWingBi g).filterMap fun w =>
    if (w.1, w.2.1) ∈ g.get_peers pivot.1 pivot.2.1 ∧
        ¬((candList pivot.2.2).getD 0 0 ∈ w.2.2 ∧
          (candList pivot.2.2).getD 1 0 ∉ w.2.2) ∧
        (candList pivot.2.2).getD 1 0 ∈ w.2.2 ∧
        (candList pivot.2.2).getD 0 0 ∉ w.2.2 then
      some (w.1, w.2.1, if (candList w.2.2).getD 1 0 = (candList pivot.2.2).getD 1 0 then
        (candList w.2.2).getD 0 0 else (candList w.2.2).getD 1 0)
    else none

/-- A concrete complete 6x6 solution, used as test data. -/
def s6Fun : Nat → Nat → Nat := fun r c =>
  ([[1, 2, 3, 4, 5, 6], [4, 5, 6, 1, 2, 3], [2, 3, 1, 5, 6, 4],
    [5, 6, 4, 2, 3, 1], [3, 1, 2, 6, 4, 5], [6, 4, 5, 3, 1, 2]].getD r []).getD c 0

/-- The fully solved 6x6 grid carrying `s6Fun`, with empty candidate sets. -/
def g6solved : SudokuGrid :=
  { size := 6, box_rows := 2, box_cols := 3, grid := s6Fun, candidates := fun _ _ => ∅ }

/-- `g6solved` with cell (0, 1) cleared and given the candidate set `{2, 1}`:
the stale candidate 1 conflicts with the peer value at (0, 0). -/
def g6bad : SudokuGrid :=
  { size := 6, box_rows := 2, box_cols := 3,
    grid := fun r c => if r = 0 ∧ c = 1 then 0 else s6Fun r c,
    candidates := fun r c => if r = 0 ∧ c = 1 then ({2, 1} : Finset Nat) else ∅ }

/-- The ordered technique registry (`TECHNIQUES` in `techniques.py`). -/
def TECHNIQUES : List ((SudokuGrid → TechniqueResult) × Nat) :=
  [(naked_singles, 1), (hidden_singles, 1),
   (naked_pairs, 2), (hidden_pairs, 2),
   (naked_triples, 3), (hidden_triples, 3), (pointing_pairs, 3), (box_line_reduction, 3),
   (x_wing, 4), (y_wing, 4),
   (swordfish, 5), (xyz_wing, 5)]

/-- Result of a solve run (`SolveResult` in `solver.py`). -/
structure SolveResult where
  solved : Bool
  grid : Option SudokuGrid
  techniques_used : Finset String
  max_technique_level : Nat
  steps : List (String × Nat × String)
  used_backtracking : Bool

/-- `SolveResult.add_technique`. -/
def SolveResult.add_technique (res : SolveResult) (name : String) (level : Nat)
    (description : String) : SolveResult :=
  { res with
    techniques_used := insert name res.techniques_used
    max_technique_level := max res.max_technique_level level
    steps := res.steps ++ [(name, level, description)] }

/-- Fresh `SolveResult(False, work_grid)` at the start of `solve`. -/
def initResult (g : SudokuGrid) : SolveResult := ⟨false, some g, ∅, 0, [], false⟩

/-- Apply the placements of a technique result: each one is applied only if
its cell is still empty, and every application is recorded and sets the
`changed` flag. -/
def apply_placements (name : String) (level : Nat) :
    List (Nat × Nat × Nat) → SudokuGrid → SolveResult → Bool → SudokuGrid × SolveResult × Bool
  | [], g, res, changed => (g, res, changed)
  | (r, c, val) :: rest, g, res, changed =>
    if g.is_empty r c then
      apply_placements name level rest (g.set_value r c val)
        (res.add_technique name level
          ("R" ++ Nat.repr (r + 1) ++ "C" ++ Nat.repr (c + 1) ++ "=" ++ Nat.repr val)) true
    else apply_placements name level rest g res changed

/-- Apply the eliminations of a technique result: each one is applied via
`remove_candidate`, recorded only when the candidate was present. -/
def apply_eliminations (name : String) (level : Nat) :
    List (Nat × Nat × Nat) → SudokuGrid → SolveResult → Bool → SudokuGrid × SolveResult × Bool
  | [], g, res, changed => (g, res, changed)
  | (r, c, val) :: rest, g, res, changed =>
    let rem := g.remove_candidate r c val
    if rem.1 then
      apply_eliminations name level rest rem.2
        (res.add_technique name level
          ("R" ++ Nat.repr (r + 1) ++ "C" ++ Nat.repr (c + 1) ++ " remove " ++ Nat.repr val))
        true
    else apply_eliminations name level rest rem.2 res changed

/-- Apply one truthy technique result (placements, then eliminations). -/
def apply_result (tr : TechniqueResult) (g : SudokuGrid) (res : SolveResult) :
    SudokuGrid × SolveResult × Bool :=
  let p := apply_placements tr.name tr.level tr.placements g res false
  apply_eliminations tr.name tr.level tr.eliminations p.1 p.2.1 p.2.2

/-- One pass of the technique `for` loop of `solve`: try the registered
techniques in order (skipping those above the ceiling); when a technique
returns a truthy result apply it, and if anything actually changed, break
out (`True` component).  Returns `(changed, grid, result)`. -/
def scan_go (maxLevel : Nat) :
    List ((SudokuGrid → TechniqueResult) × Nat) → SudokuGrid → SolveResult →
      Bool × SudokuGrid × SolveResult
  | [], g, res => (false, g, res)
  | (f, lv) :: rest, g, res =>
    if lv > maxLevel then scan_go maxLevel rest g res
    else
      let tr := f g
      if tr.truthy then
        let a := apply_result tr g res
        if a.2.2 then (true, a.1, a.2.1) else scan_go maxLevel rest a.1 a.2.1
      else scan_go maxLevel rest g res

/-- The `while changed and not work_grid.is_complete()` fixed-point loop of
`solve`, with explicit fuel (each productive pass fills a cell or removes a
candidate, so the loop count is bounded; see `solveFuel`). -/
def solve_loop (maxLevel : Nat) : Nat → SudokuGrid → SolveResult → SudokuGrid × SolveResult
  | 0, g, res => (g, res)
  | fuel + 1, g, res =>
    if g.is_complete then (g, res)
    else
      let s := scan_go maxLevel TECHNIQUES g res
      if s.1 then solve_loop maxLevel fuel s.2.1 s.2.2 else (s.2.1, s.2.2)

/-- Fuel bound for the technique loop: every productive pass either fills
an empty cell or strictly shrinks some candidate set, so the total
number of passes is at most `size² · size + size²`. -/
def solveFuel (g : SudokuGrid) : Nat := g.size * g.size * g.size + g.size * g.size + 1

/-- One step of `_backtrack_solve`: pick the empty cell with the fewest
candidates (first in scan order on ties, i.e. the head of Python's stable
sort), try each candidate value on a copy, and return the first success. -/
def backtrack_step (recur : SudokuGrid → Option SudokuGrid) (g : SudokuGrid) :
    Option SudokuGrid :=
  match minByKey (fun rc => (g.get_candidates rc.1 rc.2).card) g.get_empty_cells with
  | none => let bv := g.is_valid; if bv.1 then some bv.2 else none
  | some rc =>
    let cands := candList (g.get_candidates rc.1 rc.2)
    if cands.isEmpty then none
    else
      firstSome (fun val =>
        let test := g.set_value rc.1 rc.2 val
        let bv := test.is_valid
        if bv.1 then recur bv.2 else none) cands

/-- `_backtrack_solve` with fuel (each recursive call fills one more cell,
so `size² + 1` fuel always suffices on well-formed grids). -/
def backtrack_solve : Nat → SudokuGrid → Option SudokuGrid
  | 0, _ => none
  | fuel + 1, g => backtrack_step (backtrack_solve fuel) g

/-- `SudokuSolver.solve(grid)` for a solver with the given ceiling and
backtracking flag: run the technique loop, then report success, or fall
back to backtracking when allowed. -/
def solve (max_level : Nat) (allow_backtracking : Bool) (g : SudokuGrid) : SolveResult :=
  let lr := solve_loop max_level (solveFuel g) g (initResult g)
  if lr.1.is_complete then { lr.2 with solved := true, grid := some lr.1 }
  else if allow_backtracking then
    match backtrack_solve (lr.1.size * lr.1.size + 1) lr.1 with
    | some bg =>
      ({ lr.2 with solved := true, grid := some bg, used_backtracking := true }).add_technique
        "backtracking" 6 "Trial and error"
    | none => { lr.2 with grid := some lr.1 }
  else { lr.2 with grid := some lr.1 }

/-- One step of `count_solutions`'s inner `solve_count`: threading the
bounded counter through the branch loop. -/
def solve_count_step (recur : SudokuGrid → Nat → Nat) (limit : Nat) (g : SudokuGrid)
    (count : Nat) : Nat :=
  if count ≥ limit then count
  else
    match minByKey (fun rc => (g.get_candidates rc.1 rc.2).card) g.get_empty_cells with
    | none => if g.is_validB then count + 1 else count
    | some rc =>
      (candList (g.get_candidates rc.1 rc.2)).foldl
        (fun cnt val =>
          let ng := g.set_value rc.1 rc.2 val
          let bv := ng.is_valid
          if bv.1 then recur bv.2 cnt else cnt) count

/-- `solve_count` with fuel (recursion depth is bounded by the number of
empty cells plus one on well-formed grids, since every branch fills the
chosen cell). -/
def solve_count (limit : Nat) : Nat → SudokuGrid → Nat → Nat
  | 0, _, count => count
  | fuel + 1, g, count => solve_count_step (solve_count limit fuel) limit g count

/-- `count_solutions(grid, limit)`. -/
def count_solutions (g : SudokuGrid) (limit : Nat) : Nat :=
  solve_count limit (g.size * g.size + 1) g 0

/-- `has_unique_solution(grid)`. -/
def has_unique_solution (g : SudokuGrid) : Bool := count_solutions g 2 == 1

/-- The ceiling loop of `analyze_difficulty`: for each ceiling, run the
technique-only solver; on success return the stage result (`Sum.inl`),
otherwise accumulate techniques/level/steps and continue from the stage's
partially solved grid.  Falling through yields the final working grid and
the accumulated result (`Sum.inr`). -/
def analyze_stages : List Nat → SudokuGrid → SolveResult →
    Sum SolveResult (SudokuGrid × SolveResult)
  | [], w, res => Sum.inr (w, res)
  | k :: ks, w, res =>
    let attempt := solve k false w
    if attempt.solved then
      Sum.inl { solved := true, grid := attempt.grid,
                techniques_used := attempt.techniques_used
                max_technique_level := attempt.max_technique_level
                steps := attempt.steps, used_backtracking := false }
    else
      analyze_stages ks (attempt.grid.getD w)
        { res with
          techniques_used := res.techniques_used ∪ attempt.techniques_used
          max_technique_level := max res.max_technique_level attempt.max_technique_level
          steps := res.steps ++ attempt.steps }

/-- `SudokuSolver.analyze_difficulty(grid)`: ceilings 1..5 with
backtracking disabled; if none fully solves, fall back to backtracking
(when the solver allows it) and report level 6. -/
def analyze_difficulty (allow_backtracking : Bool) (g : SudokuGrid) : SolveResult :=
  match analyze_stages [1, 2, 3, 4, 5] g ⟨false, none, ∅, 0, [], false⟩ with
  | Sum.inl res => res
  | Sum.inr wr =>
    if allow_backtracking then
      match backtrack_solve (wr.1.size * wr.1.size + 1) wr.1 with
      | some bg =>
        ({ wr.2 with solved := true, grid := some bg, used_backtracking := true,
                     max_technique_level := 6 }).add_technique "backtracking" 6 "Trial and error"
      | none => wr.2
    else wr.2

/-- Result of generating a puzzle (`GeneratorResult` in `generator.py`). -/
structure GeneratorResult where
  puzzle : SudokuGrid
  solution : SudokuGrid
  technique_level : Nat
  techniques_used : Finset String
  clue_count : Nat

/-- `SudokuGenerator._is_valid_placement`. -/
def is_valid_placement (g : SudokuGrid) (row col val : Nat) : Bool :=
  !decide (val ∈ g.get_row row) && !decide (val ∈ g.get_col col) &&
    !decide (val ∈ g.get_box row col)

/-- Undo of a tentative fill during `_fill_grid` backtracking: clear the
cell's value and reset its own candidate set only (the peer candidate
discards made by `set_value` are **not** undone, exactly as in the
source). -/
def fill_restore (g : SudokuGrid) (row col size : Nat) : SudokuGrid :=
  { g with
    grid := upd2 g.grid row col 0
    candidates := fun r c => if r = row ∧ c = col then fullCands size else g.candidates r c }

/-- The candidate loop of `_fill_grid`: try each shuffled value; on a valid
placement, write it and recurse; on failure of the recursive fill, restore
the cell and continue.  The `Nat` component threads the index of the next
`random.shuffle` call for the oracle. -/
def fill_try (recur : SudokuGrid → Nat → Bool × SudokuGrid × Nat) (size row col : Nat) :
    List Nat → SudokuGrid → Nat → Bool × SudokuGrid × Nat
  | [], g, idx => (false, g, idx)
  | val :: rest, g, idx =>
    if is_valid_placement g row col val then
      let r := recur (g.set_value row col val) idx
      if r.1 then r
      else fill_try recur size row col rest (fill_restore r.2.1 row col size) r.2.2
    else fill_try recur size row col rest g idx

/-- One level of `_fill_grid`: fill the first empty cell (fixed scan order)
with a value from the oracle's shuffled list.  `shuffle idx` is the list
produced by the `idx`-th call of `random.shuffle` (statements quantify
over all oracles, which covers every true shuffle). -/
def fill_step (recur : SudokuGrid → Nat → Bool × SudokuGrid × Nat)
    (shuffle : Nat → List Nat) (size : Nat) (g : SudokuGrid) (idx : Nat) :
    Bool × SudokuGrid × Nat :=
  match g.get_empty_cells with
  | [] => (true, g, idx)
  | rc :: _ => fill_try recur size rc.1 rc.2 (shuffle idx) g (idx + 1)

/-- `_fill_grid` with fuel (each recursion level fills one more cell, so
`size² + 1` fuel always suffices for a true shuffle oracle). -/
def fill_grid (shuffle : Nat → List Nat) (size : Nat) :
    Nat → SudokuGrid → Nat → Bool × SudokuGrid × Nat
  | 0, g, idx => (false, g, idx)
  | fuel + 1, g, idx => fill_step (fill_grid shuffle size fuel) shuffle size g idx

/-- `generate_solved_grid`: fill a fresh grid by randomized backtracking
and return it (the grid object, whether or not the fill succeeded).  Sizes
other than 6 and 9 raise in `create_grid`; the claims only exercise 6
and 9, so the embedded fallback grid is never reached there. -/
def generate_solved_grid (shuffle : Nat → List Nat) (size : Nat) : SudokuGrid :=
  (fill_grid shuffle size (size * size + 1) ((create_grid size).getD grid9x9) 0).2.1

/-- `SudokuGenerator._recalculate_candidates`: build a fresh grid and
replay `set_value` for every filled cell of the argument. -/
def gen_recalculate (size : Nat) (g : SudokuGrid) : SudokuGrid :=
  (allCellsList size).foldl
    (fun acc rc =>
      if g.grid rc.1 rc.2 > 0 then acc.set_value_pos rc.1 rc.2 (g.grid rc.1 rc.2) else acc)
    ((create_grid size).getD grid9x9)

/-- The cell-removal loop of `_create_puzzle`, visiting `cells` (the
oracle's shuffled cell order).  The extra `List SudokuGrid` component is a
specification-only trace accumulating the reduced puzzle immediately after
every removal that is kept (not reverted); the puzzle component computes
exactly what the source computes. -/
def create_puzzle_go (size target_level min_clues max_clues : Nat) :
    List (Nat × Nat) → SudokuGrid → List SudokuGrid → SudokuGrid × List SudokuGrid
  | [], p, trace => (p, trace)
  | (row, col) :: rest, p, trace =>
    let current_clues := p.count_clues
    if current_clues ≤ 17 then (p, trace)
    else if current_clues ≤ min_clues ∧
        (analyze_difficulty false p).max_technique_level ≥ target_level then (p, trace)
    else
      let backup := p.get_value row col
      let p1 := { p with
        grid := upd2 p.grid row col 0
        candidates := fun r c =>
          if r = row ∧ c = col then fullCands size else p.candidates r c }
      let p2 := gen_recalculate size p1
      if !has_unique_solution p2 then
        create_puzzle_go size target_level min_clues max_clues rest
          (p2.set_value row col backup) trace
      else
        let result := analyze_difficulty false p2
        if !result.solved then
          create_puzzle_go size target_level min_clues max_clues rest
            (p2.set_value row col backup) trace
        else if result.max_technique_level > target_level + 1 then
          create_puzzle_go size target_level min_clues max_clues rest
            (p2.set_value row col backup) trace
        else
          create_puzzle_go size target_level min_clues max_clues rest p2 (trace ++ [p2])

/-- `_create_puzzle(solution, target_level, min_clues, max_clues)` run with
the given shuffled cell order (plus the specification-only trace of kept
reduced puzzles). -/
def create_puzzle (size target_level min_clues max_clues : Nat) (cells : List (Nat × Nat))
    (solution : SudokuGrid) : SudokuGrid × List SudokuGrid :=
  create_puzzle_go size target_level min_clues max_clues cells solution []

/-- The default clue-range table of `generate_puzzle`. -/
def default_clues (size target_level : Nat) : Nat × Nat :=
  if size = 6 then
    match target_level with
    | 1 => (18, 22) | 2 => (14, 18) | 3 => (12, 16) | 4 => (10, 14) | 5 => (8, 12)
    | _ => (30, 40)
  else
    match target_level with
    | 1 => (40, 50) | 2 => (35, 45) | 3 => (30, 35) | 4 => (25, 30) | 5 => (22, 26)
    | _ => (30, 40)

/-- The attempt loop of `generate_puzzle`: generate a solved grid, reduce
it, analyze the result, and accept only with a solved analysis, achieved
level in `[target_level, target_level + 1]` and clue count within range.
`fillShuffle attempt` and `cellShuffle attempt` are the shuffle oracles of
the given attempt (a `SudokuGrid` object is always truthy in Python, so
the `if puzzle:` guard is vacuous). -/
def generate_puzzle_go (size target_level min_clues max_clues : Nat)
    (fillShuffle : Nat → Nat → List Nat) (cellShuffle : Nat → List (Nat × Nat)) :
    Nat → Nat → Option GeneratorResult
  | 0, _ => none
  | n + 1, attempt =>
    let solution := generate_solved_grid (fillShuffle attempt) size
    let puzzle :=
      (create_puzzle size target_level min_clues max_clues (cellShuffle attempt) solution).1
    let result := analyze_difficulty false puzzle
    if result.solved ∧ target_level ≤ result.max_technique_level ∧
        result.max_technique_level ≤ target_level + 1 then
      let clue_count := puzzle.count_clues
      if min_clues ≤ clue_count ∧ clue_count ≤ max_clues then
        some ⟨puzzle, solution, result.max_technique_level, result.techniques_used, clue_count⟩
      else
        generate_puzzle_go size target_level min_clues max_clues fillShuffle cellShuffle n
          (attempt + 1)
    else
      generate_puzzle_go size target_level min_clues max_clues fillShuffle cellShuffle n
        (attempt + 1)

/-- `generate_puzzle(target_level, min_clues, max_clues, max_attempts)` for
a generator of the given size (`None` clue bounds select the default
table). -/
def generate_puzzle (size target_level : Nat) (min_clues max_clues : Option Nat)
    (max_attempts : Nat) (fillShuffle : Nat → Nat → List Nat)
    (cellShuffle : Nat → List (Nat × Nat)) : Option GeneratorResult :=
  let mm := match min_clues, max_clues with
    | some a, some b => (a, b)
    | _, _ => default_clues size target_level
  generate_puzzle_go size target_level mm.1 mm.2 fillShuffle cellShuffle max_attempts 0

/-! ## C9: string serialization round-trip -/

/-- Standard geometry: the two grid shapes `create_grid` can build. -/
def WFGeom (g : SudokuGrid) : Prop :=
  (g.size = 6 ∧ g.box_rows = 2 ∧ g.box_cols = 3) ∨
    (g.size = 9 ∧ g.box_rows = 3 ∧ g.box_cols = 3)

instance (g : SudokuGrid) : Decidable (WFGeom g) := by unfold WFGeom; infer_instance

/-- Values appearing among the (filled) row, column and box peers of a
cell — the set the candidate invariant subtracts from the full range. -/
def peerValues (g : SudokuGrid) (r c : Nat) : Finset Nat :=
  ((g.get_peers r c).filter fun p => g.grid p.1 p.2 ≠ 0).image fun p => g.grid p.1 p.2

/-! ## C4: technique soundness framework -/

/-- A complete valid solution for the geometry of `g`: all values in
`[1, size]`, and no duplicate in any row, column or box. -/
def IsSolution (g : SudokuGrid) (s : Nat → Nat → Nat) : Prop :=
  (∀ r, r < g.size → ∀ c, c < g.size → 1 ≤ s r c ∧ s r c ≤ g.size) ∧
  (∀ r, r < g.size → ∀ c1, c1 < g.size → ∀ c2, c2 < g.size → c1 ≠ c2 → s r c1 ≠ s r c2) ∧
  (∀ c, c < g.size → ∀ r1, r1 < g.size → ∀ r2, r2 < g.size → r1 ≠ r2 → s r1 c ≠ s r2 c) ∧
  (∀ r1, r1 < g.size → ∀ c1, c1 < g.size → ∀ r2, r2 < g.size → ∀ c2, c2 < g.size →
    r1 / g.box_rows = r2 / g.box_rows → c1 / g.box_cols = c2 / g.box_cols →
    ¬(r1 = r2 ∧ c1 = c2) → s r1 c1 ≠ s r2 c2)

instance (g : SudokuGrid) (s : Nat → Nat → Nat) : Decidable (IsSolution g s) := by
  unfold IsSolution; infer_instance

/-- The grid's filled cells agree with the solution `s`. -/
def Agrees (g : SudokuGrid) (s : Nat → Nat → Nat) : Prop :=
  ∀ r, r < g.size → ∀ c, c < g.size → g.grid r c ≠ 0 → g.grid r c = s r c

instance (g : SudokuGrid) (s : Nat → Nat → Nat) : Decidable (Agrees g s) := by
  unfold Agrees; infer_instance

/-- Every empty cell's candidate set contains the solution's value. -/
def CandsContainSol (g : SudokuGrid) (s : Nat → Nat → Nat) : Prop :=
  ∀ r, r < g.size → ∀ c, c < g.size → g.grid r c = 0 → s r c ∈ g.candidates r c

instance (g : SudokuGrid) (s : Nat → Nat → Nat) : Decidable (CandsContainSol g s) := by
  unfold CandsContainSol; infer_instance

/-- No empty cell's candidate set contains a value already placed in one of
its peers. -/
def CandsNoPeerConflict (g : SudokuGrid) : Prop :=
  ∀ r, r < g.size → ∀ c, c < g.size → g.grid r c = 0 →
    ∀ p ∈ g.get_peers r c, g.grid p.1 p.2 ≠ 0 → g.grid p.1 p.2 ∉ g.candidates r c

instance (g : SudokuGrid) : Decidable (CandsNoPeerConflict g) := by
  unfold CandsNoPeerConflict; infer_instance

/-- Every candidate set is within the value range `[1, size]`. -/
def CandsBounded (g : SudokuGrid) : Prop :=
  ∀ r, r < g.size → ∀ c, c < g.size → g.candidates r c ⊆ Finset.Icc 1 g.size

instance (g : SudokuGrid) : Decidable (CandsBounded g) := by
  unfold CandsBounded; infer_instance

/-- Soundness of one technique against any known solution: placements are
in range, on empty cells, and place the solution's value; eliminations are
in range and never remove the solution's value. -/
def TechniqueSound (f : SudokuGrid → TechniqueResult) : Prop :=
  ∀ (g : SudokuGrid) (s : Nat → Nat → Nat), WFGeom g → IsSolution g s → Agrees g s →
    CandsContainSol g s → CandsNoPeerConflict g → CandsBounded g →
    (∀ p ∈ (f g).placements,
      p.1 < g.size ∧ p.2.1 < g.size ∧ g.grid p.1 p.2.1 = 0 ∧ p.2.2 = s p.1 p.2.1) ∧
    (∀ e ∈ (f g).eliminations, e.1 < g.size ∧ e.2.1 < g.size ∧ e.2.2 ≠ s e.1 e.2.1)

/-- The row unit as a cell list. -/
def rowUnit (size r : Nat) : List (Nat × Nat) := (List.range size).map fun c => (r, c)

/-- The column unit as a cell list. -/
def colUnit (size c : Nat) : List (Nat × Nat) := (List.range size).map fun r => (r, c)

/-- The box unit with origin `(br0, bc0)` as a cell list. -/
def boxUnit (box_rows box_cols br0 bc0 : Nat) : List (Nat × Nat) :=
  (List.range box_rows).flatMap fun i =>
    (List.range box_cols).map fun j => (br0 + i, bc0 + j)

/-- The solver-state invariant tying a grid's values and candidate sets to
a fixed complete solution. -/
def GridInv (s : Nat → Nat → Nat) (g : SudokuGrid) : Prop :=
  Agrees g s ∧ CandsContainSol g s ∧ CandsNoPeerConflict g ∧ CandsBounded g

/-- Fill-shuffle oracle handing the generator exactly the solution value of
the cell it is about to fill (cells are filled in scan order). -/
def w1fill : Nat → Nat → List Nat := fun _ idx => [s6Fun (idx / 6) (idx % 6)]

/-- Cell-order oracle: the removal scan visits only cell (0, 0). -/
def w1cells : Nat → List (Nat × Nat) := fun _ => [(0, 0)]

/-! ## Basic lemmas about the embedding -/

theorem upd2_same {α : Type} (f : Nat → Nat → α) (r c : Nat) (v : α) :
    upd2 f r c v r c = v := by
  simp [upd2]

theorem upd2_other {α : Type} (f : Nat → Nat → α) (r c : Nat) (v : α) (r' c' : Nat)
    (h : ¬(r' = r ∧ c' = c)) : upd2 f r c v r' c' = f r' c' := by
  simp [upd2, h]

theorem upd2_restore {α : Type} (f : Nat → Nat → α) (r c : Nat) (v : α) :
    upd2 (upd2 f r c v) r c (f r c) = f := by
  funext r' c'
  by_cases h : r' = r ∧ c' = c
  · obtain ⟨rfl, rfl⟩ := h; simp [upd2]
  · simp [upd2, h]

theorem mem_allCellsList {n : Nat} {rc : Nat × Nat} :
    rc ∈ allCellsList n ↔ rc.1 < n ∧ rc.2 < n := by
  obtain ⟨r, c⟩ := rc
  simp [allCellsList, List.mem_flatMap, List.mem_map, List.mem_range]

theorem allCellsList_nodup (n : Nat) : (allCellsList n).Nodup :=
  (List.nodup_range n).product (List.nodup_range n)

theorem mem_fullCands {n v : Nat} : v ∈ fullCands n ↔ 1 ≤ v ∧ v ≤ n := by
  simp [fullCands]

theorem candList_coe (s : Finset Nat) : (candList s : Multiset Nat) = s.val := by
  unfold candList
  generalize s.val = m
  induction m using Quot.inductionOn with
  | _ l => exact Quot.sound (List.perm_insertionSort _ l)

theorem candList_sorted (s : Finset Nat) :
    List.Sorted (fun a b => a ≤ b) (candList s) := by
  unfold candList
  generalize s.val = m
  induction m using Quot.inductionOn with
  | _ l => exact List.sorted_insertionSort _ l

theorem candList_eq_sort (s : Finset Nat) : candList s = s.sort (fun a b => a ≤ b) :=
  List.eq_of_perm_of_sorted
    (Multiset.coe_eq_coe.mp (by rw [candList_coe, Finset.sort_eq]))
    (candList_sorted s) (s.sort_sorted _)

theorem cellList_coe (s : Finset (Nat × Nat)) : (cellList s : Multiset (Nat × Nat)) = s.val := by
  unfold cellList
  generalize s.val = m
  induction m using Quot.inductionOn with
  | _ l => exact Quot.sound (List.perm_insertionSort _ l)

theorem cellList_sorted (s : Finset (Nat × Nat)) : List.Sorted cellLe (cellList s) := by
  unfold cellList
  generalize s.val = m
  induction m using Quot.inductionOn with
  | _ l => exact List.sorted_insertionSort _ l

theorem cellList_eq_sort (s : Finset (Nat × Nat)) : cellList s = s.sort cellLe :=
  List.eq_of_perm_of_sorted
    (Multiset.coe_eq_coe.mp (by rw [cellList_coe, Finset.sort_eq]))
    (cellList_sorted s) (s.sort_sorted _)

theorem mem_candList {s : Finset Nat} {v : Nat} : v ∈ candList s ↔ v ∈ s := by
  rw [candList_eq_sort]
  exact Finset.mem_sort _

theorem mem_cellList {s : Finset (Nat × Nat)} {p : Nat × Nat} : p ∈ cellList s ↔ p ∈ s := by
  rw [cellList_eq_sort]
  exact Finset.mem_sort cellLe

theorem mem_numRange {n v : Nat} : v ∈ numRange n ↔ 1 ≤ v ∧ v ≤ n := by
  simp only [numRange, List.mem_map, List.mem_range]
  constructor
  · rintro ⟨a, ha, rfl⟩; omega
  · rintro ⟨h1, h2⟩; exact ⟨v - 1, by omega, by omega⟩

theorem mem_pairsOf {α : Type} {l : List α} {p : α × α} :
    p ∈ pairsOf l → p.1 ∈ l ∧ p.2 ∈ l := by
  induction l with
  | nil => simp [pairsOf]
  | cons x xs ih =>
    intro h
    simp only [pairsOf, List.mem_append, List.mem_map] at h
    rcases h with ⟨y, hy, h⟩ | h
    · subst h; exact ⟨List.mem_cons_self x xs, List.mem_cons_of_mem x hy⟩
    · obtain ⟨h1, h2⟩ := ih h
      exact ⟨List.mem_cons_of_mem x h1, List.mem_cons_of_mem x h2⟩

/-- In a duplicate-free list, `pairsOf` yields pairs of distinct elements. -/
theorem pairsOf_ne {α : Type} {l : List α} (hnd : l.Nodup) {p : α × α} :
    p ∈ pairsOf l → p.1 ≠ p.2 := by
  induction l with
  | nil => simp [pairsOf]
  | cons x xs ih =>
    intro h
    simp only [pairsOf, List.mem_append, List.mem_map] at h
    rcases h with ⟨y, hy, h⟩ | h
    · subst h
      intro hEq
      simp only at hEq
      exact (List.nodup_cons.mp hnd).1 (hEq ▸ hy)
    · exact ih (List.nodup_cons.mp hnd).2 h

theorem mem_triplesOf {α : Type} {l : List α} {t : α × α × α} :
    t ∈ triplesOf l → t.1 ∈ l ∧ t.2.1 ∈ l ∧ t.2.2 ∈ l := by
  induction l with
  | nil => simp [triplesOf]
  | cons x xs ih =>
    intro h
    simp only [triplesOf, List.mem_append, List.mem_map] at h
    rcases h with ⟨yz, hyz, h⟩ | h
    · obtain ⟨h1, h2⟩ := mem_pairsOf hyz
      subst h
      exact ⟨List.mem_cons_self x xs, List.mem_cons_of_mem x h1, List.mem_cons_of_mem x h2⟩
    · obtain ⟨h1, h2, h3⟩ := ih h
      exact ⟨List.mem_cons_of_mem x h1, List.mem_cons_of_mem x h2, List.mem_cons_of_mem x h3⟩

/-- In a duplicate-free list, `triplesOf` yields pairwise distinct triples. -/
theorem triplesOf_ne {α : Type} {l : List α} (hnd : l.Nodup) {t : α × α × α} :
    t ∈ triplesOf l → t.1 ≠ t.2.1 ∧ t.1 ≠ t.2.2 ∧ t.2.1 ≠ t.2.2 := by
  induction l with
  | nil => simp [triplesOf]
  | cons x xs ih =>
    intro h
    simp only [triplesOf, List.mem_append, List.mem_map] at h
    obtain ⟨hx, hnd2⟩ := List.nodup_cons.mp hnd
    rcases h with ⟨yz, hyz, h⟩ | h
    · obtain ⟨h1, h2⟩ := mem_pairsOf hyz
      subst h
      refine ⟨fun hEq => hx ?_, fun hEq => hx ?_, pairsOf_ne hnd2 hyz⟩
      · simp only at hEq; exact hEq ▸ h1
      · simp only at hEq; exact hEq ▸ h2
    · exact ih hnd2 h

theorem firstSome_isSome {α β : Type} {f : α → Option β} {l : List α}
    (h : ∃ x ∈ l, (f x).isSome) : (firstSome f l).isSome := by
  induction l with
  | nil => simp at h
  | cons x xs ih =>
    obtain ⟨y, hy, hfy⟩ := h
    rw [List.mem_cons] at hy
    show (match f x with | some v => some v | none => firstSome f xs).isSome
    cases hfx : f x with
    | some v => simp
    | none =>
      simp only
      rcases hy with rfl | hy
      · rw [hfx] at hfy; simp at hfy
      · exact ih ⟨y, hy, hfy⟩

theorem minByKey_mem {α : Type} {key : α → Nat} {l : List α} {x : α}
    (h : minByKey key l = some x) : x ∈ l := by
  match l with
  | [] => simp [minByKey] at h
  | y :: ys =>
    simp only [minByKey, Option.some.injEq] at h
    subst h
    have : ∀ (zs : List α) (b : α), b ∈ y :: ys → (∀ z ∈ zs, z ∈ y :: ys) →
        zs.foldl (fun best z => if key z < key best then z else best) b ∈ y :: ys := by
      intro zs
      induction zs with
      | nil => intro b hb _; exact hb
      | cons z zs ih2 =>
        intro b hb hzs
        simp only [List.foldl_cons]
        by_cases hlt : key z < key b
        · simp only [if_pos hlt]
          exact ih2 z (hzs z (List.mem_cons_self z zs)) fun w hw =>
            hzs w (List.mem_cons_of_mem z hw)
        · simp only [if_neg hlt]
          exact ih2 b hb fun w hw => hzs w (List.mem_cons_of_mem z hw)
    exact this ys y (List.mem_cons_self y ys) fun z hz => List.mem_cons_of_mem y hz

theorem minByKey_eq_none {α : Type} {key : α → Nat} {l : List α} :
    minByKey key l = none ↔ l = [] := by
  cases l <;> simp [minByKey]

/-! ## C10: `is_valid` leaves the grid unchanged -/

theorem setCellRaw_restore (g : SudokuGrid) (r c : Nat) :
    (g.setCellRaw r c 0).setCellRaw r c (g.grid r c) = g := by
  cases g with
  | mk size br bc grid cand =>
    simp only [SudokuGrid.setCellRaw]
    rw [upd2_restore]

theorem is_valid_aux_snd (cells : List (Nat × Nat)) :
    ∀ g : SudokuGrid, (g.is_valid_aux cells).2 = g := by
  induction cells with
  | nil => intro g; rfl
  | cons rc rest ih =>
    intro g
    obtain ⟨r, c⟩ := rc
    rw [SudokuGrid.is_valid_aux]
    by_cases h0 : g.grid r c = 0
    · simp only [if_pos h0]; exact ih g
    · simp only [if_neg h0]
      split
      · exact setCellRaw_restore g r c
      · split
        · exact setCellRaw_restore g r c
        · split
          · exact setCellRaw_restore g r c
          · rw [setCellRaw_restore g r c]; exact ih g

/-- The grid object returned by `is_valid` is the argument itself: the
temporary clearing is always restored, on the success path and on every
early-return failure path. -/
theorem is_valid_snd_eq (g : SudokuGrid) : g.is_valid.2 = g :=
  is_valid_aux_snd (allCellsList g.size) g

/-- C10: `is_valid` returns a boolean verdict and leaves the grid
observably unchanged: after the call (on every path) every cell value and
every candidate set equals its value before the call. -/
theorem C10_is_valid_frame (g : SudokuGrid) (r c : Nat) :
    (g.is_valid.2).grid r c = g.grid r c ∧
      (g.is_valid.2).candidates r c = g.candidates r c := by
  rw [is_valid_snd_eq]; exact ⟨rfl, rfl⟩

/-! ## C7: construction with an unsupported size -/

theorem recalc_foldl_shape (l : List (Nat × Nat)) :
    ∀ acc : SudokuGrid,
      ((l.foldl (fun acc rc =>
          if acc.grid rc.1 rc.2 > 0 then acc.set_value_pos rc.1 rc.2 (acc.grid rc.1 rc.2)
          else acc) acc)).size = acc.size ∧
      ((l.foldl (fun acc rc =>
          if acc.grid rc.1 rc.2 > 0 then acc.set_value_pos rc.1 rc.2 (acc.grid rc.1 rc.2)
          else acc) acc)).box_rows = acc.box_rows ∧
      ((l.foldl (fun acc rc =>
          if acc.grid rc.1 rc.2 > 0 then acc.set_value_pos rc.1 rc.2 (acc.grid rc.1 rc.2)
          else acc) acc)).box_cols = acc.box_cols := by
  induction l with
  | nil => intro acc; exact ⟨rfl, rfl, rfl⟩
  | cons rc rest ih =>
    intro acc
    simp only [List.foldl_cons]
    obtain ⟨h1, h2, h3⟩ := ih
      (if acc.grid rc.1 rc.2 > 0 then acc.set_value_pos rc.1 rc.2 (acc.grid rc.1 rc.2) else acc)
    refine ⟨h1.trans ?_, h2.trans ?_, h3.trans ?_⟩ <;> (split <;> rfl)

theorem recalc_shape (g : SudokuGrid) :
    g.recalculate_candidates.size = g.size ∧ g.recalculate_candidates.box_rows = g.box_rows ∧
      g.recalculate_candidates.box_cols = g.box_cols := by
  unfold SudokuGrid.recalculate_candidates
  exact recalc_foldl_shape _ _

theorem set_value_shape (g : SudokuGrid) (r c v : Nat) :
    (g.set_value r c v).size = g.size ∧ (g.set_value r c v).box_rows = g.box_rows ∧
      (g.set_value r c v).box_cols = g.box_cols := by
  unfold SudokuGrid.set_value
  split
  · exact ⟨rfl, rfl, rfl⟩
  · exact recalc_shape _

theorem from_string_go_shape (size : Nat) (l : List Char) :
    ∀ (i : Nat) (g g' : SudokuGrid), from_string_go size l i g = some g' →
      g'.size = g.size ∧ g'.box_rows = g.box_rows ∧ g'.box_cols = g.box_cols := by
  induction l with
  | nil =>
    intro i g g' h
    simp only [from_string_go, Option.some.injEq] at h
    subst h; exact ⟨rfl, rfl, rfl⟩
  | cons ch rest ih =>
    intro i g g' h
    rw [from_string_go] at h
    cases hch : int_of_char ch with
    | none => rw [hch] at h; exact absurd h (by simp)
    | some val =>
      rw [hch] at h
      simp only at h
      by_cases hv : val > 0
      · rw [if_pos hv] at h
        obtain ⟨h1, h2, h3⟩ := ih _ _ _ h
        obtain ⟨s1, s2, s3⟩ := set_value_shape g (i / size) (i % size) val
        exact ⟨h1.trans s1, h2.trans s2, h3.trans s3⟩
      · rw [if_neg hv] at h
        exact ih _ _ _ h

/-- C7 counterexample: the claim is false as stated — `from_string` does
not reject unsupported sizes: at size 7 it silently produces a (9×9)
grid instead of erroring. -/
theorem C7_counterexample :
    ¬ ∀ size : Nat, size ≠ 6 → size ≠ 9 →
        create_grid size = none ∧
          ∀ (s : String) (br bc : Nat), from_string s size br bc = none := by
  intro h
  have h2 := (h 7 (by omega) (by omega)).2 "0" 2 3
  rw [show from_string "0" 7 2 3 = some grid9x9 from rfl] at h2
  exact Option.noConfusion h2

/-- C7 (amended): `create_grid` rejects every size other than 6 and 9 with
an error, but `from_string` performs no size validation: for any size
other than 6 (digit input) it silently yields a grid with the 9×9
geometry. -/
theorem C7_unsupported_size :
    (∀ size : Nat, size ≠ 6 → size ≠ 9 → create_grid size = none) ∧
      (∀ (s : String) (size br bc : Nat) (g : SudokuGrid), size ≠ 6 →
        from_string s size br bc = some g →
          g.size = 9 ∧ g.box_rows = 3 ∧ g.box_cols = 3) := by
  constructor
  · intro size h6 h9
    simp [create_grid, h6, h9]
  · intro s size br bc g h6 h
    unfold from_string at h
    rw [if_neg h6] at h
    exact from_string_go_shape size s.data 0 grid9x9 g h

/-- C7 witness: at the concrete unsupported size 7, `create_grid` errors
while `from_string` produces a 9×9 grid. -/
theorem C7_unsupported_size_witness :
    create_grid 7 = none ∧
      ∃ g, from_string "0" 7 2 3 = some g ∧ g.size = 9 := by
  refine ⟨C7_unsupported_size.1 7 (by omega) (by omega), grid9x9, rfl, ?_⟩
  exact (C7_unsupported_size.2 "0" 7 2 3 grid9x9 (by omega) rfl).1

theorem repr_digit {d : Nat} (h : d ≤ 9) : (Nat.repr d).data = [Char.ofNat (48 + d)] := by
  interval_cases d <;> decide

theorem char_digit_isDigit {d : Nat} (h : d ≤ 9) : (Char.ofNat (48 + d)).isDigit = true := by
  interval_cases d <;> decide

theorem char_digit_val {d : Nat} (h : d ≤ 9) : (Char.ofNat (48 + d)).toNat - 48 = d := by
  interval_cases d <;> decide

theorem flatMap_eq_map {α β : Type} {f : α → List β} {h : α → β} {l : List α}
    (hf : ∀ x ∈ l, f x = [h x]) : l.flatMap f = l.map h := by
  induction l with
  | nil => rfl
  | cons x xs ih =>
    rw [List.flatMap_cons, List.map_cons, hf x (List.mem_cons_self x xs),
      ih fun y hy => hf y (List.mem_cons_of_mem x hy)]
    rfl

theorem allCellsList_length (n : Nat) : (allCellsList n).length = n * n := by
  show ((List.range n) ×ˢ (List.range n)).length = n * n
  rw [List.length_product, List.length_range]

theorem flatMap_range_length {β : Type} (f : Nat → List β) (L : Nat) :
    ∀ n : Nat, (∀ k < n, (f k).length = L) → ((List.range n).flatMap f).length = n * L := by
  intro n
  induction n with
  | zero => intro _; simp
  | succ m ih =>
    intro hf
    rw [List.range_succ, List.flatMap_append, List.length_append,
      ih fun k hk => hf k (Nat.lt_succ_of_lt hk)]
    simp only [List.flatMap_cons, List.flatMap_nil, List.length_append, List.length_nil]
    rw [hf m (Nat.lt_succ_self m)]
    ring

theorem flatMap_range_getElem {β : Type} (f : Nat → List β) (L : Nat) :
    ∀ (n q s : Nat), (∀ k < n, (f k).length = L) → q < n → s < L →
      ((List.range n).flatMap f)[q * L + s]? = (f q)[s]? := by
  intro n
  induction n with
  | zero => intro q s _ hq; omega
  | succ m ih =>
    intro q s hf hq hs
    rw [List.range_succ, List.flatMap_append]
    by_cases hqm : q < m
    · rw [List.getElem?_append_left, ih q s (fun k hk => hf k (Nat.lt_succ_of_lt hk)) hqm hs]
      rw [flatMap_range_length f L m fun k hk => hf k (Nat.lt_succ_of_lt hk)]
      have : q + 1 ≤ m := hqm
      calc q * L + s < q * L + L := by omega
        _ = (q + 1) * L := by ring
        _ ≤ m * L := Nat.mul_le_mul_right L this
    · have hq : q = m := by omega
      subst hq
      rw [List.getElem?_append_right
        (by rw [flatMap_range_length f L q fun k hk => hf k (Nat.lt_succ_of_lt hk)]; omega)]
      rw [flatMap_range_length f L q fun k hk => hf k (Nat.lt_succ_of_lt hk)]
      simp only [List.flatMap_cons, List.flatMap_nil, List.append_nil]
      congr 1
      omega

theorem allCellsList_getElem {n r c : Nat} (hr : r < n) (hc : c < n) :
    (allCellsList n)[r * n + c]? = some (r, c) := by
  unfold allCellsList
  rw [flatMap_range_getElem (fun r => (List.range n).map fun c => (r, c)) n n r c
    (fun k _ => by rw [List.length_map, List.length_range]) hr hc]
  rw [List.getElem?_map, List.getElem?_range hc]
  rfl

theorem set_value_pos_grid_same (g : SudokuGrid) (r c v : Nat) :
    (g.set_value_pos r c v).grid r c = v := upd2_same g.grid r c v

theorem set_value_pos_grid_other (g : SudokuGrid) (r c v r' c' : Nat)
    (h : ¬(r' = r ∧ c' = c)) : (g.set_value_pos r c v).grid r' c' = g.grid r' c' :=
  upd2_other g.grid r c v r' c' h

theorem rsc_div {size r c : Nat} (hc : c < size) : (r * size + c) / size = r := by
  rw [Nat.add_comm, Nat.add_mul_div_right c r (by omega), Nat.div_eq_of_lt hc]
  omega

theorem rsc_mod {size r c : Nat} (hc : c < size) : (r * size + c) % size = c := by
  rw [Nat.add_comm, Nat.add_mul_mod_self_right]
  exact Nat.mod_eq_of_lt hc

theorem from_string_go_untouched (size : Nat) (hsize : 0 < size) (l : List Char) :
    ∀ (i : Nat) (g g' : SudokuGrid), from_string_go size l i g = some g' →
      ∀ r c : Nat,
        (r * size + c < i ∨ i + l.length ≤ r * size + c ∨ size ≤ c) →
        g'.grid r c = g.grid r c := by
  induction l with
  | nil =>
    intro i g g' h r c _
    simp only [from_string_go, Option.some.injEq] at h
    subst h; rfl
  | cons ch rest ih =>
    intro i g g' h r c hout
    rw [from_string_go] at h
    cases hch : int_of_char ch with
    | none => rw [hch] at h; exact absurd h (by simp)
    | some val =>
      rw [hch] at h
      simp only at h
      have hnotme : ¬(i / size = r ∧ i % size = c) := by
        rintro ⟨rfl, rfl⟩
        have h2 : (i / size) * size + i % size = i := by
          rw [Nat.mul_comm]; exact Nat.div_add_mod i size
        have h3 := Nat.mod_lt i hsize
        simp only [List.length_cons] at hout
        omega
      by_cases hv : val > 0
      · rw [if_pos hv] at h
        rw [ih (i + 1) _ g' h r c (by simp only [List.length_cons] at hout ⊢; omega)]
        unfold SudokuGrid.set_value
        rw [if_pos hv]
        exact set_value_pos_grid_other g (i / size) (i % size) val r c
          (by rintro ⟨rfl, rfl⟩; exact hnotme ⟨rfl, rfl⟩)
      · rw [if_neg hv] at h
        exact ih (i + 1) _ g' h r c (by simp only [List.length_cons] at hout ⊢; omega)

theorem from_string_go_value (size : Nat) (hsize : 0 < size) (l : List Char) :
    ∀ (i : Nat) (g g' : SudokuGrid), from_string_go size l i g = some g' →
      ∀ r c : Nat, c < size → i ≤ r * size + c → r * size + c < i + l.length →
        g'.grid r c =
          (if 0 < (l.getD (r * size + c - i) '0').toNat - 48
           then (l.getD (r * size + c - i) '0').toNat - 48
           else g.grid r c) := by
  induction l with
  | nil => intro i g g' h r c _ hlo hhi; simp only [List.length_nil] at hhi; omega
  | cons ch rest ih =>
    intro i g g' h r c hc hlo hhi
    rw [from_string_go] at h
    cases hch : int_of_char ch with
    | none => rw [hch] at h; exact absurd h (by simp)
    | some val =>
      rw [hch] at h
      simp only at h
      have hval : val = ch.toNat - 48 := by
        unfold int_of_char at hch
        split at hch
        · exact (Option.some_inj.mp hch).symm
        · exact absurd hch (by simp)
      by_cases hme : r * size + c = i
      · have hdr : i / size = r := by rw [← hme]; exact rsc_div hc
        have hdc : i % size = c := by rw [← hme]; exact rsc_mod hc
        have hgetD : (ch :: rest).getD (r * size + c - i) '0' = ch := by
          rw [hme, Nat.sub_self]; exact List.getD_cons_zero
        rw [hgetD, ← hval]
        by_cases hv : val > 0
        · rw [if_pos hv] at h
          rw [from_string_go_untouched size hsize rest (i + 1) _ g' h r c (by omega)]
          unfold SudokuGrid.set_value
          rw [if_pos hv, hdr, hdc, if_pos hv]
          exact set_value_pos_grid_same g r c val
        · rw [if_neg hv] at h
          rw [from_string_go_untouched size hsize rest (i + 1) g g' h r c (by omega)]
          rw [if_neg (by omega)]
      · have hgt : i < r * size + c := by omega
        have hgetD : (ch :: rest).getD (r * size + c - i) '0' =
            rest.getD (r * size + c - (i + 1)) '0' := by
          have he : r * size + c - i = (r * size + c - (i + 1)) + 1 := by omega
          rw [he]; exact List.getD_cons_succ
        rw [hgetD]
        have hnotme : ¬(r = i / size ∧ c = i % size) := by
          rintro ⟨rfl, rfl⟩
          have h2 : (i / size) * size + i % size = i := by
            rw [Nat.mul_comm]; exact Nat.div_add_mod i size
          omega
        by_cases hv : val > 0
        · rw [if_pos hv] at h
          rw [ih (i + 1) _ g' h r c hc (by omega)
            (by simp only [List.length_cons] at hhi; omega)]
          have hsv : (g.set_value (i / size) (i % size) val).grid r c = g.grid r c := by
            unfold SudokuGrid.set_value
            rw [if_pos hv]
            exact set_value_pos_grid_other g (i / size) (i % size) val r c hnotme
          rw [hsv]
        · rw [if_neg hv] at h
          exact ih (i + 1) g g' h r c hc (by omega)
            (by simp only [List.length_cons] at hhi; omega)

theorem from_string_go_isSome (size : Nat) (l : List Char) :
    ∀ (i : Nat) (g : SudokuGrid), (∀ ch ∈ l, ch.isDigit = true) →
      ∃ g', from_string_go size l i g = some g' := by
  induction l with
  | nil => intro i g _; exact ⟨g, rfl⟩
  | cons ch rest ih =>
    intro i g hd
    rw [from_string_go]
    have hch : int_of_char ch = some (ch.toNat - 48) := by
      unfold int_of_char
      rw [if_pos (hd ch (List.mem_cons_self ch rest))]
    rw [hch]
    simp only
    by_cases hv : ch.toNat - 48 > 0
    · rw [if_pos hv]
      exact ih (i + 1) _ fun x hx => hd x (List.mem_cons_of_mem ch hx)
    · rw [if_neg hv]
      exact ih (i + 1) g fun x hx => hd x (List.mem_cons_of_mem ch hx)

theorem to_string_data (g : SudokuGrid)
    (hval : ∀ r c, r < g.size → c < g.size → g.grid r c ≤ 9) :
    (g.to_string).data =
      (allCellsList g.size).map fun rc => Char.ofNat (48 + g.grid rc.1 rc.2) := by
  show ((allCellsList g.size).flatMap fun rc => (Nat.repr (g.grid rc.1 rc.2)).data) = _
  exact flatMap_eq_map fun rc hrc => by
    obtain ⟨h1, h2⟩ := mem_allCellsList.mp hrc
    exact repr_digit (hval rc.1 rc.2 h1 h2)

/-- C9: for a well-formed grid with all cell values in `[0, size]`,
`to_string` is the row-major concatenation of the `size²` digit characters
(one per cell, `'0'` for blank), and `from_string (to_string g)` succeeds
and reproduces every cell value of `g`. -/
theorem C9_serialization_roundtrip (g : SudokuGrid) (hgeom : WFGeom g)
    (hval : ∀ r, r < g.size → ∀ c, c < g.size → g.grid r c ≤ g.size) :
    (g.to_string).data =
      ((allCellsList g.size).map fun rc => Char.ofNat (48 + g.grid rc.1 rc.2)) ∧
    (g.to_string).data.length = g.size * g.size ∧
    ∃ g', from_string g.to_string g.size g.box_rows g.box_cols = some g' ∧
      ∀ r c, r < g.size → c < g.size → g'.grid r c = g.grid r c := by
  have hsize9 : g.size ≤ 9 := by rcases hgeom with ⟨h, _⟩ | ⟨h, _⟩ <;> omega
  have hsize0 : 0 < g.size := by rcases hgeom with ⟨h, _⟩ | ⟨h, _⟩ <;> omega
  have hval9 : ∀ r c, r < g.size → c < g.size → g.grid r c ≤ 9 :=
    fun r c hr hc => (hval r hr c hc).trans hsize9
  have hdata := to_string_data g hval9
  have hlen : (g.to_string).data.length = g.size * g.size := by
    rw [hdata, List.length_map, allCellsList_length]
  refine ⟨hdata, hlen, ?_⟩
  have hdigits : ∀ ch ∈ (g.to_string).data, ch.isDigit = true := by
    intro ch hch
    rw [hdata] at hch
    obtain ⟨rc, hrc, hcheq⟩ := List.mem_map.mp hch
    obtain ⟨h1, h2⟩ := mem_allCellsList.mp hrc
    rw [← hcheq]
    exact char_digit_isDigit (hval9 rc.1 rc.2 h1 h2)
  unfold from_string
  obtain ⟨g', hg'⟩ := from_string_go_isSome g.size (g.to_string).data 0
    (if g.size = 6 then grid6x6 else grid9x9) hdigits
  refine ⟨g', hg', ?_⟩
  intro r c hr hc
  have hrsc : r * g.size + c < g.size * g.size := by
    calc r * g.size + c < r * g.size + g.size := by omega
      _ = (r + 1) * g.size := by ring
      _ ≤ g.size * g.size := Nat.mul_le_mul_right g.size (by omega)
  have hv := from_string_go_value g.size hsize0 (g.to_string).data 0 _ g' hg' r c hc
    (by omega) (by omega)
  have hgetD : ((g.to_string).data).getD (r * g.size + c - 0) '0' =
      Char.ofNat (48 + g.grid r c) := by
    rw [Nat.sub_zero, List.getD_eq_getElem?_getD, hdata, List.getElem?_map,
      allCellsList_getElem hr hc]
    rfl
  rw [hgetD, char_digit_val (hval9 r c hr hc)] at hv
  by_cases hz : 0 < g.grid r c
  · rw [hv, if_pos hz]
  · rw [hv, if_neg hz]
    have : g.grid r c = 0 := by omega
    rw [this]
    split <;> rfl

/-- C9 witness: the round-trip at a concrete 6×6 grid with one filled
cell. -/
theorem C9_serialization_roundtrip_witness :
    ∃ g', from_string (grid6x6.set_value 0 0 1).to_string 6 2 3 = some g' ∧
      g'.grid 0 0 = 1 := by
  obtain ⟨-, -, g', hg', hvals⟩ :=
    C9_serialization_roundtrip (grid6x6.set_value 0 0 1) (Or.inl ⟨rfl, rfl, rfl⟩)
      (by decide)
  exact ⟨g', hg', by rw [hvals 0 0 (by decide) (by decide)]; decide⟩

/-! ## C3: solution counting is bounded, uniqueness is the count-2 test -/

theorem foldl_preserve {α : Type} (P : Nat → Prop) (f : Nat → α → Nat)
    (hf : ∀ c a, P c → P (f c a)) : ∀ (l : List α) (c : Nat), P c → P (l.foldl f c) := by
  intro l
  induction l with
  | nil => intro c hc; exact hc
  | cons a as ih => intro c hc; rw [List.foldl_cons]; exact ih (f c a) (hf c a hc)

theorem solve_count_le (limit : Nat) :
    ∀ (fuel : Nat) (g : SudokuGrid) (count : Nat), count ≤ limit →
      solve_count limit fuel g count ≤ limit := by
  intro fuel
  induction fuel with
  | zero => intro g count hc; exact hc
  | succ n ih =>
    intro g count hc
    show solve_count_step (solve_count limit n) limit g count ≤ limit
    unfold solve_count_step
    by_cases hge : count ≥ limit
    · rw [if_pos hge]; exact hc
    · rw [if_neg hge]
      cases hmin : minByKey (fun rc => (g.get_candidates rc.1 rc.2).card) g.get_empty_cells with
      | none =>
        simp only
        split
        · omega
        · exact hc
      | some rc =>
        simp only
        exact foldl_preserve (· ≤ limit) _
          (fun c a hca => by
            simp only
            split
            · exact ih _ c hca
            · exact hca)
          _ count hc

/-- C3: `has_unique_solution g` holds exactly when `count_solutions g 2`
returns 1, and for every limit the counter never returns a value above the
limit (every branch is pruned once `limit` complete solutions have been
found). -/
theorem C3_solution_counting (g : SudokuGrid) (hgeom : WFGeom g) :
    (has_unique_solution g = true ↔ count_solutions g 2 = 1) ∧
      ∀ limit : Nat, count_solutions g limit ≤ limit := by
  constructor
  · unfold has_unique_solution
    exact beq_iff_eq
  · intro limit
    exact solve_count_le limit (g.size * g.size + 1) g 0 (Nat.zero_le limit)

/-- C3 witness: at the concrete empty 6×6 grid, the counting bound holds
at limit 2. -/
theorem C3_solution_counting_witness :
    WFGeom grid6x6 ∧ count_solutions grid6x6 2 ≤ 2 :=
  ⟨by decide, (C3_solution_counting grid6x6 (by decide)).2 2⟩

/-! ## C5: clearing a cell rebuilds the candidate invariant -/

theorem div_eq_iff_range {b q r : Nat} (hb : 0 < b) :
    r / b = q ↔ q * b ≤ r ∧ r < q * b + b := by
  constructor
  · rintro rfl
    have h1 : b * (r / b) + r % b = r := Nat.div_add_mod r b
    have h2 : r % b < b := Nat.mod_lt r hb
    rw [Nat.mul_comm] at h1
    omega
  · rintro ⟨h1, h2⟩
    exact Nat.div_eq_of_lt_le h1 (by rw [Nat.succ_mul]; omega)

theorem hits_iff (g : SudokuGrid) (hbr : 0 < g.box_rows) (hbc : 0 < g.box_cols)
    (row col r c : Nat) :
    g.hits row col r c ↔
      (r = row ∧ c < g.size) ∨ (c = col ∧ r < g.size) ∨
        (r / g.box_rows = row / g.box_rows ∧ c / g.box_cols = col / g.box_cols) := by
  unfold SudokuGrid.hits
  constructor
  · rintro (h | h | ⟨h1, h2, h3, h4⟩)
    · exact Or.inl h
    · exact Or.inr (Or.inl h)
    · exact Or.inr (Or.inr ⟨(div_eq_iff_range hbr).mpr ⟨h1, h2⟩,
        (div_eq_iff_range hbc).mpr ⟨h3, h4⟩⟩)
  · rintro (h | h | ⟨h1, h2⟩)
    · exact Or.inl h
    · exact Or.inr (Or.inl h)
    · obtain ⟨k1, k2⟩ := (div_eq_iff_range hbr).mp h1
      obtain ⟨k3, k4⟩ := (div_eq_iff_range hbc).mp h2
      exact Or.inr (Or.inr ⟨k1, k2, k3, k4⟩)

theorem WFGeom_br_pos {g : SudokuGrid} (hgeom : WFGeom g) : 0 < g.box_rows := by
  rcases hgeom with ⟨_, h, _⟩ | ⟨_, h, _⟩ <;> omega

theorem WFGeom_bc_pos {g : SudokuGrid} (hgeom : WFGeom g) : 0 < g.box_cols := by
  rcases hgeom with ⟨_, _, h⟩ | ⟨_, _, h⟩ <;> omega

theorem box_bound_row {g : SudokuGrid} (hgeom : WFGeom g) {row : Nat} (h : row < g.size) :
    (row / g.box_rows) * g.box_rows + g.box_rows ≤ g.size := by
  rcases hgeom with ⟨h1, h2, h3⟩ | ⟨h1, h2, h3⟩ <;> rw [h1] at h <;> rw [h1, h2] <;> omega

theorem box_bound_col {g : SudokuGrid} (hgeom : WFGeom g) {col : Nat} (h : col < g.size) :
    (col / g.box_cols) * g.box_cols + g.box_cols ≤ g.size := by
  rcases hgeom with ⟨h1, h2, h3⟩ | ⟨h1, h2, h3⟩ <;> rw [h1] at h <;> rw [h1, h3] <;> omega

theorem mem_get_box_cells {g : SudokuGrid} {row col : Nat} {p : Nat × Nat} :
    p ∈ g.get_box_cells row col ↔
      ∃ i < g.box_rows, ∃ j < g.box_cols,
        p = ((row / g.box_rows) * g.box_rows + i, (col / g.box_cols) * g.box_cols + j) := by
  unfold SudokuGrid.get_box_cells
  simp only [List.mem_flatMap, List.mem_map, List.mem_range]
  constructor
  · rintro ⟨i, hi, j, hj, h⟩; exact ⟨i, hi, j, hj, h.symm⟩
  · rintro ⟨i, hi, j, hj, h⟩; exact ⟨i, hi, j, hj, h.symm⟩

theorem mem_get_peers {g : SudokuGrid} (hgeom : WFGeom g) {row col : Nat}
    (hrow : row < g.size) (hcol : col < g.size) {p : Nat × Nat} :
    p ∈ g.get_peers row col ↔
      p ≠ (row, col) ∧ p.1 < g.size ∧ p.2 < g.size ∧
        (p.1 = row ∨ p.2 = col ∨
          (p.1 / g.box_rows = row / g.box_rows ∧ p.2 / g.box_cols = col / g.box_cols)) := by
  have hbr := WFGeom_br_pos hgeom
  have hbc := WFGeom_bc_pos hgeom
  unfold SudokuGrid.get_peers
  rw [Finset.mem_erase]
  simp only [Finset.mem_union, Finset.mem_image, Finset.mem_range, List.mem_toFinset]
  constructor
  · rintro ⟨hne, (⟨c, hc, hp⟩ | ⟨r, hr, hp⟩) | hbox⟩
    · subst hp; exact ⟨hne, hrow, hc, Or.inl rfl⟩
    · subst hp; exact ⟨hne, hr, hcol, Or.inr (Or.inl rfl)⟩
    · obtain ⟨i, hi, j, hj, hp⟩ := mem_get_box_cells.mp hbox
      subst hp
      refine ⟨hne, ?_, ?_, Or.inr (Or.inr ⟨?_, ?_⟩)⟩
      · have := box_bound_row hgeom hrow; omega
      · have := box_bound_col hgeom hcol; omega
      · exact (div_eq_iff_range hbr).mpr ⟨by omega, by omega⟩
      · exact (div_eq_iff_range hbc).mpr ⟨by omega, by omega⟩
  · rintro ⟨hne, h1, h2, (hp | hp | ⟨hd1, hd2⟩)⟩
    · refine ⟨hne, Or.inl (Or.inl ⟨p.2, h2, ?_⟩)⟩
      rw [← hp]
    · refine ⟨hne, Or.inl (Or.inr ⟨p.1, h1, ?_⟩)⟩
      rw [← hp]
    · refine ⟨hne, Or.inr (mem_get_box_cells.mpr ?_)⟩
      obtain ⟨k1, k2⟩ := (div_eq_iff_range hbr).mp hd1
      obtain ⟨k3, k4⟩ := (div_eq_iff_range hbc).mp hd2
      exact ⟨p.1 - (row / g.box_rows) * g.box_rows, by omega,
        p.2 - (col / g.box_cols) * g.box_cols, by omega,
        by rw [Prod.ext_iff]; constructor <;> simp <;> omega⟩

theorem upd2_self {α : Type} (f : Nat → Nat → α) (r c r' c' : Nat) :
    upd2 f r c (f r c) r' c' = f r' c' := by
  unfold upd2
  split
  · rename_i h; obtain ⟨rfl, rfl⟩ := h; rfl
  · rfl

theorem hits_congr {g1 g2 : SudokuGrid} (hs : g1.size = g2.size)
    (hbr : g1.box_rows = g2.box_rows) (hbc : g1.box_cols = g2.box_cols)
    (row col r c : Nat) : g1.hits row col r c ↔ g2.hits row col r c := by
  unfold SudokuGrid.hits
  rw [hs, hbr, hbc]

theorem recalc_foldl_values (l : List (Nat × Nat)) :
    ∀ (acc : SudokuGrid) (r c : Nat),
      (l.foldl (fun acc rc =>
        if acc.grid rc.1 rc.2 > 0 then acc.set_value_pos rc.1 rc.2 (acc.grid rc.1 rc.2)
        else acc) acc).grid r c = acc.grid r c := by
  induction l with
  | nil => intro acc r c; rfl
  | cons q rest ih =>
    intro acc r c
    rw [List.foldl_cons, ih]
    split
    · exact upd2_self acc.grid q.1 q.2 r c
    · rfl

theorem recalc_fold_cand (g0 : SudokuGrid) (l : List (Nat × Nat)) :
    ∀ (acc : SudokuGrid),
      acc.size = g0.size → acc.box_rows = g0.box_rows → acc.box_cols = g0.box_cols →
      (∀ r c, acc.grid r c = g0.grid r c) →
      ∀ r c : Nat,
      (l.foldl (fun acc rc =>
        if acc.grid rc.1 rc.2 > 0 then acc.set_value_pos rc.1 rc.2 (acc.grid rc.1 rc.2)
        else acc) acc).candidates r c =
        (if (r, c) ∈ l ∧ g0.grid r c > 0 then (∅ : Finset Nat)
         else (acc.candidates r c).filter
          fun v => ¬ ∃ p ∈ l, g0.grid p.1 p.2 > 0 ∧ g0.grid p.1 p.2 = v ∧ g0.hits p.1 p.2 r c) := by
  induction l with
  | nil =>
    intro acc hsz hbr hbc hvals r c
    simp only [List.foldl_nil, List.not_mem_nil, false_and, if_false]
    rw [Finset.filter_true_of_mem]
    intro v hv
    rintro ⟨p, hp, _⟩
    exact List.not_mem_nil p hp
  | cons q rest ih =>
    obtain ⟨q1, q2⟩ := q
    intro acc hsz hbr hbc hvals r c
    rw [List.foldl_cons]
    have hstep_vals : ∀ r' c',
        (if acc.grid q1 q2 > 0 then acc.set_value_pos q1 q2 (acc.grid q1 q2)
         else acc).grid r' c' = g0.grid r' c' := by
      intro r' c'
      split
      · rw [show (acc.set_value_pos q1 q2 (acc.grid q1 q2)).grid r' c' =
          upd2 acc.grid q1 q2 (acc.grid q1 q2) r' c' from rfl,
          upd2_self acc.grid q1 q2 r' c']
        exact hvals r' c'
      · exact hvals r' c'
    have hs1 : (if acc.grid q1 q2 > 0 then acc.set_value_pos q1 q2 (acc.grid q1 q2)
        else acc).size = g0.size := by split <;> exact hsz
    have hs2 : (if acc.grid q1 q2 > 0 then acc.set_value_pos q1 q2 (acc.grid q1 q2)
        else acc).box_rows = g0.box_rows := by split <;> exact hbr
    have hs3 : (if acc.grid q1 q2 > 0 then acc.set_value_pos q1 q2 (acc.grid q1 q2)
        else acc).box_cols = g0.box_cols := by split <;> exact hbc
    rw [ih _ hs1 hs2 hs3 hstep_vals r c]
    by_cases hfq : g0.grid q1 q2 > 0
    · have haq : acc.grid q1 q2 > 0 := by rw [hvals]; exact hfq
      rw [if_pos haq]
      by_cases hrc : r = q1 ∧ c = q2
      · obtain ⟨rfl, rfl⟩ := hrc
        conv_rhs => rw [if_pos (⟨List.mem_cons_self _ _, hfq⟩ :
          (r, c) ∈ (r, c) :: rest ∧ g0.grid r c > 0)]
        have hc0 : (acc.set_value_pos r c (acc.grid r c)).candidates r c = ∅ := by
          show (if r = r ∧ c = c then (∅ : Finset Nat) else _) = ∅
          rw [if_pos ⟨rfl, rfl⟩]
        rw [hc0, Finset.filter_empty]
        split <;> rfl
      · have hcands : (acc.set_value_pos q1 q2 (acc.grid q1 q2)).candidates r c =
            (if acc.hits q1 q2 r c then (acc.candidates r c).erase (acc.grid q1 q2)
             else acc.candidates r c) := by
          show (if r = q1 ∧ c = q2 then (∅ : Finset Nat) else _) = _
          rw [if_neg hrc]
        rw [hcands, hvals q1 q2]
        have hmem_iff : (r, c) ∈ (q1, q2) :: rest ↔ (r, c) ∈ rest := by
          rw [List.mem_cons]
          constructor
          · rintro (h | h)
            · rw [Prod.mk.injEq] at h; exact absurd h hrc
            · exact h
          · exact fun h => Or.inr h
        by_cases hin : (r, c) ∈ rest ∧ g0.grid r c > 0
        · rw [if_pos hin, if_pos (⟨hmem_iff.mpr hin.1, hin.2⟩ :
            (r, c) ∈ (q1, q2) :: rest ∧ g0.grid r c > 0)]
        · rw [if_neg hin, if_neg (show ¬((r, c) ∈ (q1, q2) :: rest ∧ g0.grid r c > 0) from
            fun h => hin ⟨hmem_iff.mp h.1, h.2⟩)]
          have hhits_iff := hits_congr hsz hbr hbc q1 q2 r c
          by_cases hhit : g0.hits q1 q2 r c
          · rw [if_pos (hhits_iff.mpr hhit)]
            ext v
            simp only [Finset.mem_filter, Finset.mem_erase, List.mem_cons]
            constructor
            · rintro ⟨⟨hvne, hvmem⟩, hnex⟩
              refine ⟨hvmem, ?_⟩
              rintro ⟨p, hp, hpf, hpv, hph⟩
              rcases hp with rfl | hp
              · exact hvne hpv.symm
              · exact hnex ⟨p, hp, hpf, hpv, hph⟩
            · rintro ⟨hvmem, hnex⟩
              refine ⟨⟨fun hveq => hnex ⟨(q1, q2), Or.inl rfl, hfq, hveq.symm, hhit⟩, hvmem⟩,
                fun hex => ?_⟩
              obtain ⟨p, hp, hpf, hpv, hph⟩ := hex
              exact hnex ⟨p, Or.inr hp, hpf, hpv, hph⟩
          · rw [if_neg (fun h => hhit (hhits_iff.mp h))]
            ext v
            simp only [Finset.mem_filter, List.mem_cons]
            constructor
            · rintro ⟨hvmem, hnex⟩
              refine ⟨hvmem, ?_⟩
              rintro ⟨p, hp, hpf, hpv, hph⟩
              rcases hp with rfl | hp
              · exact hhit hph
              · exact hnex ⟨p, hp, hpf, hpv, hph⟩
            · rintro ⟨hvmem, hnex⟩
              refine ⟨hvmem, ?_⟩
              rintro ⟨p, hp, hpf, hpv, hph⟩
              exact hnex ⟨p, Or.inr hp, hpf, hpv, hph⟩
    · have haq : ¬acc.grid q1 q2 > 0 := by rw [hvals]; exact hfq
      rw [if_neg haq]
      by_cases hin : (r, c) ∈ rest ∧ g0.grid r c > 0
      · rw [if_pos hin, if_pos (⟨List.mem_cons_of_mem _ hin.1, hin.2⟩ :
          (r, c) ∈ (q1, q2) :: rest ∧ g0.grid r c > 0)]
      · have hin2 : ¬((r, c) ∈ (q1, q2) :: rest ∧ g0.grid r c > 0) := by
          rintro ⟨hm, hf⟩
          rcases List.mem_cons.mp hm with h | h
          · rw [Prod.mk.injEq] at h
            obtain ⟨rfl, rfl⟩ := h
            exact hfq hf
          · exact hin ⟨h, hf⟩
        rw [if_neg hin, if_neg hin2]
        ext v
        simp only [Finset.mem_filter, List.mem_cons]
        constructor
        · rintro ⟨hvmem, hnex⟩
          refine ⟨hvmem, ?_⟩
          rintro ⟨p, hp, hpf, hpv, hph⟩
          rcases hp with rfl | hp
          · exact hfq hpf
          · exact hnex ⟨p, hp, hpf, hpv, hph⟩
        · rintro ⟨hvmem, hnex⟩
          refine ⟨hvmem, ?_⟩
          rintro ⟨p, hp, hpf, hpv, hph⟩
          exact hnex ⟨p, Or.inr hp, hpf, hpv, hph⟩

theorem get_peers_congr {g1 g2 : SudokuGrid} (hs : g1.size = g2.size)
    (hbr : g1.box_rows = g2.box_rows) (hbc : g1.box_cols = g2.box_cols) (r c : Nat) :
    g1.get_peers r c = g2.get_peers r c := by
  unfold SudokuGrid.get_peers SudokuGrid.get_box_cells
  rw [hs, hbr, hbc]

theorem recalc_grid_eq (g : SudokuGrid) (r c : Nat) :
    g.recalculate_candidates.grid r c = g.grid r c :=
  recalc_foldl_values (allCellsList g.size) _ r c

theorem recalc_invariant (g : SudokuGrid) (hgeom : WFGeom g) :
    (∀ r, r < g.size → ∀ c, c < g.size → g.recalculate_candidates.grid r c ≠ 0 →
      g.recalculate_candidates.candidates r c = ∅) ∧
    (∀ r, r < g.size → ∀ c, c < g.size → g.recalculate_candidates.grid r c = 0 →
      g.recalculate_candidates.candidates r c =
        Finset.Icc 1 g.size \ peerValues g.recalculate_candidates r c) := by
  have hbr := WFGeom_br_pos hgeom
  have hbc := WFGeom_bc_pos hgeom
  have hcand : ∀ r c : Nat,
      g.recalculate_candidates.candidates r c =
        (if (r, c) ∈ allCellsList g.size ∧ g.grid r c > 0 then (∅ : Finset Nat)
         else (fullCands g.size).filter
          fun v => ¬ ∃ p ∈ allCellsList g.size,
            g.grid p.1 p.2 > 0 ∧ g.grid p.1 p.2 = v ∧ g.hits p.1 p.2 r c) :=
    recalc_fold_cand g (allCellsList g.size)
      { g with candidates := fun _ _ => fullCands g.size } rfl rfl rfl (fun _ _ => rfl)
  have hshape := recalc_shape g
  constructor
  · intro r hr c hc hne
    rw [recalc_grid_eq] at hne
    rw [hcand r c, if_pos ⟨mem_allCellsList.mpr ⟨hr, hc⟩, by omega⟩]
  · intro r hr c hc hz
    rw [recalc_grid_eq] at hz
    rw [hcand r c, if_neg (by rintro ⟨_, h2⟩; omega)]
    ext v
    simp only [Finset.mem_filter, Finset.mem_sdiff]
    show v ∈ fullCands g.size ∧ _ ↔ v ∈ Finset.Icc 1 g.size ∧ _
    unfold fullCands
    constructor
    · rintro ⟨hv, hnex⟩
      refine ⟨hv, fun hpv => ?_⟩
      unfold peerValues at hpv
      rw [Finset.mem_image] at hpv
      obtain ⟨p, hp, hpval⟩ := hpv
      rw [Finset.mem_filter] at hp
      obtain ⟨hpeer, hpfill⟩ := hp
      rw [get_peers_congr hshape.1 hshape.2.1 hshape.2.2] at hpeer
      rw [mem_get_peers hgeom hr hc] at hpeer
      obtain ⟨hpne, hp1, hp2, hor⟩ := hpeer
      rw [recalc_grid_eq] at hpfill hpval
      refine hnex ⟨p, mem_allCellsList.mpr ⟨hp1, hp2⟩, by omega, hpval, ?_⟩
      rw [hits_iff g hbr hbc]
      rcases hor with h | h | h
      · exact Or.inl ⟨h.symm, hc⟩
      · exact Or.inr (Or.inl ⟨h.symm, hr⟩)
      · exact Or.inr (Or.inr ⟨h.1.symm, h.2.symm⟩)
    · rintro ⟨hv, hnpv⟩
      refine ⟨hv, fun hex => ?_⟩
      obtain ⟨p, hpmem, hpfill, hpval, hph⟩ := hex
      obtain ⟨hp1, hp2⟩ := mem_allCellsList.mp hpmem
      apply hnpv
      unfold peerValues
      rw [Finset.mem_image]
      refine ⟨p, ?_, by rw [recalc_grid_eq]; exact hpval⟩
      rw [Finset.mem_filter]
      constructor
      · rw [get_peers_congr hshape.1 hshape.2.1 hshape.2.2]
        rw [mem_get_peers hgeom hr hc]
        refine ⟨?_, hp1, hp2, ?_⟩
        · rintro rfl
          have hp0 : g.grid r c > 0 := hpfill
          omega
        · rw [hits_iff g hbr hbc] at hph
          rcases hph with h | h | h
          · exact Or.inl h.1.symm
          · exact Or.inr (Or.inl h.1.symm)
          · exact Or.inr (Or.inr ⟨h.1.symm, h.2.symm⟩)
      · rw [recalc_grid_eq]; omega

/-- C5: after `set_value(r, c, 0)` the whole grid satisfies the candidate
invariant: every filled cell has an empty candidate set, and every empty
cell's candidate set is exactly `[1, size]` minus the values of its
filled row/column/box peers. -/
theorem C5_clear_cell_rebuilds_candidates (g : SudokuGrid) (hgeom : WFGeom g)
    (row col : Nat) :
    (∀ r, r < (g.set_value row col 0).size → ∀ c, c < (g.set_value row col 0).size →
      (g.set_value row col 0).grid r c ≠ 0 → (g.set_value row col 0).candidates r c = ∅) ∧
    (∀ r, r < (g.set_value row col 0).size → ∀ c, c < (g.set_value row col 0).size →
      (g.set_value row col 0).grid r c = 0 →
      (g.set_value row col 0).candidates r c =
        Finset.Icc 1 (g.set_value row col 0).size \
          peerValues (g.set_value row col 0) r c) := by
  have hdef : g.set_value row col 0 =
      SudokuGrid.recalculate_candidates { g with grid := upd2 g.grid row col 0 } := by
    unfold SudokuGrid.set_value
    rw [if_neg (by omega)]
  rw [hdef]
  have hgeomU : WFGeom { g with grid := upd2 g.grid row col 0 } := hgeom
  have h := recalc_invariant { g with grid := upd2 g.grid row col 0 } hgeomU
  have hsz : (SudokuGrid.recalculate_candidates
      { g with grid := upd2 g.grid row col 0 }).size = g.size :=
    (recalc_shape _).1
  rw [hsz]
  exact h

/-- C5 witness: clearing cell (0,0) of the (empty) 6×6 grid leaves every
empty cell with the full candidate range minus its peers' values. -/
theorem C5_clear_cell_rebuilds_candidates_witness :
    WFGeom grid6x6 ∧
      (grid6x6.set_value 0 0 0).candidates 1 1 =
        Finset.Icc 1 (grid6x6.set_value 0 0 0).size \
          peerValues (grid6x6.set_value 0 0 0) 1 1 :=
  ⟨by decide,
    (C5_clear_cell_rebuilds_candidates grid6x6 (by decide) 0 0).2 1 (by decide) 1
      (by decide) (by decide)⟩

theorem sol_surj_on {g : SudokuGrid} {s : Nat → Nat → Nat} (hsol : IsSolution g s)
    (F : Finset (Nat × Nat))
    (hrange : ∀ p ∈ F, p.1 < g.size ∧ p.2 < g.size)
    (hinj : ∀ p ∈ F, ∀ q ∈ F, p ≠ q → s p.1 p.2 ≠ s q.1 q.2)
    (hcard : F.card = g.size) {v : Nat} (hv : v ∈ Finset.Icc 1 g.size) :
    ∃ p ∈ F, s p.1 p.2 = v := by
  have hsub : F.image (fun p => s p.1 p.2) ⊆ Finset.Icc 1 g.size := by
    intro x hx
    rw [Finset.mem_image] at hx
    obtain ⟨p, hp, rfl⟩ := hx
    obtain ⟨h1, h2⟩ := hrange p hp
    rw [Finset.mem_Icc]
    exact hsol.1 p.1 h1 p.2 h2
  have hcardim : (F.image fun p => s p.1 p.2).card = F.card :=
    Finset.card_image_of_injOn fun p hp q hq hsv => by
      by_contra hpq
      exact hinj p hp q hq hpq hsv
  have heq : F.image (fun p => s p.1 p.2) = Finset.Icc 1 g.size :=
    Finset.eq_of_subset_of_card_le hsub (by rw [hcardim, hcard, Nat.card_Icc]; omega)
  rw [← heq, Finset.mem_image] at hv
  obtain ⟨p, hp, he⟩ := hv
  exact ⟨p, hp, he⟩

theorem mem_rowUnit {size r : Nat} {p : Nat × Nat} :
    p ∈ rowUnit size r ↔ p.1 = r ∧ p.2 < size := by
  unfold rowUnit
  rw [List.mem_map]
  constructor
  · rintro ⟨c, hc, rfl⟩; exact ⟨rfl, by simpa using List.mem_range.mp hc⟩
  · rintro ⟨h1, h2⟩
    exact ⟨p.2, List.mem_range.mpr h2, by rw [← h1]⟩

theorem mem_colUnit {size c : Nat} {p : Nat × Nat} :
    p ∈ colUnit size c ↔ p.2 = c ∧ p.1 < size := by
  unfold colUnit
  rw [List.mem_map]
  constructor
  · rintro ⟨r, hr, rfl⟩; exact ⟨rfl, by simpa using List.mem_range.mp hr⟩
  · rintro ⟨h1, h2⟩
    exact ⟨p.1, List.mem_range.mpr h2, by rw [← h1]⟩

theorem mem_boxUnit {br bc br0 bc0 : Nat} {p : Nat × Nat} :
    p ∈ boxUnit br bc br0 bc0 ↔
      ∃ i < br, ∃ j < bc, p = (br0 + i, bc0 + j) := by
  unfold boxUnit
  simp only [List.mem_flatMap, List.mem_map, List.mem_range]
  constructor
  · rintro ⟨i, hi, j, hj, rfl⟩; exact ⟨i, hi, j, hj, rfl⟩
  · rintro ⟨i, hi, j, hj, rfl⟩; exact ⟨i, hi, j, hj, rfl⟩

theorem rowUnit_nodup (size r : Nat) : (rowUnit size r).Nodup :=
  (List.nodup_range size).map fun a b h => by simpa using congrArg Prod.snd h

theorem colUnit_nodup (size c : Nat) : (colUnit size c).Nodup :=
  (List.nodup_range size).map fun a b h => by simpa using congrArg Prod.fst h

theorem boxUnit_nodup (br bc br0 bc0 : Nat) : (boxUnit br bc br0 bc0).Nodup := by
  unfold boxUnit
  rw [List.nodup_flatMap]
  constructor
  · intro i _
    exact (List.nodup_range bc).map fun a b h => by simpa using congrArg Prod.snd h
  · refine (List.pairwise_lt_range br).imp ?_
    intro i1 i2 hlt p hp1 hp2
    simp only [List.mem_map, List.mem_range] at hp1 hp2
    obtain ⟨j1, _, h1⟩ := hp1
    obtain ⟨j2, _, h2⟩ := hp2
    rw [← h1] at h2
    have := congrArg Prod.fst h2
    simp only at this
    omega

theorem rowUnit_length (size r : Nat) : (rowUnit size r).length = size := by
  unfold rowUnit; rw [List.length_map, List.length_range]

theorem colUnit_length (size c : Nat) : (colUnit size c).length = size := by
  unfold colUnit; rw [List.length_map, List.length_range]

theorem boxUnit_length (br bc br0 bc0 : Nat) :
    (boxUnit br bc br0 bc0).length = br * bc := by
  unfold boxUnit
  rw [flatMap_range_length _ bc br fun k _ => by rw [List.length_map, List.length_range]]

theorem mem_stepRange {n st x : Nat} :
    x ∈ stepRange n st ↔ ∃ k < (n + st - 1) / st, x = k * st := by
  unfold stepRange
  simp only [List.mem_map, List.mem_range]
  constructor
  · rintro ⟨k, hk, rfl⟩; exact ⟨k, hk, rfl⟩
  · rintro ⟨k, hk, rfl⟩; exact ⟨k, hk, rfl⟩

/-- A peer's solution value always differs from the cell's own. -/
theorem sol_ne_of_peer {g : SudokuGrid} {s : Nat → Nat → Nat} (hgeom : WFGeom g)
    (hsol : IsSolution g s) {r c : Nat} (hr : r < g.size) (hc : c < g.size)
    {p : Nat × Nat} (hp : p ∈ g.get_peers r c) : s p.1 p.2 ≠ s r c := by
  rw [mem_get_peers hgeom hr hc] at hp
  obtain ⟨hne, h1, h2, hor⟩ := hp
  rcases hor with hh | hh | ⟨hd1, hd2⟩
  · have hpc : p.2 ≠ c := by
      intro hc2
      exact hne (Prod.ext hh hc2)
    rw [hh] at *
    exact hsol.2.1 r hr p.2 h2 c hc hpc
  · have hpr : p.1 ≠ r := by
      intro hr2
      exact hne (Prod.ext hr2 hh)
    rw [hh] at *
    exact hsol.2.2.1 c hc p.1 h1 r hr hpr
  · exact hsol.2.2.2 p.1 h1 p.2 h2 r hr c hc hd1 hd2
      (fun hh => hne (Prod.ext hh.1 hh.2))

theorem rowUnit_facts {g : SudokuGrid} (hgeom : WFGeom g) {r : Nat} (hr : r < g.size) :
    (∀ p ∈ rowUnit g.size r, p.1 < g.size ∧ p.2 < g.size) ∧ (rowUnit g.size r).Nodup ∧
    (∀ p ∈ rowUnit g.size r, ∀ q ∈ rowUnit g.size r, p ≠ q → q ∈ g.get_peers p.1 p.2) := by
  refine ⟨fun p hp => ?_, rowUnit_nodup g.size r, fun p hp q hq hne => ?_⟩
  · obtain ⟨h1, h2⟩ := mem_rowUnit.mp hp
    omega
  · obtain ⟨hp1, hp2⟩ := mem_rowUnit.mp hp
    obtain ⟨hq1, hq2⟩ := mem_rowUnit.mp hq
    rw [mem_get_peers hgeom (by omega) hp2]
    exact ⟨fun h => hne (by rw [h]), by omega, hq2, Or.inl (by omega)⟩

theorem colUnit_facts {g : SudokuGrid} (hgeom : WFGeom g) {c : Nat} (hc : c < g.size) :
    (∀ p ∈ colUnit g.size c, p.1 < g.size ∧ p.2 < g.size) ∧ (colUnit g.size c).Nodup ∧
    (∀ p ∈ colUnit g.size c, ∀ q ∈ colUnit g.size c, p ≠ q → q ∈ g.get_peers p.1 p.2) := by
  refine ⟨fun p hp => ?_, colUnit_nodup g.size c, fun p hp q hq hne => ?_⟩
  · obtain ⟨h1, h2⟩ := mem_colUnit.mp hp
    omega
  · obtain ⟨hp1, hp2⟩ := mem_colUnit.mp hp
    obtain ⟨hq1, hq2⟩ := mem_colUnit.mp hq
    rw [mem_get_peers hgeom hp2 (by omega)]
    exact ⟨fun h => hne (by rw [h]), hq2, by omega, Or.inr (Or.inl (by omega))⟩

theorem boxOrigin_bound {g : SudokuGrid} (hgeom : WFGeom g) {br0 : Nat}
    (h : br0 ∈ stepRange g.size g.box_rows) : br0 + g.box_rows ≤ g.size := by
  obtain ⟨k, hk, rfl⟩ := mem_stepRange.mp h
  rcases hgeom with ⟨h1, h2, h3⟩ | ⟨h1, h2, h3⟩ <;> rw [h1, h2] at hk ⊢ <;> omega

theorem boxOrigin_bound_col {g : SudokuGrid} (hgeom : WFGeom g) {bc0 : Nat}
    (h : bc0 ∈ stepRange g.size g.box_cols) : bc0 + g.box_cols ≤ g.size := by
  obtain ⟨k, hk, rfl⟩ := mem_stepRange.mp h
  rcases hgeom with ⟨h1, h2, h3⟩ | ⟨h1, h2, h3⟩ <;> rw [h1, h3] at hk ⊢ <;> omega

theorem boxOrigin_div {b x i : Nat} (hb : 0 < b) (hx : ∃ k, x = k * b) (hi : i < b) :
    (x + i) / b = x / b := by
  obtain ⟨k, rfl⟩ := hx
  rw [Nat.add_comm, Nat.add_mul_div_right i k hb, Nat.div_eq_of_lt hi,
    Nat.mul_div_cancel k hb]
  omega

theorem boxUnit_facts {g : SudokuGrid} (hgeom : WFGeom g) {br0 bc0 : Nat}
    (hbr0 : br0 ∈ stepRange g.size g.box_rows) (hbc0 : bc0 ∈ stepRange g.size g.box_cols) :
    (∀ p ∈ boxUnit g.box_rows g.box_cols br0 bc0, p.1 < g.size ∧ p.2 < g.size) ∧
    (boxUnit g.box_rows g.box_cols br0 bc0).Nodup ∧
    (∀ p ∈ boxUnit g.box_rows g.box_cols br0 bc0,
      ∀ q ∈ boxUnit g.box_rows g.box_cols br0 bc0, p ≠ q → q ∈ g.get_peers p.1 p.2) := by
  have hrow := boxOrigin_bound hgeom hbr0
  have hcol := boxOrigin_bound_col hgeom hbc0
  have hbr := WFGeom_br_pos hgeom
  have hbc := WFGeom_bc_pos hgeom
  have hdivr : ∀ i < g.box_rows, (br0 + i) / g.box_rows = br0 / g.box_rows := by
    intro i hi
    obtain ⟨k, _, rfl⟩ := mem_stepRange.mp hbr0
    exact boxOrigin_div hbr ⟨k, rfl⟩ hi
  have hdivc : ∀ j < g.box_cols, (bc0 + j) / g.box_cols = bc0 / g.box_cols := by
    intro j hj
    obtain ⟨k, _, rfl⟩ := mem_stepRange.mp hbc0
    exact boxOrigin_div hbc ⟨k, rfl⟩ hj
  refine ⟨fun p hp => ?_, boxUnit_nodup _ _ _ _, fun p hp q hq hne => ?_⟩
  · obtain ⟨i, hi, j, hj, rfl⟩ := mem_boxUnit.mp hp
    constructor <;> simp <;> omega
  · obtain ⟨i1, hi1, j1, hj1, rfl⟩ := mem_boxUnit.mp hp
    obtain ⟨i2, hi2, j2, hj2, rfl⟩ := mem_boxUnit.mp hq
    rw [mem_get_peers hgeom (by simp; omega) (by simp; omega)]
    refine ⟨fun h => hne (by rw [h]), by simp; omega, by simp; omega,
      Or.inr (Or.inr ⟨?_, ?_⟩)⟩
    · show (br0 + i2) / g.box_rows = (br0 + i1) / g.box_rows
      rw [hdivr i1 hi1, hdivr i2 hi2]
    · show (bc0 + j2) / g.box_cols = (bc0 + j1) / g.box_cols
      rw [hdivc j1 hj1, hdivc j2 hj2]

theorem mem_get_all_units {g : SudokuGrid} {U : List (Nat × Nat)} :
    U ∈ get_all_units g ↔
      (∃ r < g.size, U = rowUnit g.size r) ∨ (∃ c < g.size, U = colUnit g.size c) ∨
      (∃ br0 ∈ stepRange g.size g.box_rows, ∃ bc0 ∈ stepRange g.size g.box_cols,
        U = boxUnit g.box_rows g.box_cols br0 bc0) := by
  unfold get_all_units rowUnit colUnit boxUnit
  simp only [List.mem_append, List.mem_map, List.mem_flatMap, List.mem_range]
  constructor
  · rintro ((⟨r, hr, h⟩ | ⟨c, hc, h⟩) | ⟨br0, hbr0, bc0, hbc0, h⟩)
    · exact Or.inl ⟨r, hr, h.symm⟩
    · exact Or.inr (Or.inl ⟨c, hc, h.symm⟩)
    · exact Or.inr (Or.inr ⟨br0, hbr0, bc0, hbc0, h.symm⟩)
  · rintro (⟨r, hr, h⟩ | ⟨c, hc, h⟩ | ⟨br0, hbr0, bc0, hbc0, h⟩)
    · exact Or.inl (Or.inl ⟨r, hr, h.symm⟩)
    · exact Or.inl (Or.inr ⟨c, hc, h.symm⟩)
    · exact Or.inr ⟨br0, hbr0, bc0, hbc0, h.symm⟩

/-- The facts every unit of `_get_all_units` provides: cells in range, no
duplicates, any two distinct cells are peers, any solution is injective on
the unit and attains every value of `[1, size]` on it. -/
theorem unit_facts {g : SudokuGrid} (hgeom : WFGeom g) {U : List (Nat × Nat)}
    (hU : U ∈ get_all_units g) :
    (∀ p ∈ U, p.1 < g.size ∧ p.2 < g.size) ∧ U.Nodup ∧
    (∀ p ∈ U, ∀ q ∈ U, p ≠ q → q ∈ g.get_peers p.1 p.2) ∧
    (∀ s : Nat → Nat → Nat, IsSolution g s →
      (∀ p ∈ U, ∀ q ∈ U, p ≠ q → s p.1 p.2 ≠ s q.1 q.2) ∧
      (∀ v, 1 ≤ v → v ≤ g.size → ∃ p ∈ U, s p.1 p.2 = v)) := by
  have hcore : (∀ p ∈ U, p.1 < g.size ∧ p.2 < g.size) ∧ U.Nodup ∧
      (∀ p ∈ U, ∀ q ∈ U, p ≠ q → q ∈ g.get_peers p.1 p.2) ∧ U.length = g.size := by
    rcases mem_get_all_units.mp hU with ⟨r, hr, rfl⟩ | ⟨c, hc, rfl⟩ |
      ⟨br0, hbr0, bc0, hbc0, rfl⟩
    · obtain ⟨h1, h2, h3⟩ := rowUnit_facts hgeom hr
      exact ⟨h1, h2, h3, rowUnit_length _ _⟩
    · obtain ⟨h1, h2, h3⟩ := colUnit_facts hgeom hc
      exact ⟨h1, h2, h3, colUnit_length _ _⟩
    · obtain ⟨h1, h2, h3⟩ := boxUnit_facts hgeom hbr0 hbc0
      refine ⟨h1, h2, h3, ?_⟩
      rw [boxUnit_length]
      rcases hgeom with ⟨e1, e2, e3⟩ | ⟨e1, e2, e3⟩ <;> rw [e1, e2, e3]
  obtain ⟨hrange, hnodup, hpeer, hlen⟩ := hcore
  refine ⟨hrange, hnodup, hpeer, fun s hsol => ?_⟩
  have hinj : ∀ p ∈ U, ∀ q ∈ U, p ≠ q → s p.1 p.2 ≠ s q.1 q.2 := by
    intro p hp q hq hne
    obtain ⟨h1, h2⟩ := hrange p hp
    exact fun hv => sol_ne_of_peer hgeom hsol h1 h2 (hpeer p hp q hq hne) hv.symm
  refine ⟨hinj, fun v hv1 hv2 => ?_⟩
  have hsurj := sol_surj_on hsol U.toFinset
    (fun p hp => hrange p (List.mem_toFinset.mp hp))
    (fun p hp q hq => hinj p (List.mem_toFinset.mp hp) q (List.mem_toFinset.mp hq))
    (by rw [List.toFinset_card_of_nodup hnodup, hlen])
    (v := v) (Finset.mem_Icc.mpr ⟨hv1, hv2⟩)
  obtain ⟨p, hp, he⟩ := hsurj
  exact ⟨p, List.mem_toFinset.mp hp, he⟩

/-- Generic extraction for lists built by `foldl` accumulation: every
element of the result is either from the initial list or was appended for
some loop element satisfying the step predicate. -/
theorem foldl_mem {α β : Type} {step : List α → β → List α} {Q : β → α → Prop}
    (hstep : ∀ acc b x, x ∈ step acc b → x ∈ acc ∨ Q b x) :
    ∀ (l : List β) (init : List α) (x : α), x ∈ l.foldl step init →
      x ∈ init ∨ ∃ b ∈ l, Q b x := by
  intro l
  induction l with
  | nil => intro init x hx; exact Or.inl hx
  | cons b bs ih =>
    intro init x hx
    rw [List.foldl_cons] at hx
    rcases ih (step init b) x hx with h | ⟨b2, hb2, hq⟩
    · rcases hstep init b x h with h2 | h2
      · exact Or.inl h2
      · exact Or.inr ⟨b, List.mem_cons_self b bs, h2⟩
    · exact Or.inr ⟨b2, List.mem_cons_of_mem b hb2, hq⟩

theorem mem_positionsOf {g : SudokuGrid} {U : List (Nat × Nat)} {num : Nat} {p : Nat × Nat} :
    p ∈ positionsOf g U num ↔ p ∈ U ∧ g.grid p.1 p.2 = 0 ∧ num ∈ g.candidates p.1 p.2 := by
  unfold positionsOf
  rw [List.mem_filter, decide_eq_true_iff]

theorem positionsOf_singleton {g : SudokuGrid} {U : List (Nat × Nat)} {num : Nat}
    {p : Nat × Nat} (h : positionsOf g U num = [p]) :
    (p ∈ U ∧ g.grid p.1 p.2 = 0 ∧ num ∈ g.candidates p.1 p.2) ∧
    ∀ q ∈ U, g.grid q.1 q.2 = 0 → num ∈ g.candidates q.1 q.2 → q = p := by
  constructor
  · have : p ∈ positionsOf g U num := by rw [h]; exact List.mem_cons_self p []
    exact mem_positionsOf.mp this
  · intro q hq hq0 hqc
    have : q ∈ positionsOf g U num := mem_positionsOf.mpr ⟨hq, hq0, hqc⟩
    rw [h] at this
    simpa using this

theorem pair_set_eq {C : Finset Nat} (h2 : C.card = 2) {a b : Nat} (ha : a ∈ C)
    (hb : b ∈ C) (hab : a ≠ b) : ∀ v ∈ C, v = a ∨ v = b := by
  have hsub : ({a, b} : Finset Nat) ⊆ C := by
    intro v hv
    rcases Finset.mem_insert.mp hv with rfl | hv
    · exact ha
    · rw [Finset.mem_singleton] at hv; exact hv ▸ hb
  have hcard : ({a, b} : Finset Nat).card = 2 := by
    rw [Finset.card_insert_of_not_mem (by simpa using hab), Finset.card_singleton]
  have : ({a, b} : Finset Nat) = C :=
    Finset.eq_of_subset_of_card_le hsub (by omega)
  intro v hv
  rw [← this] at hv
  rcases Finset.mem_insert.mp hv with rfl | hv
  · exact Or.inl rfl
  · exact Or.inr (Finset.mem_singleton.mp hv)

theorem triple_set_eq {C : Finset Nat} (h3 : C.card = 3) {a b c : Nat} (ha : a ∈ C)
    (hb : b ∈ C) (hc : c ∈ C) (hab : a ≠ b) (hac : a ≠ c) (hbc : b ≠ c) :
    ∀ v ∈ C, v = a ∨ v = b ∨ v = c := by
  have hsub : ({a, b, c} : Finset Nat) ⊆ C := by
    intro v hv
    rcases Finset.mem_insert.mp hv with rfl | hv
    · exact ha
    rcases Finset.mem_insert.mp hv with rfl | hv
    · exact hb
    · rw [Finset.mem_singleton] at hv; exact hv ▸ hc
  have hcard : ({a, b, c} : Finset Nat).card = 3 := by
    rw [Finset.card_insert_of_not_mem (by simp [hab, hac]),
      Finset.card_insert_of_not_mem (by simpa using hbc), Finset.card_singleton]
  have : ({a, b, c} : Finset Nat) = C :=
    Finset.eq_of_subset_of_card_le hsub (by omega)
  intro v hv
  rw [← this] at hv
  rcases Finset.mem_insert.mp hv with rfl | hv
  · exact Or.inl rfl
  rcases Finset.mem_insert.mp hv with rfl | hv
  · exact Or.inr (Or.inl rfl)
  · exact Or.inr (Or.inr (Finset.mem_singleton.mp hv))

theorem triple_cell_set_eq {C : Finset (Nat × Nat)} (h3 : C.card = 3) {a b c : Nat × Nat}
    (ha : a ∈ C) (hb : b ∈ C) (hc : c ∈ C) (hab : a ≠ b) (hac : a ≠ c) (hbc : b ≠ c) :
    ∀ v ∈ C, v = a ∨ v = b ∨ v = c := by
  have hsub : ({a, b, c} : Finset (Nat × Nat)) ⊆ C := by
    intro v hv
    rcases Finset.mem_insert.mp hv with rfl | hv
    · exact ha
    rcases Finset.mem_insert.mp hv with rfl | hv
    · exact hb
    · rw [Finset.mem_singleton] at hv; exact hv ▸ hc
  have hcard : ({a, b, c} : Finset (Nat × Nat)).card = 3 := by
    rw [Finset.card_insert_of_not_mem (by simp [hab, hac]),
      Finset.card_insert_of_not_mem (by simpa using hbc), Finset.card_singleton]
  have : ({a, b, c} : Finset (Nat × Nat)) = C :=
    Finset.eq_of_subset_of_card_le hsub (by omega)
  intro v hv
  rw [← this] at hv
  rcases Finset.mem_insert.mp hv with rfl | hv
  · exact Or.inl rfl
  rcases Finset.mem_insert.mp hv with rfl | hv
  · exact Or.inr (Or.inl rfl)
  · exact Or.inr (Or.inr (Finset.mem_singleton.mp hv))

theorem three_le_length {α : Type} [DecidableEq α] {l : List α} (hnd : l.Nodup)
    {a b c : α} (ha : a ∈ l) (hb : b ∈ l) (hc : c ∈ l) (hab : a ≠ b) (hac : a ≠ c)
    (hbc : b ≠ c) : 3 ≤ l.length := by
  have hsub : ({a, b, c} : Finset α) ⊆ l.toFinset := by
    intro v hv
    rcases Finset.mem_insert.mp hv with rfl | hv
    · exact List.mem_toFinset.mpr ha
    rcases Finset.mem_insert.mp hv with rfl | hv
    · exact List.mem_toFinset.mpr hb
    · rw [Finset.mem_singleton] at hv; exact hv ▸ List.mem_toFinset.mpr hc
  have hcard : ({a, b, c} : Finset α).card = 3 := by
    rw [Finset.card_insert_of_not_mem (by simp [hab, hac]),
      Finset.card_insert_of_not_mem (by simpa using hbc), Finset.card_singleton]
  have := Finset.card_le_card hsub
  rw [hcard, List.toFinset_card_of_nodup hnd] at this
  exact this

theorem candList_singleton {C : Finset Nat} {x : Nat} (h : C = {x}) :
    candList C = [x] := by
  rw [h, candList_eq_sort]
  exact Finset.sort_singleton _ x

theorem candList_card_one {C : Finset Nat} (h : C.card = 1) :
    ∃ x, C = {x} ∧ (candList C).headD 0 = x := by
  obtain ⟨x, hx⟩ := Finset.card_eq_one.mp h
  exact ⟨x, hx, by rw [candList_singleton hx]; rfl⟩

theorem candList_card_two {C : Finset Nat} (h : C.card = 2) :
    ∃ x y, x ≠ y ∧ C = {x, y} ∧ (candList C).getD 0 0 = x ∧ (candList C).getD 1 0 = y := by
  have hlen : (candList C).length = 2 := by
    rw [candList_eq_sort, Finset.length_sort]; exact h
  match hl : candList C with
  | [] => rw [hl] at hlen; simp at hlen
  | [x] => rw [hl] at hlen; simp at hlen
  | x :: y :: rest =>
    rw [hl] at hlen
    simp only [List.length_cons] at hlen
    have hrest : rest = [] := List.length_eq_zero.mp (by omega)
    subst hrest
    have hnd : (candList C).Nodup := by
      rw [candList_eq_sort]; exact Finset.sort_nodup _ C
    rw [hl] at hnd
    have hxy : x ≠ y := by
      intro hEq
      subst hEq
      exact (List.nodup_cons.mp hnd).1 (List.mem_cons_self x [])
    refine ⟨x, y, hxy, ?_, rfl, rfl⟩
    ext v
    rw [← mem_candList, hl]
    simp [List.mem_cons]

/-- Where the solution places `num` inside a unit: if the unit has at least
one candidate position for `num`, the solution's cell for `num` in this
unit is itself one of the candidate positions. -/
theorem sol_pos_mem {g : SudokuGrid} {s : Nat → Nat → Nat} (hgeom : WFGeom g)
    (hsol : IsSolution g s) (hagr : Agrees g s) (hcont : CandsContainSol g s)
    (hnpc : CandsNoPeerConflict g) {U : List (Nat × Nat)} (hU : U ∈ get_all_units g)
    {num : Nat} (h1 : 1 ≤ num) (h2 : num ≤ g.size)
    (hnonempty : ∃ A, A ∈ positionsOf g U num) :
    ∃ D ∈ positionsOf g U num, s D.1 D.2 = num := by
  obtain ⟨hrange, hnodup, hpeer, hsolU⟩ := unit_facts hgeom hU
  obtain ⟨hinj, hsurj⟩ := hsolU s hsol
  obtain ⟨D, hD, hDval⟩ := hsurj num h1 h2
  obtain ⟨hD1, hD2⟩ := hrange D hD
  by_cases hDfill : g.grid D.1 D.2 = 0
  · exact ⟨D, mem_positionsOf.mpr ⟨hD, hDfill, by
      rw [← hDval] at *; exact hcont D.1 hD1 D.2 hD2 hDfill⟩, hDval⟩
  · obtain ⟨A, hA⟩ := hnonempty
    obtain ⟨hAU, hA0, hAc⟩ := mem_positionsOf.mp hA
    obtain ⟨hA1, hA2⟩ := hrange A hAU
    have hDA : D ≠ A := fun h => hDfill (h ▸ hA0)
    have hDpeer : D ∈ g.get_peers A.1 A.2 := hpeer A hAU D hD (Ne.symm hDA)
    have hval : g.grid D.1 D.2 = num := by
      rw [hagr D.1 hD1 D.2 hD2 hDfill]; exact hDval
    exact absurd hAc (by
      have := hnpc A.1 hA1 A.2 hA2 hA0 D hDpeer hDfill
      rw [hval] at this
      exact this)

theorem sound_naked_singles : TechniqueSound naked_singles := by
  intro g s hgeom hsol hagr hcont hnpc hbnd
  constructor
  · intro p hp
    have hp2 : p ∈ (allCellsList g.size).filterMap fun rc =>
        if g.grid rc.1 rc.2 = 0 ∧ (g.candidates rc.1 rc.2).card = 1 then
          some (rc.1, rc.2, (candList (g.candidates rc.1 rc.2)).headD 0)
        else none := hp
    rw [List.mem_filterMap] at hp2
    obtain ⟨rc, hrc, heq⟩ := hp2
    split at heq
    · rename_i h
      obtain ⟨h0, h1⟩ := h
      obtain ⟨hr, hc⟩ := mem_allCellsList.mp hrc
      obtain ⟨x, hx, hhead⟩ := candList_card_one h1
      rw [Option.some_inj] at heq
      subst heq
      refine ⟨hr, hc, h0, ?_⟩
      show (candList (g.candidates rc.1 rc.2)).headD 0 = s rc.1 rc.2
      rw [hhead]
      have hs := hcont rc.1 hr rc.2 hc h0
      rw [hx, Finset.mem_singleton] at hs
      exact hs.symm
    · exact absurd heq (by simp)
  · intro e he
    exact absurd (he : e ∈ ([] : List (Nat × Nat × Nat))) (List.not_mem_nil e)

/-- A hidden single in any unit places the solution's value. -/
theorem hidden_single_sound {g : SudokuGrid} {s : Nat → Nat → Nat} (hgeom : WFGeom g)
    (hsol : IsSolution g s) (hagr : Agrees g s) (hcont : CandsContainSol g s)
    (hnpc : CandsNoPeerConflict g) {U : List (Nat × Nat)} (hU : U ∈ get_all_units g)
    {num : Nat} (h1 : 1 ≤ num) (h2 : num ≤ g.size) {cell : Nat × Nat}
    (hpos : positionsOf g U num = [cell]) :
    cell.1 < g.size ∧ cell.2 < g.size ∧ g.grid cell.1 cell.2 = 0 ∧
      num = s cell.1 cell.2 := by
  obtain ⟨⟨hcellU, hcell0, hcellc⟩, huniq⟩ := positionsOf_singleton hpos
  obtain ⟨hrange, -, -, -⟩ := unit_facts hgeom hU
  obtain ⟨hc1, hc2⟩ := hrange cell hcellU
  obtain ⟨D, hD, hDval⟩ := sol_pos_mem hgeom hsol hagr hcont hnpc hU h1 h2
    ⟨cell, by rw [hpos]; exact List.mem_cons_self _ _⟩
  have hDcell : D = cell := by rw [hpos] at hD; simpa using hD
  rw [hDcell] at hDval
  exact ⟨hc1, hc2, hcell0, hDval.symm⟩

theorem hidden_singles_mem {g : SudokuGrid} {p : Nat × Nat × Nat}
    (hp : p ∈ (hidden_singles g).placements) :
    ∃ U ∈ get_all_units g, ∃ num, 1 ≤ num ∧ num ≤ g.size ∧
      ∃ cell, positionsOf g U num = [cell] ∧ p = (cell.1, cell.2, num) := by
  unfold hidden_singles at hp
  dsimp only at hp
  have hQ : ∀ (U : List (Nat × Nat)) (acc : List (Nat × Nat × Nat)) (num : Nat)
      (x : Nat × Nat × Nat),
      (x ∈ match positionsOf g U num with
        | [q] => if (q.1, q.2, num) ∈ acc then acc else acc ++ [(q.1, q.2, num)]
        | _ => acc) →
      x ∈ acc ∨ ∃ cell, positionsOf g U num = [cell] ∧ x = (cell.1, cell.2, num) := by
    intro U acc num x hx
    split at hx
    · rename_i q heq
      split at hx
      · exact Or.inl hx
      · rcases List.mem_append.mp hx with h | h
        · exact Or.inl h
        · exact Or.inr ⟨q, heq, by simpa using h⟩
    · exact Or.inl hx
  have hQ2 : ∀ (U : List (Nat × Nat)) (acc : List (Nat × Nat × Nat)) (num : Nat)
      (x : Nat × Nat × Nat),
      (x ∈ match positionsOf g U num with
        | [q] => acc ++ [(q.1, q.2, num)]
        | _ => acc) →
      x ∈ acc ∨ ∃ cell, positionsOf g U num = [cell] ∧ x = (cell.1, cell.2, num) := by
    intro U acc num x hx
    split at hx
    · rename_i q heq
      rcases List.mem_append.mp hx with h | h
      · exact Or.inl h
      · exact Or.inr ⟨q, heq, by simpa using h⟩
    · exact Or.inl hx
  -- boxes phase
  rcases foldl_mem (Q := fun br0 x => ∃ bc0 ∈ stepRange g.size g.box_cols, ∃ num ∈ numRange g.size,
      ∃ cell, positionsOf g (boxUnit g.box_rows g.box_cols br0 bc0) num = [cell] ∧
        x = (cell.1, cell.2, num))
    (fun acc br0 x hx => by
      rcases foldl_mem (Q := fun bc0 x => ∃ num ∈ numRange g.size,
          ∃ cell, positionsOf g (boxUnit g.box_rows g.box_cols br0 bc0) num = [cell] ∧
            x = (cell.1, cell.2, num))
        (fun acc2 bc0 x2 hx2 => by
          rcases foldl_mem (Q := fun num x3 =>
              ∃ cell, positionsOf g (boxUnit g.box_rows g.box_cols br0 bc0) num = [cell] ∧
                x3 = (cell.1, cell.2, num))
            (fun acc3 num x3 hx3 =>
              hQ (boxUnit g.box_rows g.box_cols br0 bc0) acc3 num x3 hx3)
            (numRange g.size) acc2 x2 hx2 with h | ⟨num, hnum, hrest⟩
          · exact Or.inl h
          · exact Or.inr ⟨num, hnum, hrest⟩)
        (stepRange g.size g.box_cols) acc x hx with h | ⟨bc0, hbc0, hrest⟩
      · exact Or.inl h
      · exact Or.inr ⟨bc0, hbc0, hrest⟩)
    (stepRange g.size g.box_rows) _ p hp
    with hcols | ⟨br0, hbr0, bc0, hbc0, num, hnum, cell, hc, hxeq⟩
  · -- columns phase
    rcases foldl_mem (Q := fun c x => ∃ num ∈ numRange g.size,
        ∃ cell, positionsOf g (colUnit g.size c) num = [cell] ∧ x = (cell.1, cell.2, num))
      (fun acc c x hx => by
        rcases foldl_mem (Q := fun num x3 =>
            ∃ cell, positionsOf g (colUnit g.size c) num = [cell] ∧ x3 = (cell.1, cell.2, num))
          (fun acc3 num x3 hx3 => hQ (colUnit g.size c) acc3 num x3 hx3)
          (numRange g.size) acc x hx with h | ⟨num, hnum, hrest⟩
        · exact Or.inl h
        · exact Or.inr ⟨num, hnum, hrest⟩)
      (List.range g.size) _ p hcols
      with hrows | ⟨c, hcR, num, hnum, cell, hc, hxeq⟩
    · -- rows phase
      rcases foldl_mem (Q := fun r x => ∃ num ∈ numRange g.size,
          ∃ cell, positionsOf g (rowUnit g.size r) num = [cell] ∧ x = (cell.1, cell.2, num))
        (fun acc r x hx => by
          rcases foldl_mem (Q := fun num x3 =>
              ∃ cell, positionsOf g (rowUnit g.size r) num = [cell] ∧
                x3 = (cell.1, cell.2, num))
            (fun acc3 num x3 hx3 => hQ2 (rowUnit g.size r) acc3 num x3 hx3)
            (numRange g.size) acc x hx with h | ⟨num, hnum, hrest⟩
          · exact Or.inl h
          · exact Or.inr ⟨num, hnum, hrest⟩)
        (List.range g.size) _ p hrows
        with hnil | ⟨r, hrR, num, hnum, cell, hc, hxeq⟩
      · exact absurd hnil (List.not_mem_nil p)
      · obtain ⟨hn1, hn2⟩ := mem_numRange.mp hnum
        exact ⟨rowUnit g.size r,
          mem_get_all_units.mpr (Or.inl ⟨r, List.mem_range.mp hrR, rfl⟩), num, hn1, hn2,
          cell, hc, hxeq⟩
    · obtain ⟨hn1, hn2⟩ := mem_numRange.mp hnum
      exact ⟨colUnit g.size c,
        mem_get_all_units.mpr (Or.inr (Or.inl ⟨c, List.mem_range.mp hcR, rfl⟩)), num, hn1,
        hn2, cell, hc, hxeq⟩
  · obtain ⟨hn1, hn2⟩ := mem_numRange.mp hnum
    exact ⟨boxUnit g.box_rows g.box_cols br0 bc0,
      mem_get_all_units.mpr (Or.inr (Or.inr ⟨br0, hbr0, bc0, hbc0, rfl⟩)), num, hn1, hn2,
      cell, hc, hxeq⟩

theorem sound_hidden_singles : TechniqueSound hidden_singles := by
  intro g s hgeom hsol hagr hcont hnpc hbnd
  constructor
  · intro p hp
    obtain ⟨U, hU, num, h1, h2, cell, hpos, hpeq⟩ := hidden_singles_mem hp
    obtain ⟨hc1, hc2, hc0, hcv⟩ :=
      hidden_single_sound hgeom hsol hagr hcont hnpc hU h1 h2 hpos
    subst hpeq
    exact ⟨hc1, hc2, hc0, hcv⟩
  · intro e he
    exact absurd (he : e ∈ ([] : List (Nat × Nat × Nat))) (List.not_mem_nil e)

theorem numRange_nodup (size : Nat) : (numRange size).Nodup :=
  (List.nodup_range size).map fun a b h => by omega

theorem sound_naked_pairs : TechniqueSound naked_pairs := by
  intro g s hgeom hsol hagr hcont hnpc hbnd
  refine ⟨fun p hp => absurd (hp : p ∈ ([] : List (Nat × Nat × Nat)))
    (List.not_mem_nil p), fun e he => ?_⟩
  have he2 : e ∈ (get_all_units g).flatMap fun unit =>
      (pairsOf (unit.filter fun rc =>
        decide (g.grid rc.1 rc.2 = 0 ∧ (g.candidates rc.1 rc.2).card = 2))).flatMap fun pq =>
        if g.get_candidates pq.1.1 pq.1.2 = g.get_candidates pq.2.1 pq.2.2 then
          unit.flatMap fun rc =>
            if rc ≠ pq.1 ∧ rc ≠ pq.2 ∧ g.grid rc.1 rc.2 = 0 then
              (candList (g.get_candidates pq.1.1 pq.1.2)).filterMap fun val =>
                if val ∈ g.candidates rc.1 rc.2 then some (rc.1, rc.2, val) else none
            else []
        else [] := he
  rw [List.mem_flatMap] at he2
  obtain ⟨U, hU, he3⟩ := he2
  obtain ⟨hrange, hnodup, hpeer, hsolU⟩ := unit_facts hgeom hU
  obtain ⟨hinj, hsurj⟩ := hsolU s hsol
  rw [List.mem_flatMap] at he3
  obtain ⟨pq, hpq, he4⟩ := he3
  split at he4
  · rename_i hCeq
    rw [List.mem_flatMap] at he4
    obtain ⟨rc, hrc, he5⟩ := he4
    split at he5
    · rename_i hconds
      obtain ⟨hne1, hne2, hrc0⟩ := hconds
      rw [List.mem_filterMap] at he5
      obtain ⟨val, hval, he6⟩ := he5
      split at he6
      · rename_i hvin
        rw [Option.some_inj] at he6
        subst he6
        obtain ⟨hA, hB⟩ := mem_pairsOf hpq
        have hpcn : (U.filter fun rc =>
            decide (g.grid rc.1 rc.2 = 0 ∧ (g.candidates rc.1 rc.2).card = 2)).Nodup :=
          hnodup.filter _
        have hABne := pairsOf_ne hpcn hpq
        rw [List.mem_filter, decide_eq_true_iff] at hA hB
        obtain ⟨hAU, hA0, hAcard⟩ := hA
        obtain ⟨hBU, hB0, _⟩ := hB
        obtain ⟨hA1, hA2⟩ := hrange pq.1 hAU
        obtain ⟨hB1, hB2⟩ := hrange pq.2 hBU
        obtain ⟨hr1, hr2⟩ := hrange rc hrc
        have hsA : s pq.1.1 pq.1.2 ∈ g.get_candidates pq.1.1 pq.1.2 :=
          hcont pq.1.1 hA1 pq.1.2 hA2 hA0
        have hsB : s pq.2.1 pq.2.2 ∈ g.get_candidates pq.1.1 pq.1.2 := by
          rw [hCeq]; exact hcont pq.2.1 hB1 pq.2.2 hB2 hB0
        have hsAB : s pq.1.1 pq.1.2 ≠ s pq.2.1 pq.2.2 := hinj pq.1 hAU pq.2 hBU hABne
        have hvC : val ∈ g.get_candidates pq.1.1 pq.1.2 := mem_candList.mp hval
        have hvor := pair_set_eq hAcard hsA hsB hsAB val hvC
        refine ⟨hr1, hr2, fun hvs => ?_⟩
        rcases hvor with rfl | rfl
        · exact hinj rc hrc pq.1 hAU hne1 hvs.symm
        · exact hinj rc hrc pq.2 hBU hne2 hvs.symm
      · exact absurd he6 (by simp)
    · exact absurd he5 (List.not_mem_nil e)
  · exact absurd he4 (List.not_mem_nil e)

theorem sound_hidden_pairs : TechniqueSound hidden_pairs := by
  intro g s hgeom hsol hagr hcont hnpc hbnd
  refine ⟨fun p hp => absurd (hp : p ∈ ([] : List (Nat × Nat × Nat)))
    (List.not_mem_nil p), fun e he => ?_⟩
  have he2 : e ∈ (get_all_units g).flatMap fun unit =>
      (pairsOf ((numRange g.size).filter fun cand =>
        decide ((positionsOf g unit cand).length = 2))).flatMap fun cc =>
        if positionsOf g unit cc.1 = positionsOf g unit cc.2 then
          (positionsOf g unit cc.1).flatMap fun rc =>
            (candList (g.candidates rc.1 rc.2)).filterMap fun val =>
              if val ≠ cc.1 ∧ val ≠ cc.2 then some (rc.1, rc.2, val) else none
        else [] := he
  rw [List.mem_flatMap] at he2
  obtain ⟨U, hU, he3⟩ := he2
  obtain ⟨hrange, hnodup, hpeer, hsolU⟩ := unit_facts hgeom hU
  rw [List.mem_flatMap] at he3
  obtain ⟨cc, hcc, he4⟩ := he3
  split at he4
  · rename_i hPeq
    rw [List.mem_flatMap] at he4
    obtain ⟨rc, hrc, he5⟩ := he4
    rw [List.mem_filterMap] at he5
    obtain ⟨val, hval, he6⟩ := he5
    split at he6
    · rename_i hvne
      obtain ⟨hvne1, hvne2⟩ := hvne
      rw [Option.some_inj] at he6
      subst he6
      obtain ⟨hc1m, hc2m⟩ := mem_pairsOf hcc
      have hccne := pairsOf_ne ((numRange_nodup g.size).filter _) hcc
      rw [List.mem_filter, decide_eq_true_iff] at hc1m hc2m
      obtain ⟨hc1R, hP1len⟩ := hc1m
      obtain ⟨hc2R, hP2len⟩ := hc2m
      obtain ⟨hcn1, hcn2⟩ := mem_numRange.mp hc1R
      obtain ⟨hcn3, hcn4⟩ := mem_numRange.mp hc2R
      obtain ⟨hrcU, hrc0, hrcc1⟩ := mem_positionsOf.mp hrc
      obtain ⟨hr1, hr2⟩ := hrange rc hrcU
      obtain ⟨D1, hD1, hD1val⟩ := sol_pos_mem hgeom hsol hagr hcont hnpc hU hcn1 hcn2
        ⟨rc, hrc⟩
      obtain ⟨D2, hD2, hD2val⟩ := sol_pos_mem hgeom hsol hagr hcont hnpc hU hcn3 hcn4
        ⟨rc, by rw [← hPeq]; exact hrc⟩
      rw [← hPeq] at hD2
      refine ⟨hr1, hr2, fun hvs => ?_⟩
      have hsrc1 : s rc.1 rc.2 ≠ cc.1 := by rw [← hvs]; exact hvne1
      have hsrc2 : s rc.1 rc.2 ≠ cc.2 := by rw [← hvs]; exact hvne2
      have hrcD1 : rc ≠ D1 := fun h => hsrc1 (by rw [h]; exact hD1val)
      have hrcD2 : rc ≠ D2 := fun h => hsrc2 (by rw [h]; exact hD2val)
      have hD12 : D1 ≠ D2 := fun h => hccne (by rw [← hD1val, ← hD2val, h])
      have hPnodup : (positionsOf g U cc.1).Nodup := hnodup.filter _
      have := three_le_length hPnodup hrc hD1 hD2 hrcD1 hrcD2 hD12
      omega
    · exact absurd he6 (by simp)
  · exact absurd he4 (List.not_mem_nil e)

theorem sound_naked_triples : TechniqueSound naked_triples := by
  intro g s hgeom hsol hagr hcont hnpc hbnd
  refine ⟨fun p hp => absurd (hp : p ∈ ([] : List (Nat × Nat × Nat)))
    (List.not_mem_nil p), fun e he => ?_⟩
  have he2 : e ∈ (get_all_units g).flatMap fun unit =>
      (triplesOf (unit.filter fun rc =>
        decide (g.grid rc.1 rc.2 = 0 ∧ 2 ≤ (g.candidates rc.1 rc.2).card ∧
          (g.candidates rc.1 rc.2).card ≤ 3))).flatMap fun t =>
        if (g.get_candidates t.1.1 t.1.2 ∪ g.get_candidates t.2.1.1 t.2.1.2 ∪
            g.get_candidates t.2.2.1 t.2.2.2).card = 3 then
          unit.flatMap fun rc =>
            if rc ≠ t.1 ∧ rc ≠ t.2.1 ∧ rc ≠ t.2.2 ∧ g.grid rc.1 rc.2 = 0 then
              (candList (g.get_candidates t.1.1 t.1.2 ∪ g.get_candidates t.2.1.1 t.2.1.2 ∪
                g.get_candidates t.2.2.1 t.2.2.2)).filterMap fun val =>
                if val ∈ g.candidates rc.1 rc.2 then some (rc.1, rc.2, val) else none
            else []
        else [] := he
  rw [List.mem_flatMap] at he2
  obtain ⟨U, hU, he3⟩ := he2
  obtain ⟨hrange, hnodup, hpeer, hsolU⟩ := unit_facts hgeom hU
  obtain ⟨hinj, hsurj⟩ := hsolU s hsol
  rw [List.mem_flatMap] at he3
  obtain ⟨t, ht, he4⟩ := he3
  split at he4
  · rename_i hCcard
    rw [List.mem_flatMap] at he4
    obtain ⟨rc, hrc, he5⟩ := he4
    split at he5
    · rename_i hconds
      obtain ⟨hne1, hne2, hne3, hrc0⟩ := hconds
      rw [List.mem_filterMap] at he5
      obtain ⟨val, hval, he6⟩ := he5
      split at he6
      · rename_i hvin
        rw [Option.some_inj] at he6
        subst he6
        obtain ⟨hA, hB, hC⟩ := mem_triplesOf ht
        have htcn : (U.filter fun rc =>
            decide (g.grid rc.1 rc.2 = 0 ∧ 2 ≤ (g.candidates rc.1 rc.2).card ∧
              (g.candidates rc.1 rc.2).card ≤ 3)).Nodup := hnodup.filter _
        obtain ⟨hn12, hn13, hn23⟩ := triplesOf_ne htcn ht
        rw [List.mem_filter, decide_eq_true_iff] at hA hB hC
        obtain ⟨hAU, hA0, _⟩ := hA
        obtain ⟨hBU, hB0, _⟩ := hB
        obtain ⟨hCU, hC0, _⟩ := hC
        obtain ⟨hA1, hA2⟩ := hrange t.1 hAU
        obtain ⟨hB1, hB2⟩ := hrange t.2.1 hBU
        obtain ⟨hC1, hC2⟩ := hrange t.2.2 hCU
        obtain ⟨hr1, hr2⟩ := hrange rc hrc
        have hsA : s t.1.1 t.1.2 ∈ g.get_candidates t.1.1 t.1.2 ∪
            g.get_candidates t.2.1.1 t.2.1.2 ∪ g.get_candidates t.2.2.1 t.2.2.2 :=
          Finset.mem_union_left _ (Finset.mem_union_left _ (hcont t.1.1 hA1 t.1.2 hA2 hA0))
        have hsB : s t.2.1.1 t.2.1.2 ∈ g.get_candidates t.1.1 t.1.2 ∪
            g.get_candidates t.2.1.1 t.2.1.2 ∪ g.get_candidates t.2.2.1 t.2.2.2 :=
          Finset.mem_union_left _ (Finset.mem_union_right _ (hcont t.2.1.1 hB1 t.2.1.2 hB2 hB0))
        have hsC : s t.2.2.1 t.2.2.2 ∈ g.get_candidates t.1.1 t.1.2 ∪
            g.get_candidates t.2.1.1 t.2.1.2 ∪ g.get_candidates t.2.2.1 t.2.2.2 :=
          Finset.mem_union_right _ (hcont t.2.2.1 hC1 t.2.2.2 hC2 hC0)
        have hsAB : s t.1.1 t.1.2 ≠ s t.2.1.1 t.2.1.2 := hinj t.1 hAU t.2.1 hBU hn12
        have hsAC : s t.1.1 t.1.2 ≠ s t.2.2.1 t.2.2.2 := hinj t.1 hAU t.2.2 hCU hn13
        have hsBC : s t.2.1.1 t.2.1.2 ≠ s t.2.2.1 t.2.2.2 := hinj t.2.1 hBU t.2.2 hCU hn23
        have hvC := mem_candList.mp hval
        have hvor := triple_set_eq hCcard hsA hsB hsC hsAB hsAC hsBC val hvC
        refine ⟨hr1, hr2, fun hvs => ?_⟩
        rcases hvor with rfl | rfl | rfl
        · exact hinj rc hrc t.1 hAU hne1 hvs.symm
        · exact hinj rc hrc t.2.1 hBU hne2 hvs.symm
        · exact hinj rc hrc t.2.2 hCU hne3 hvs.symm
      · exact absurd he6 (by simp)
    · exact absurd he5 (List.not_mem_nil e)
  · exact absurd he4 (List.not_mem_nil e)

theorem sound_hidden_triples : TechniqueSound hidden_triples := by
  intro g s hgeom hsol hagr hcont hnpc hbnd
  refine ⟨fun p hp => absurd (hp : p ∈ ([] : List (Nat × Nat × Nat)))
    (List.not_mem_nil p), fun e he => ?_⟩
  have he2 : e ∈ (get_all_units g).flatMap fun unit =>
      (triplesOf ((numRange g.size).filter fun cand =>
        decide (2 ≤ (positionsOf g unit cand).length ∧
          (positionsOf g unit cand).length ≤ 3))).flatMap fun t =>
        if ((positionsOf g unit t.1).toFinset ∪ (positionsOf g unit t.2.1).toFinset ∪
            (positionsOf g unit t.2.2).toFinset).card = 3 then
          (cellList ((positionsOf g unit t.1).toFinset ∪ (positionsOf g unit t.2.1).toFinset ∪
            (positionsOf g unit t.2.2).toFinset)).flatMap fun rc =>
            (candList (g.candidates rc.1 rc.2)).filterMap fun val =>
              if val ≠ t.1 ∧ val ≠ t.2.1 ∧ val ≠ t.2.2 then some (rc.1, rc.2, val) else none
        else [] := he
  rw [List.mem_flatMap] at he2
  obtain ⟨U, hU, he3⟩ := he2
  obtain ⟨hrange, hnodup, hpeer, hsolU⟩ := unit_facts hgeom hU
  obtain ⟨hinj, hsurj⟩ := hsolU s hsol
  rw [List.mem_flatMap] at he3
  obtain ⟨t, ht, he4⟩ := he3
  split at he4
  · rename_i hPcard
    rw [List.mem_flatMap] at he4
    obtain ⟨rc, hrcm, he5⟩ := he4
    rw [List.mem_filterMap] at he5
    obtain ⟨val, hval, he6⟩ := he5
    split at he6
    · rename_i hvne
      obtain ⟨hvne1, hvne2, hvne3⟩ := hvne
      rw [Option.some_inj] at he6
      subst he6
      obtain ⟨hA, hB, hC⟩ := mem_triplesOf ht
      obtain ⟨hn12, hn13, hn23⟩ := triplesOf_ne ((numRange_nodup g.size).filter _) ht
      rw [List.mem_filter, decide_eq_true_iff] at hA hB hC
      obtain ⟨hAR, hAlen, _⟩ := hA
      obtain ⟨hBR, hBlen, _⟩ := hB
      obtain ⟨hCR, hClen, _⟩ := hC
      obtain ⟨hAn1, hAn2⟩ := mem_numRange.mp hAR
      obtain ⟨hBn1, hBn2⟩ := mem_numRange.mp hBR
      obtain ⟨hCn1, hCn2⟩ := mem_numRange.mp hCR
      obtain ⟨a1, ha1⟩ := List.exists_mem_of_ne_nil (positionsOf g U t.1) (by
        intro h; rw [h] at hAlen; simp at hAlen)
      obtain ⟨a2, ha2⟩ := List.exists_mem_of_ne_nil (positionsOf g U t.2.1) (by
        intro h; rw [h] at hBlen; simp at hBlen)
      obtain ⟨a3, ha3⟩ := List.exists_mem_of_ne_nil (positionsOf g U t.2.2) (by
        intro h; rw [h] at hClen; simp at hClen)
      obtain ⟨D1, hD1, hD1v⟩ := sol_pos_mem hgeom hsol hagr hcont hnpc hU hAn1 hAn2 ⟨a1, ha1⟩
      obtain ⟨D2, hD2, hD2v⟩ := sol_pos_mem hgeom hsol hagr hcont hnpc hU hBn1 hBn2 ⟨a2, ha2⟩
      obtain ⟨D3, hD3, hD3v⟩ := sol_pos_mem hgeom hsol hagr hcont hnpc hU hCn1 hCn2 ⟨a3, ha3⟩
      have hD1m : D1 ∈ (positionsOf g U t.1).toFinset ∪ (positionsOf g U t.2.1).toFinset ∪
          (positionsOf g U t.2.2).toFinset :=
        Finset.mem_union_left _ (Finset.mem_union_left _ (List.mem_toFinset.mpr hD1))
      have hD2m : D2 ∈ (positionsOf g U t.1).toFinset ∪ (positionsOf g U t.2.1).toFinset ∪
          (positionsOf g U t.2.2).toFinset :=
        Finset.mem_union_left _ (Finset.mem_union_right _ (List.mem_toFinset.mpr hD2))
      have hD3m : D3 ∈ (positionsOf g U t.1).toFinset ∪ (positionsOf g U t.2.1).toFinset ∪
          (positionsOf g U t.2.2).toFinset :=
        Finset.mem_union_right _ (List.mem_toFinset.mpr hD3)
      have hD12 : D1 ≠ D2 := fun h => hn12 (by rw [← hD1v, ← hD2v, h])
      have hD13 : D1 ≠ D3 := fun h => hn13 (by rw [← hD1v, ← hD3v, h])
      have hD23 : D2 ≠ D3 := fun h => hn23 (by rw [← hD2v, ← hD3v, h])
      have hrcP := mem_cellList.mp hrcm
      have hrcU : rc ∈ U := by
        rcases Finset.mem_union.mp hrcP with h | h
        · rcases Finset.mem_union.mp h with h | h
          · exact (mem_positionsOf.mp (List.mem_toFinset.mp h)).1
          · exact (mem_positionsOf.mp (List.mem_toFinset.mp h)).1
        · exact (mem_positionsOf.mp (List.mem_toFinset.mp h)).1
      obtain ⟨hr1, hr2⟩ := hrange rc hrcU
      refine ⟨hr1, hr2, fun hvs => ?_⟩
      have hor := triple_cell_set_eq hPcard hD1m hD2m hD3m hD12 hD13 hD23 rc hrcP
      rcases hor with rfl | rfl | rfl
      · exact hvne1 (hvs.trans hD1v)
      · exact hvne2 (hvs.trans hD2v)
      · exact hvne3 (hvs.trans hD3v)
    · exact absurd he6 (by simp)
  · exact absurd he4 (List.not_mem_nil e)

theorem cellList_card_one {C : Finset (Nat × Nat)} (h : C.card = 1) :
    ∃ x, C = {x} ∧ (cellList C).headD (0, 0) = x := by
  obtain ⟨x, hx⟩ := Finset.card_eq_one.mp h
  refine ⟨x, hx, ?_⟩
  rw [hx, cellList_eq_sort, Finset.sort_singleton]
  rfl

theorem boxRow_origin_mem {g : SudokuGrid} (hgeom : WFGeom g) {x : Nat}
    (hx : x < g.size) : x / g.box_rows * g.box_rows ∈ stepRange g.size g.box_rows := by
  rw [mem_stepRange]
  refine ⟨x / g.box_rows, ?_, rfl⟩
  rcases hgeom with ⟨h1, h2, h3⟩ | ⟨h1, h2, h3⟩ <;> rw [h1] at hx <;> rw [h1, h2] <;> omega

theorem boxCol_origin_mem {g : SudokuGrid} (hgeom : WFGeom g) {x : Nat}
    (hx : x < g.size) : x / g.box_cols * g.box_cols ∈ stepRange g.size g.box_cols := by
  rw [mem_stepRange]
  refine ⟨x / g.box_cols, ?_, rfl⟩
  rcases hgeom with ⟨h1, h2, h3⟩ | ⟨h1, h2, h3⟩ <;> rw [h1] at hx <;> rw [h1, h3] <;> omega

theorem mem_boxUnit_self {br bc : Nat} (hbr : 0 < br) (hbc : 0 < bc) (D : Nat × Nat) :
    D ∈ boxUnit br bc (D.1 / br * br) (D.2 / bc * bc) := by
  rw [mem_boxUnit]
  have h1 : D.1 / br * br + D.1 % br = D.1 := by
    rw [Nat.mul_comm]; exact Nat.div_add_mod D.1 br
  have h2 : D.2 / bc * bc + D.2 % bc = D.2 := by
    rw [Nat.mul_comm]; exact Nat.div_add_mod D.2 bc
  exact ⟨D.1 % br, Nat.mod_lt _ hbr, D.2 % bc, Nat.mod_lt _ hbc, by rw [h1, h2]⟩

theorem sound_pointing_pairs : TechniqueSound pointing_pairs := by
  intro g s hgeom hsol hagr hcont hnpc hbnd
  refine ⟨fun p hp => absurd (hp : p ∈ ([] : List (Nat × Nat × Nat)))
    (List.not_mem_nil p), fun e he => ?_⟩
  have he2 : e ∈ (stepRange g.size g.box_rows).flatMap fun box_r =>
      (stepRange g.size g.box_cols).flatMap fun box_c =>
        (numRange g.size).flatMap fun num =>
          if (positionsOf g (boxUnit g.box_rows g.box_cols box_r box_c) num).length ≥ 2 then
            (if ((positionsOf g (boxUnit g.box_rows g.box_cols box_r box_c) num).map
                Prod.fst).toFinset.card = 1 then
              (List.range g.size).filterMap fun c =>
                if (c < box_c ∨ c ≥ box_c + g.box_cols) ∧
                    g.grid ((candList ((positionsOf g (boxUnit g.box_rows g.box_cols box_r
                      box_c) num).map Prod.fst).toFinset).headD 0) c = 0 ∧
                    num ∈ g.candidates ((candList ((positionsOf g (boxUnit g.box_rows
                      g.box_cols box_r box_c) num).map Prod.fst).toFinset).headD 0) c then
                  some ((candList ((positionsOf g (boxUnit g.box_rows g.box_cols box_r
                    box_c) num).map Prod.fst).toFinset).headD 0, c, num)
                else none
            else []) ++
            (if ((positionsOf g (boxUnit g.box_rows g.box_cols box_r box_c) num).map
                Prod.snd).toFinset.card = 1 then
              (List.range g.size).filterMap fun r =>
                if (r < box_r ∨ r ≥ box_r + g.box_rows) ∧
                    g.grid r ((candList ((positionsOf g (boxUnit g.box_rows g.box_cols box_r
                      box_c) num).map Prod.snd).toFinset).headD 0) = 0 ∧
                    num ∈ g.candidates r ((candList ((positionsOf g (boxUnit g.box_rows
                      g.box_cols box_r box_c) num).map Prod.snd).toFinset).headD 0) then
                  some (r, (candList ((positionsOf g (boxUnit g.box_rows g.box_cols box_r
                    box_c) num).map Prod.snd).toFinset).headD 0, num)
                else none
            else [])
          else [] := he
  rw [List.mem_flatMap] at he2
  obtain ⟨box_r, hbr, he3⟩ := he2
  rw [List.mem_flatMap] at he3
  obtain ⟨box_c, hbc, he4⟩ := he3
  rw [List.mem_flatMap] at he4
  obtain ⟨num, hnum, he5⟩ := he4
  obtain ⟨hn1, hn2⟩ := mem_numRange.mp hnum
  have hB : boxUnit g.box_rows g.box_cols box_r box_c ∈ get_all_units g :=
    mem_get_all_units.mpr (Or.inr (Or.inr ⟨box_r, hbr, box_c, hbc, rfl⟩))
  obtain ⟨hBrange, hBnodup, hBpeer, hBsol⟩ := unit_facts hgeom hB
  split at he5
  · rename_i hlen
    obtain ⟨A, hA⟩ := List.exists_mem_of_ne_nil
      (positionsOf g (boxUnit g.box_rows g.box_cols box_r box_c) num) (by
        intro h; rw [h] at hlen; simp at hlen)
    obtain ⟨D, hD, hDval⟩ := sol_pos_mem hgeom hsol hagr hcont hnpc hB hn1 hn2 ⟨A, hA⟩
    have hDB := (mem_positionsOf.mp hD).1
    obtain ⟨hD1s, hD2s⟩ := hBrange D hDB
    obtain ⟨i0, hi0, j0, hj0, hDco⟩ := mem_boxUnit.mp hDB
    have hDr : D.1 = box_r + i0 := by rw [hDco]
    have hDc : D.2 = box_c + j0 := by rw [hDco]
    rw [List.mem_append] at he5
    rcases he5 with heR | heC
    · split at heR
      · rename_i hcard1
        obtain ⟨x, hxeq, hxhead⟩ := candList_card_one hcard1
        have hD1rows : D.1 ∈ ((positionsOf g (boxUnit g.box_rows g.box_cols box_r box_c)
            num).map Prod.fst).toFinset :=
          List.mem_toFinset.mpr (List.mem_map_of_mem Prod.fst hD)
        rw [hxeq, Finset.mem_singleton] at hD1rows
        have hhead : (candList ((positionsOf g (boxUnit g.box_rows g.box_cols box_r box_c)
            num).map Prod.fst).toFinset).headD 0 = D.1 := hxhead.trans hD1rows.symm
        rw [List.mem_filterMap] at heR
        obtain ⟨c, hcR, heR2⟩ := heR
        have hclt := List.mem_range.mp hcR
        split at heR2
        · rename_i hg2
          obtain ⟨hout, h0, hcand⟩ := hg2
          rw [Option.some_inj] at heR2
          subst heR2
          refine ⟨?_, hclt, fun hvs => ?_⟩
          · have h1 := hD1s
            rw [← hhead] at h1
            exact h1
          · rw [hhead] at hvs
            have hvs3 : num = s D.1 c := hvs
            have hD2c : D.2 ≠ c := by omega
            have hR : rowUnit g.size D.1 ∈ get_all_units g :=
              mem_get_all_units.mpr (Or.inl ⟨D.1, hD1s, rfl⟩)
            obtain ⟨_, _, _, hRsol⟩ := unit_facts hgeom hR
            obtain ⟨hinjR, _⟩ := hRsol s hsol
            have hDR : D ∈ rowUnit g.size D.1 := mem_rowUnit.mpr ⟨rfl, hD2s⟩
            have hcR2 : ((D.1, c) : Nat × Nat) ∈ rowUnit g.size D.1 :=
              mem_rowUnit.mpr ⟨rfl, hclt⟩
            have hne : D ≠ (D.1, c) := fun h => hD2c (congrArg Prod.snd h)
            exact hinjR D hDR (D.1, c) hcR2 hne (hDval.trans hvs3)
        · exact absurd heR2 (by simp)
      · exact absurd heR (List.not_mem_nil e)
    · split at heC
      · rename_i hcard1
        obtain ⟨x, hxeq, hxhead⟩ := candList_card_one hcard1
        have hD2cols : D.2 ∈ ((positionsOf g (boxUnit g.box_rows g.box_cols box_r box_c)
            num).map Prod.snd).toFinset :=
          List.mem_toFinset.mpr (List.mem_map_of_mem Prod.snd hD)
        rw [hxeq, Finset.mem_singleton] at hD2cols
        have hhead : (candList ((positionsOf g (boxUnit g.box_rows g.box_cols box_r box_c)
            num).map Prod.snd).toFinset).headD 0 = D.2 := hxhead.trans hD2cols.symm
        rw [List.mem_filterMap] at heC
        obtain ⟨r, hrR, heC2⟩ := heC
        have hrlt := List.mem_range.mp hrR
        split at heC2
        · rename_i hg2
          obtain ⟨hout, h0, hcand⟩ := hg2
          rw [Option.some_inj] at heC2
          subst heC2
          refine ⟨hrlt, ?_, fun hvs => ?_⟩
          · have h1 := hD2s
            rw [← hhead] at h1
            exact h1
          · rw [hhead] at hvs
            have hvs3 : num = s r D.2 := hvs
            have hD1r : D.1 ≠ r := by omega
            have hC : colUnit g.size D.2 ∈ get_all_units g :=
              mem_get_all_units.mpr (Or.inr (Or.inl ⟨D.2, hD2s, rfl⟩))
            obtain ⟨_, _, _, hCsol⟩ := unit_facts hgeom hC
            obtain ⟨hinjC, _⟩ := hCsol s hsol
            have hDC : D ∈ colUnit g.size D.2 := mem_colUnit.mpr ⟨rfl, hD1s⟩
            have hrC2 : ((r, D.2) : Nat × Nat) ∈ colUnit g.size D.2 :=
              mem_colUnit.mpr ⟨rfl, hrlt⟩
            have hne : D ≠ (r, D.2) := fun h => hD1r (congrArg Prod.fst h)
            exact hinjC D hDC (r, D.2) hrC2 hne (hDval.trans hvs3)
        · exact absurd heC2 (by simp)
      · exact absurd heC (List.not_mem_nil e)
  · exact absurd he5 (List.not_mem_nil e)

theorem sound_box_line_reduction : TechniqueSound box_line_reduction := by
  intro g s hgeom hsol hagr hcont hnpc hbnd
  have hbrp := WFGeom_br_pos hgeom
  have hbcp := WFGeom_bc_pos hgeom
  refine ⟨fun p hp => absurd (hp : p ∈ ([] : List (Nat × Nat × Nat)))
    (List.not_mem_nil p), fun e he => ?_⟩
  have he2 : e ∈ ((List.range g.size).flatMap fun row =>
      (numRange g.size).flatMap fun num =>
        if (positionsOf g (rowUnit g.size row) num).length ≥ 2 then
          if ((positionsOf g (rowUnit g.size row) num).map fun rc =>
              (rc.1 / g.box_rows, rc.2 / g.box_cols)).toFinset.card = 1 then
            (List.range g.box_rows).flatMap fun i =>
              if ((cellList ((positionsOf g (rowUnit g.size row) num).map fun rc =>
                  (rc.1 / g.box_rows, rc.2 / g.box_cols)).toFinset).headD (0, 0)).1 *
                  g.box_rows + i ≠ row then
                (List.range g.box_cols).filterMap fun j =>
                  if g.grid (((cellList ((positionsOf g (rowUnit g.size row) num).map
                        fun rc => (rc.1 / g.box_rows, rc.2 / g.box_cols)).toFinset).headD
                        (0, 0)).1 * g.box_rows + i)
                      (((cellList ((positionsOf g (rowUnit g.size row) num).map
                        fun rc => (rc.1 / g.box_rows, rc.2 / g.box_cols)).toFinset).headD
                        (0, 0)).2 * g.box_cols + j) = 0 ∧
                      num ∈ g.candidates (((cellList ((positionsOf g (rowUnit g.size row)
                        num).map fun rc => (rc.1 / g.box_rows, rc.2 / g.box_cols)).toFinset).headD
                        (0, 0)).1 * g.box_rows + i)
                      (((cellList ((positionsOf g (rowUnit g.size row) num).map
                        fun rc => (rc.1 / g.box_rows, rc.2 / g.box_cols)).toFinset).headD
                        (0, 0)).2 * g.box_cols + j) then
                    some ((((cellList ((positionsOf g (rowUnit g.size row) num).map
                      fun rc => (rc.1 / g.box_rows, rc.2 / g.box_cols)).toFinset).headD
                      (0, 0)).1 * g.box_rows + i),
                      (((cellList ((positionsOf g (rowUnit g.size row) num).map
                      fun rc => (rc.1 / g.box_rows, rc.2 / g.box_cols)).toFinset).headD
                      (0, 0)).2 * g.box_cols + j), num)
                  else none
              else []
          else []
        else []) ++
      ((List.range g.size).flatMap fun col =>
      (numRange g.size).flatMap fun num =>
        if (positionsOf g (colUnit g.size col) num).length ≥ 2 then
          if ((positionsOf g (colUnit g.size col) num).map fun rc =>
              (rc.1 / g.box_rows, rc.2 / g.box_cols)).toFinset.card = 1 then
            (List.range g.box_rows).flatMap fun i =>
              (List.range g.box_cols).filterMap fun j =>
                if (((cellList ((positionsOf g (colUnit g.size col) num).map fun rc =>
                      (rc.1 / g.box_rows, rc.2 / g.box_cols)).toFinset).headD (0, 0)).2 *
                      g.box_cols + j ≠ col) ∧
                    g.grid (((cellList ((positionsOf g (colUnit g.size col) num).map
                      fun rc => (rc.1 / g.box_rows, rc.2 / g.box_cols)).toFinset).headD
                      (0, 0)).1 * g.box_rows + i)
                    (((cellList ((positionsOf g (colUnit g.size col) num).map
                      fun rc => (rc.1 / g.box_rows, rc.2 / g.box_cols)).toFinset).headD
                      (0, 0)).2 * g.box_cols + j) = 0 ∧
                    num ∈ g.candidates (((cellList ((positionsOf g (colUnit g.size col)
                      num).map fun rc => (rc.1 / g.box_rows, rc.2 / g.box_cols)).toFinset).headD
                      (0, 0)).1 * g.box_rows + i)
                    (((cellList ((positionsOf g (colUnit g.size col) num).map
                      fun rc => (rc.1 / g.box_rows, rc.2 / g.box_cols)).toFinset).headD
                      (0, 0)).2 * g.box_cols + j) then
                  some ((((cellList ((positionsOf g (colUnit g.size col) num).map
                    fun rc => (rc.1 / g.box_rows, rc.2 / g.box_cols)).toFinset).headD
                    (0, 0)).1 * g.box_rows + i),
                    (((cellList ((positionsOf g (colUnit g.size col) num).map
                    fun rc => (rc.1 / g.box_rows, rc.2 / g.box_cols)).toFinset).headD
                    (0, 0)).2 * g.box_cols + j), num)
                else none
          else []
        else []) := he
  rw [List.mem_append] at he2
  rcases he2 with heRow | heCol
  · rw [List.mem_flatMap] at heRow
    obtain ⟨row, hrowR, he3⟩ := heRow
    have hrowlt := List.mem_range.mp hrowR
    rw [List.mem_flatMap] at he3
    obtain ⟨num, hnum, he4⟩ := he3
    obtain ⟨hn1, hn2⟩ := mem_numRange.mp hnum
    have hRU : rowUnit g.size row ∈ get_all_units g :=
      mem_get_all_units.mpr (Or.inl ⟨row, hrowlt, rfl⟩)
    split at he4
    · rename_i hlen
      split at he4
      · rename_i hcard1
        obtain ⟨b, hbeq, hbhead⟩ := cellList_card_one hcard1
        obtain ⟨A, hA⟩ := List.exists_mem_of_ne_nil
          (positionsOf g (rowUnit g.size row) num) (by
            intro h; rw [h] at hlen; simp at hlen)
        obtain ⟨D, hD, hDval⟩ := sol_pos_mem hgeom hsol hagr hcont hnpc hRU hn1 hn2 ⟨A, hA⟩
        have hDRU := (mem_positionsOf.mp hD).1
        obtain ⟨hD1row, hD2lt⟩ := mem_rowUnit.mp hDRU
        have hD1lt : D.1 < g.size := by omega
        have hDbox : ((D.1 / g.box_rows, D.2 / g.box_cols) : Nat × Nat) ∈
            ((positionsOf g (rowUnit g.size row) num).map fun rc =>
              (rc.1 / g.box_rows, rc.2 / g.box_cols)).toFinset :=
          List.mem_toFinset.mpr (List.mem_map_of_mem _ hD)
        rw [hbeq, Finset.mem_singleton] at hDbox
        subst hDbox
        rw [hbhead] at he4
        rw [List.mem_flatMap] at he4
        obtain ⟨i, hiR, he5⟩ := he4
        have hilt := List.mem_range.mp hiR
        split at he5
        · rename_i hner
          have hner2 : D.1 / g.box_rows * g.box_rows + i ≠ row := hner
          rw [List.mem_filterMap] at he5
          obtain ⟨j, hjR, he6⟩ := he5
          have hjlt := List.mem_range.mp hjR
          split at he6
          · rename_i hg2
            rw [Option.some_inj] at he6
            subst he6
            have hr0 := boxRow_origin_mem hgeom hD1lt
            have hc0 := boxCol_origin_mem hgeom hD2lt
            have hrbnd := boxOrigin_bound hgeom hr0
            have hcbnd := boxOrigin_bound_col hgeom hc0
            have hr1lt : D.1 / g.box_rows * g.box_rows + i < g.size :=
              Nat.lt_of_lt_of_le (Nat.add_lt_add_left hilt _) hrbnd
            have hc1lt : D.2 / g.box_cols * g.box_cols + j < g.size :=
              Nat.lt_of_lt_of_le (Nat.add_lt_add_left hjlt _) hcbnd
            refine ⟨hr1lt, hc1lt, fun hvs => ?_⟩
            have hvs3 : num = s (D.1 / g.box_rows * g.box_rows + i)
                (D.2 / g.box_cols * g.box_cols + j) := hvs
            have hBU : boxUnit g.box_rows g.box_cols (D.1 / g.box_rows * g.box_rows)
                (D.2 / g.box_cols * g.box_cols) ∈ get_all_units g :=
              mem_get_all_units.mpr (Or.inr (Or.inr ⟨_, hr0, _, hc0, rfl⟩))
            obtain ⟨_, _, _, hBsol⟩ := unit_facts hgeom hBU
            obtain ⟨hinjB, _⟩ := hBsol s hsol
            have hDin : D ∈ boxUnit g.box_rows g.box_cols (D.1 / g.box_rows * g.box_rows)
                (D.2 / g.box_cols * g.box_cols) := mem_boxUnit_self hbrp hbcp D
            have hEin : ((D.1 / g.box_rows * g.box_rows + i,
                D.2 / g.box_cols * g.box_cols + j) : Nat × Nat) ∈
                boxUnit g.box_rows g.box_cols (D.1 / g.box_rows * g.box_rows)
                (D.2 / g.box_cols * g.box_cols) :=
              mem_boxUnit.mpr ⟨i, hilt, j, hjlt, rfl⟩
            have hne : ((D.1 / g.box_rows * g.box_rows + i,
                D.2 / g.box_cols * g.box_cols + j) : Nat × Nat) ≠ D :=
              fun h => hner2 ((congrArg Prod.fst h).trans hD1row)
            exact hinjB _ hEin D hDin hne (hvs3.symm.trans hDval.symm)
          · exact absurd he6 (by simp)
        · exact absurd he5 (List.not_mem_nil e)
      · exact absurd he4 (List.not_mem_nil e)
    · exact absurd he4 (List.not_mem_nil e)
  · rw [List.mem_flatMap] at heCol
    obtain ⟨col, hcolR, he3⟩ := heCol
    have hcollt := List.mem_range.mp hcolR
    rw [List.mem_flatMap] at he3
    obtain ⟨num, hnum, he4⟩ := he3
    obtain ⟨hn1, hn2⟩ := mem_numRange.mp hnum
    have hCU : colUnit g.size col ∈ get_all_units g :=
      mem_get_all_units.mpr (Or.inr (Or.inl ⟨col, hcollt, rfl⟩))
    split at he4
    · rename_i hlen
      split at he4
      · rename_i hcard1
        obtain ⟨b, hbeq, hbhead⟩ := cellList_card_one hcard1
        obtain ⟨A, hA⟩ := List.exists_mem_of_ne_nil
          (positionsOf g (colUnit g.size col) num) (by
            intro h; rw [h] at hlen; simp at hlen)
        obtain ⟨D, hD, hDval⟩ := sol_pos_mem hgeom hsol hagr hcont hnpc hCU hn1 hn2 ⟨A, hA⟩
        have hDCU := (mem_positionsOf.mp hD).1
        obtain ⟨hD2col, hD1lt⟩ := mem_colUnit.mp hDCU
        have hD2lt : D.2 < g.size := by omega
        have hDbox : ((D.1 / g.box_rows, D.2 / g.box_cols) : Nat × Nat) ∈
            ((positionsOf g (colUnit g.size col) num).map fun rc =>
              (rc.1 / g.box_rows, rc.2 / g.box_cols)).toFinset :=
          List.mem_toFinset.mpr (List.mem_map_of_mem _ hD)
        rw [hbeq, Finset.mem_singleton] at hDbox
        subst hDbox
        rw [hbhead] at he4
        rw [List.mem_flatMap] at he4
        obtain ⟨i, hiR, he5⟩ := he4
        have hilt := List.mem_range.mp hiR
        rw [List.mem_filterMap] at he5
        obtain ⟨j, hjR, he6⟩ := he5
        have hjlt := List.mem_range.mp hjR
        split at he6
        · rename_i hg2
          obtain ⟨hnec, _, _⟩ := hg2
          have hnec2 : D.2 / g.box_cols * g.box_cols + j ≠ col := hnec
          rw [Option.some_inj] at he6
          subst he6
          have hr0 := boxRow_origin_mem hgeom hD1lt
          have hc0 := boxCol_origin_mem hgeom hD2lt
          have hrbnd := boxOrigin_bound hgeom hr0
          have hcbnd := boxOrigin_bound_col hgeom hc0
          have hr1lt : D.1 / g.box_rows * g.box_rows + i < g.size :=
            Nat.lt_of_lt_of_le (Nat.add_lt_add_left hilt _) hrbnd
          have hc1lt : D.2 / g.box_cols * g.box_cols + j < g.size :=
            Nat.lt_of_lt_of_le (Nat.add_lt_add_left hjlt _) hcbnd
          refine ⟨hr1lt, hc1lt, fun hvs => ?_⟩
          have hvs3 : num = s (D.1 / g.box_rows * g.box_rows + i)
              (D.2 / g.box_cols * g.box_cols + j) := hvs
          have hBU : boxUnit g.box_rows g.box_cols (D.1 / g.box_rows * g.box_rows)
              (D.2 / g.box_cols * g.box_cols) ∈ get_all_units g :=
            mem_get_all_units.mpr (Or.inr (Or.inr ⟨_, hr0, _, hc0, rfl⟩))
          obtain ⟨_, _, _, hBsol⟩ := unit_facts hgeom hBU
          obtain ⟨hinjB, _⟩ := hBsol s hsol
          have hDin : D ∈ boxUnit g.box_rows g.box_cols (D.1 / g.box_rows * g.box_rows)
              (D.2 / g.box_cols * g.box_cols) := mem_boxUnit_self hbrp hbcp D
          have hEin : ((D.1 / g.box_rows * g.box_rows + i,
              D.2 / g.box_cols * g.box_cols + j) : Nat × Nat) ∈
              boxUnit g.box_rows g.box_cols (D.1 / g.box_rows * g.box_rows)
              (D.2 / g.box_cols * g.box_cols) :=
            mem_boxUnit.mpr ⟨i, hilt, j, hjlt, rfl⟩
          have hne : ((D.1 / g.box_rows * g.box_rows + i,
              D.2 / g.box_cols * g.box_cols + j) : Nat × Nat) ≠ D :=
            fun h => hnec2 ((congrArg Prod.snd h).trans hD2col)
          exact hinjB _ hEin D hDin hne (hvs3.symm.trans hDval.symm)
        · exact absurd he6 (by simp)
      · exact absurd he4 (List.not_mem_nil e)
    · exact absurd he4 (List.not_mem_nil e)

theorem positionsOf_rowUnit {g : SudokuGrid} {r num : Nat} :
    positionsOf g (rowUnit g.size r) num =
      ((List.range g.size).filter fun c =>
        decide (g.grid r c = 0 ∧ num ∈ g.candidates r c)).map fun c => (r, c) := by
  unfold positionsOf rowUnit
  rw [List.filter_map]
  rfl

theorem positionsOf_colUnit {g : SudokuGrid} {c num : Nat} :
    positionsOf g (colUnit g.size c) num =
      ((List.range g.size).filter fun r =>
        decide (g.grid r c = 0 ∧ num ∈ g.candidates r c)).map fun r => (r, c) := by
  unfold positionsOf colUnit
  rw [List.filter_map]
  rfl

theorem sol_num_in_rowFilter {g : SudokuGrid} {s : Nat → Nat → Nat} (hgeom : WFGeom g)
    (hsol : IsSolution g s) (hagr : Agrees g s) (hcont : CandsContainSol g s)
    (hnpc : CandsNoPeerConflict g) {r num : Nat} (hr : r < g.size)
    (h1 : 1 ≤ num) (h2 : num ≤ g.size)
    (hne : ((List.range g.size).filter fun c =>
      decide (g.grid r c = 0 ∧ num ∈ g.candidates r c)) ≠ []) :
    ∃ c ∈ (List.range g.size).filter fun c =>
      decide (g.grid r c = 0 ∧ num ∈ g.candidates r c), s r c = num := by
  have hRU : rowUnit g.size r ∈ get_all_units g :=
    mem_get_all_units.mpr (Or.inl ⟨r, hr, rfl⟩)
  obtain ⟨c0, hc0⟩ := List.exists_mem_of_ne_nil _ hne
  have hpos := @positionsOf_rowUnit g r num
  have hmem : ((r, c0) : Nat × Nat) ∈ positionsOf g (rowUnit g.size r) num := by
    rw [hpos]; exact List.mem_map_of_mem _ hc0
  obtain ⟨D, hD, hDval⟩ := sol_pos_mem hgeom hsol hagr hcont hnpc hRU h1 h2 ⟨_, hmem⟩
  rw [hpos] at hD
  obtain ⟨c, hc, hceq⟩ := List.mem_map.mp hD
  refine ⟨c, hc, ?_⟩
  rw [← hceq] at hDval
  exact hDval

theorem sol_num_in_colFilter {g : SudokuGrid} {s : Nat → Nat → Nat} (hgeom : WFGeom g)
    (hsol : IsSolution g s) (hagr : Agrees g s) (hcont : CandsContainSol g s)
    (hnpc : CandsNoPeerConflict g) {c num : Nat} (hc : c < g.size)
    (h1 : 1 ≤ num) (h2 : num ≤ g.size)
    (hne : ((List.range g.size).filter fun r =>
      decide (g.grid r c = 0 ∧ num ∈ g.candidates r c)) ≠ []) :
    ∃ r ∈ (List.range g.size).filter fun r =>
      decide (g.grid r c = 0 ∧ num ∈ g.candidates r c), s r c = num := by
  have hCU : colUnit g.size c ∈ get_all_units g :=
    mem_get_all_units.mpr (Or.inr (Or.inl ⟨c, hc, rfl⟩))
  obtain ⟨r0, hr0⟩ := List.exists_mem_of_ne_nil _ hne
  have hpos := @positionsOf_colUnit g c num
  have hmem : ((r0, c) : Nat × Nat) ∈ positionsOf g (colUnit g.size c) num := by
    rw [hpos]; exact List.mem_map_of_mem _ hr0
  obtain ⟨D, hD, hDval⟩ := sol_pos_mem hgeom hsol hagr hcont hnpc hCU h1 h2 ⟨_, hmem⟩
  rw [hpos] at hD
  obtain ⟨r, hrm, hreq⟩ := List.mem_map.mp hD
  refine ⟨r, hrm, ?_⟩
  rw [← hreq] at hDval
  exact hDval

theorem col_inj_num {g : SudokuGrid} {s : Nat → Nat → Nat} (hgeom : WFGeom g)
    (hsol : IsSolution g s) {c x y num : Nat} (hc : c < g.size) (hx : x < g.size)
    (hy : y < g.size) (hxy : x ≠ y) (h1 : s x c = num) (h2 : s y c = num) : False := by
  have hC : colUnit g.size c ∈ get_all_units g :=
    mem_get_all_units.mpr (Or.inr (Or.inl ⟨c, hc, rfl⟩))
  obtain ⟨_, _, _, hCsol⟩ := unit_facts hgeom hC
  obtain ⟨hinj, _⟩ := hCsol s hsol
  exact hinj (x, c) (mem_colUnit.mpr ⟨rfl, hx⟩) (y, c) (mem_colUnit.mpr ⟨rfl, hy⟩)
    (fun h => hxy (congrArg Prod.fst h)) (h1.trans h2.symm)

theorem row_inj_num {g : SudokuGrid} {s : Nat → Nat → Nat} (hgeom : WFGeom g)
    (hsol : IsSolution g s) {r x y num : Nat} (hr : r < g.size) (hx : x < g.size)
    (hy : y < g.size) (hxy : x ≠ y) (h1 : s r x = num) (h2 : s r y = num) : False := by
  have hR : rowUnit g.size r ∈ get_all_units g :=
    mem_get_all_units.mpr (Or.inl ⟨r, hr, rfl⟩)
  obtain ⟨_, _, _, hRsol⟩ := unit_facts hgeom hR
  obtain ⟨hinj, _⟩ := hRsol s hsol
  exact hinj (r, x) (mem_rowUnit.mpr ⟨rfl, hx⟩) (r, y) (mem_rowUnit.mpr ⟨rfl, hy⟩)
    (fun h => hxy (congrArg Prod.snd h)) (h1.trans h2.symm)

theorem match_two_eq {l : List Nat} {r : Nat} {out : Nat × Nat × Nat}
    (h : (match l with
      | [a, b] => some ((r, a, b) : Nat × Nat × Nat)
      | _ => none) = some out) : out.1 = r ∧ l = [out.2.1, out.2.2] := by
  match l with
  | [] => exact Option.noConfusion h
  | [a] => exact Option.noConfusion h
  | [a, b] =>
    rw [Option.some_inj] at h
    subst h
    exact ⟨rfl, rfl⟩
  | a :: b :: c :: rest => exact Option.noConfusion h

theorem sound_x_wing : TechniqueSound x_wing := by
  intro g s hgeom hsol hagr hcont hnpc hbnd
  refine ⟨fun p hp => absurd (hp : p ∈ ([] : List (Nat × Nat × Nat)))
    (List.not_mem_nil p), fun e he => ?_⟩
  have he2 : e ∈ (numRange g.size).flatMap fun num =>
      ((pairsOf ((List.range g.size).filterMap fun r =>
        match (List.range g.size).filter (fun c =>
            decide (g.grid r c = 0 ∧ num ∈ g.candidates r c)) with
        | [a, b] => some (r, a, b)
        | _ => none)).flatMap fun pq =>
        if pq.1.2.1 = pq.2.2.1 ∧ pq.1.2.2 = pq.2.2.2 then
          (List.range g.size).flatMap fun r =>
            if r ≠ pq.1.1 ∧ r ≠ pq.2.1 then
              (if g.grid r pq.1.2.1 = 0 ∧ num ∈ g.candidates r pq.1.2.1 then
                [(r, pq.1.2.1, num)] else []) ++
              (if g.grid r pq.1.2.2 = 0 ∧ num ∈ g.candidates r pq.1.2.2 then
                [(r, pq.1.2.2, num)] else [])
            else []
        else []) ++
      ((pairsOf ((List.range g.size).filterMap fun c =>
        match (List.range g.size).filter (fun r =>
            decide (g.grid r c = 0 ∧ num ∈ g.candidates r c)) with
        | [a, b] => some (c, a, b)
        | _ => none)).flatMap fun pq =>
        if pq.1.2.1 = pq.2.2.1 ∧ pq.1.2.2 = pq.2.2.2 then
          (List.range g.size).flatMap fun c =>
            if c ≠ pq.1.1 ∧ c ≠ pq.2.1 then
              (if g.grid pq.1.2.1 c = 0 ∧ num ∈ g.candidates pq.1.2.1 c then
                [(pq.1.2.1, c, num)] else []) ++
              (if g.grid pq.1.2.2 c = 0 ∧ num ∈ g.candidates pq.1.2.2 c then
                [(pq.1.2.2, c, num)] else [])
            else []
        else []) := he
  rw [List.mem_flatMap] at he2
  obtain ⟨num, hnum, he3⟩ := he2
  obtain ⟨hn1, hn2⟩ := mem_numRange.mp hnum
  rw [List.mem_append] at he3
  rcases he3 with heR | heC
  · rw [List.mem_flatMap] at heR
    obtain ⟨pq, hpq, he4⟩ := heR
    split at he4
    · rename_i hcols
      obtain ⟨hcol1, hcol2⟩ := hcols
      rw [List.mem_flatMap] at he4
      obtain ⟨r, hrR, he5⟩ := he4
      have hrlt := List.mem_range.mp hrR
      split at he5
      · rename_i hrne
        obtain ⟨hrne1, hrne2⟩ := hrne
        have hnd : ((List.range g.size).filterMap fun r =>
            match (List.range g.size).filter (fun c =>
                decide (g.grid r c = 0 ∧ num ∈ g.candidates r c)) with
            | [a, b] => some ((r, a, b) : Nat × Nat × Nat)
            | _ => none).Nodup :=
          List.Nodup.filterMap
            (fun a a' b hb hb' =>
              ((match_two_eq (Option.mem_def.mp hb)).1.symm).trans
                (match_two_eq (Option.mem_def.mp hb')).1)
            (List.nodup_range g.size)
        have hpqne := pairsOf_ne hnd hpq
        obtain ⟨h1m, h2m⟩ := mem_pairsOf hpq
        rw [List.mem_filterMap] at h1m h2m
        obtain ⟨r1, hr1R, hf1⟩ := h1m
        obtain ⟨r2, hr2R, hf2⟩ := h2m
        have hr1lt := List.mem_range.mp hr1R
        have hr2lt := List.mem_range.mp hr2R
        obtain ⟨hpq11, hl1⟩ := match_two_eq hf1
        obtain ⟨hpq21, hl2⟩ := match_two_eq hf2
        have hr12 : r1 ≠ r2 := by
          intro h
          exact hpqne (Prod.ext (by rw [hpq11, hpq21, h])
            (Prod.ext hcol1 hcol2))
        have halt : pq.1.2.1 < g.size := by
          have hm : pq.1.2.1 ∈ (List.range g.size).filter fun c =>
              decide (g.grid r1 c = 0 ∧ num ∈ g.candidates r1 c) := by
            rw [hl1]; exact List.mem_cons_self _ _
          exact List.mem_range.mp (List.mem_of_mem_filter hm)
        have hblt : pq.1.2.2 < g.size := by
          have hm : pq.1.2.2 ∈ (List.range g.size).filter fun c =>
              decide (g.grid r1 c = 0 ∧ num ∈ g.candidates r1 c) := by
            rw [hl1]; exact List.mem_cons_of_mem _ (List.mem_cons_self _ _)
          exact List.mem_range.mp (List.mem_of_mem_filter hm)
        obtain ⟨c1, hc1m, hc1v⟩ := sol_num_in_rowFilter hgeom hsol hagr hcont hnpc
          hr1lt hn1 hn2 (by rw [hl1]; simp)
        obtain ⟨c2, hc2m, hc2v⟩ := sol_num_in_rowFilter hgeom hsol hagr hcont hnpc
          hr2lt hn1 hn2 (by rw [hl2]; simp)
        rw [hl1] at hc1m
        rw [hl2] at hc2m
        simp only [List.mem_cons, List.mem_singleton, List.not_mem_nil, or_false] at hc1m hc2m
        rw [← hcol1] at hc2m
        rw [← hcol2] at hc2m
        have hrr1 : r ≠ r1 := by rw [← hpq11]; exact hrne1
        have hrr2 : r ≠ r2 := by rw [← hpq21]; exact hrne2
        rw [List.mem_append] at he5
        rcases he5 with he6 | he6
        · split at he6
          · rename_i hg2
            rw [List.mem_singleton] at he6
            subst he6
            refine ⟨hrlt, halt, fun hvs => ?_⟩
            have hvs3 : num = s r pq.1.2.1 := hvs
            rcases hc1m with hc1e | hc1e
            · subst hc1e
              exact col_inj_num hgeom hsol halt hr1lt hrlt hrr1.symm hc1v hvs3.symm
            · subst hc1e
              rcases hc2m with hc2e | hc2e
              · subst hc2e
                exact col_inj_num hgeom hsol halt hr2lt hrlt hrr2.symm hc2v hvs3.symm
              · subst hc2e
                exact col_inj_num hgeom hsol hblt hr1lt hr2lt hr12 hc1v hc2v
          · exact absurd he6 (List.not_mem_nil e)
        · split at he6
          · rename_i hg2
            rw [List.mem_singleton] at he6
            subst he6
            refine ⟨hrlt, hblt, fun hvs => ?_⟩
            have hvs3 : num = s r pq.1.2.2 := hvs
            rcases hc1m with hc1e | hc1e
            · subst hc1e
              rcases hc2m with hc2e | hc2e
              · subst hc2e
                exact col_inj_num hgeom hsol halt hr1lt hr2lt hr12 hc1v hc2v
              · subst hc2e
                exact col_inj_num hgeom hsol hblt hr2lt hrlt hrr2.symm hc2v hvs3.symm
            · subst hc1e
              exact col_inj_num hgeom hsol hblt hr1lt hrlt hrr1.symm hc1v hvs3.symm
          · exact absurd he6 (List.not_mem_nil e)
      · exact absurd he5 (List.not_mem_nil e)
    · exact absurd he4 (List.not_mem_nil e)
  · rw [List.mem_flatMap] at heC
    obtain ⟨pq, hpq, he4⟩ := heC
    split at he4
    · rename_i hrows
      obtain ⟨hrow1, hrow2⟩ := hrows
      rw [List.mem_flatMap] at he4
      obtain ⟨c, hcR, he5⟩ := he4
      have hclt := List.mem_range.mp hcR
      split at he5
      · rename_i hcne
        obtain ⟨hcne1, hcne2⟩ := hcne
        have hnd : ((List.range g.size).filterMap fun c =>
            match (List.range g.size).filter (fun r =>
                decide (g.grid r c = 0 ∧ num ∈ g.candidates r c)) with
            | [a, b] => some ((c, a, b) : Nat × Nat × Nat)
            | _ => none).Nodup :=
          List.Nodup.filterMap
            (fun a a' b hb hb' =>
              ((match_two_eq (Option.mem_def.mp hb)).1.symm).trans
                (match_two_eq (Option.mem_def.mp hb')).1)
            (List.nodup_range g.size)
        have hpqne := pairsOf_ne hnd hpq
        obtain ⟨h1m, h2m⟩ := mem_pairsOf hpq
        rw [List.mem_filterMap] at h1m h2m
        obtain ⟨co1, hco1R, hf1⟩ := h1m
        obtain ⟨co2, hco2R, hf2⟩ := h2m
        have hco1lt := List.mem_range.mp hco1R
        have hco2lt := List.mem_range.mp hco2R
        obtain ⟨hpq11, hl1⟩ := match_two_eq hf1
        obtain ⟨hpq21, hl2⟩ := match_two_eq hf2
        have hco12 : co1 ≠ co2 := by
          intro h
          exact hpqne (Prod.ext (by rw [hpq11, hpq21, h])
            (Prod.ext hrow1 hrow2))
        have halt : pq.1.2.1 < g.size := by
          have hm : pq.1.2.1 ∈ (List.range g.size).filter fun r =>
              decide (g.grid r co1 = 0 ∧ num ∈ g.candidates r co1) := by
            rw [hl1]; exact List.mem_cons_self _ _
          exact List.mem_range.mp (List.mem_of_mem_filter hm)
        have hblt : pq.1.2.2 < g.size := by
          have hm : pq.1.2.2 ∈ (List.range g.size).filter fun r =>
              decide (g.grid r co1 = 0 ∧ num ∈ g.candidates r co1) := by
            rw [hl1]; exact List.mem_cons_of_mem _ (List.mem_cons_self _ _)
          exact List.mem_range.mp (List.mem_of_mem_filter hm)
        obtain ⟨ra, hram, hrav⟩ := sol_num_in_colFilter hgeom hsol hagr hcont hnpc
          hco1lt hn1 hn2 (by rw [hl1]; simp)
        obtain ⟨rb, hrbm, hrbv⟩ := sol_num_in_colFilter hgeom hsol hagr hcont hnpc
          hco2lt hn1 hn2 (by rw [hl2]; simp)
        rw [hl1] at hram
        rw [hl2] at hrbm
        simp only [List.mem_cons, List.mem_singleton, List.not_mem_nil, or_false] at hram hrbm
        rw [← hrow1] at hrbm
        rw [← hrow2] at hrbm
        have hcc1 : c ≠ co1 := by rw [← hpq11]; exact hcne1
        have hcc2 : c ≠ co2 := by rw [← hpq21]; exact hcne2
        rw [List.mem_append] at he5
        rcases he5 with he6 | he6
        · split at he6
          · rename_i hg2
            rw [List.mem_singleton] at he6
            subst he6
            refine ⟨halt, hclt, fun hvs => ?_⟩
            have hvs3 : num = s pq.1.2.1 c := hvs
            rcases hram with hrae | hrae
            · subst hrae
              exact row_inj_num hgeom hsol halt hco1lt hclt hcc1.symm hrav hvs3.symm
            · subst hrae
              rcases hrbm with hrbe | hrbe
              · subst hrbe
                exact row_inj_num hgeom hsol halt hco2lt hclt hcc2.symm hrbv hvs3.symm
              · subst hrbe
                exact row_inj_num hgeom hsol hblt hco1lt hco2lt hco12 hrav hrbv
          · exact absurd he6 (List.not_mem_nil e)
        · split at he6
          · rename_i hg2
            rw [List.mem_singleton] at he6
            subst he6
            refine ⟨hblt, hclt, fun hvs => ?_⟩
            have hvs3 : num = s pq.1.2.2 c := hvs
            rcases hram with hrae | hrae
            · subst hrae
              rcases hrbm with hrbe | hrbe
              · subst hrbe
                exact row_inj_num hgeom hsol halt hco1lt hco2lt hco12 hrav hrbv
              · subst hrbe
                exact row_inj_num hgeom hsol hblt hco2lt hclt hcc2.symm hrbv hvs3.symm
            · subst hrae
              exact row_inj_num hgeom hsol hblt hco1lt hclt hcc1.symm hrav hvs3.symm
          · exact absurd he6 (List.not_mem_nil e)
      · exact absurd he5 (List.not_mem_nil e)
    · exact absurd he4 (List.not_mem_nil e)

theorem four_in_three {C : Finset Nat} (h3 : C.card = 3) {a b c d : Nat}
    (ha : a ∈ C) (hb : b ∈ C) (hc : c ∈ C) (hd : d ∈ C)
    (hab : a ≠ b) (hac : a ≠ c) (had : a ≠ d) (hbc : b ≠ c) (hbd : b ≠ d)
    (hcd : c ≠ d) : False := by
  have hsub : ({a, b, c, d} : Finset Nat) ⊆ C := by
    intro v hv
    rcases Finset.mem_insert.mp hv with rfl | hv
    · exact ha
    rcases Finset.mem_insert.mp hv with rfl | hv
    · exact hb
    rcases Finset.mem_insert.mp hv with rfl | hv
    · exact hc
    rw [Finset.mem_singleton] at hv
    exact hv ▸ hd
  have hcard : ({a, b, c, d} : Finset Nat).card = 4 := by
    rw [Finset.card_insert_of_not_mem (by simp [hab, hac, had]),
      Finset.card_insert_of_not_mem (by simp [hbc, hbd]),
      Finset.card_insert_of_not_mem (by simpa using hcd), Finset.card_singleton]
  have := Finset.card_le_card hsub
  omega

theorem if_two3_eq {l : List Nat} {r : Nat} {out : Nat × Finset Nat}
    (h : (if 2 ≤ l.length ∧ l.length ≤ 3 then
      some ((r, l.toFinset) : Nat × Finset Nat) else none) = some out) :
    out.1 = r ∧ out.2 = l.toFinset ∧ 2 ≤ l.length := by
  split at h
  · rename_i hcnd
    rw [Option.some_inj] at h
    subst h
    exact ⟨rfl, rfl, hcnd.1⟩
  · exact Option.noConfusion h

theorem sound_swordfish : TechniqueSound swordfish := by
  intro g s hgeom hsol hagr hcont hnpc hbnd
  refine ⟨fun p hp => absurd (hp : p ∈ ([] : List (Nat × Nat × Nat)))
    (List.not_mem_nil p), fun e he => ?_⟩
  have he2 : e ∈ (numRange g.size).flatMap fun num =>
      ((triplesOf ((List.range g.size).filterMap fun r =>
        if 2 ≤ ((List.range g.size).filter fun c =>
            decide (g.grid r c = 0 ∧ num ∈ g.candidates r c)).length ∧
            ((List.range g.size).filter fun c =>
            decide (g.grid r c = 0 ∧ num ∈ g.candidates r c)).length ≤ 3 then
          some (r, ((List.range g.size).filter fun c =>
            decide (g.grid r c = 0 ∧ num ∈ g.candidates r c)).toFinset)
        else none)).flatMap fun t =>
        if (t.1.2 ∪ t.2.1.2 ∪ t.2.2.2).card = 3 then
          (candList (t.1.2 ∪ t.2.1.2 ∪ t.2.2.2)).flatMap fun col =>
            (List.range g.size).filterMap fun r =>
              if r ∉ ({t.1.1, t.2.1.1, t.2.2.1} : Finset Nat) ∧ g.grid r col = 0 ∧
                  num ∈ g.candidates r col then
                some (r, col, num)
              else none
        else []) ++
      ((triplesOf ((List.range g.size).filterMap fun c =>
        if 2 ≤ ((List.range g.size).filter fun r =>
            decide (g.grid r c = 0 ∧ num ∈ g.candidates r c)).length ∧
            ((List.range g.size).filter fun r =>
            decide (g.grid r c = 0 ∧ num ∈ g.candidates r c)).length ≤ 3 then
          some (c, ((List.range g.size).filter fun r =>
            decide (g.grid r c = 0 ∧ num ∈ g.candidates r c)).toFinset)
        else none)).flatMap fun t =>
        if (t.1.2 ∪ t.2.1.2 ∪ t.2.2.2).card = 3 then
          (candList (t.1.2 ∪ t.2.1.2 ∪ t.2.2.2)).flatMap fun row =>
            (List.range g.size).filterMap fun c =>
              if c ∉ ({t.1.1, t.2.1.1, t.2.2.1} : Finset Nat) ∧ g.grid row c = 0 ∧
                  num ∈ g.candidates row c then
                some (row, c, num)
              else none
        else []) := he
  rw [List.mem_flatMap] at he2
  obtain ⟨num, hnum, he3⟩ := he2
  obtain ⟨hn1, hn2⟩ := mem_numRange.mp hnum
  rw [List.mem_append] at he3
  rcases he3 with heR | heC
  · rw [List.mem_flatMap] at heR
    obtain ⟨t, ht, he4⟩ := heR
    split at he4
    · rename_i hcard3
      rw [List.mem_flatMap] at he4
      obtain ⟨col, hcolm, he5⟩ := he4
      rw [List.mem_filterMap] at he5
      obtain ⟨r, hrR, he6⟩ := he5
      have hrlt := List.mem_range.mp hrR
      split at he6
      · rename_i hg2
        obtain ⟨hrns, h0c, hcc⟩ := hg2
        rw [Option.some_inj] at he6
        subst he6
        have hnd : ((List.range g.size).filterMap fun r =>
            if 2 ≤ ((List.range g.size).filter fun c =>
                decide (g.grid r c = 0 ∧ num ∈ g.candidates r c)).length ∧
                ((List.range g.size).filter fun c =>
                decide (g.grid r c = 0 ∧ num ∈ g.candidates r c)).length ≤ 3 then
              some (r, ((List.range g.size).filter fun c =>
                decide (g.grid r c = 0 ∧ num ∈ g.candidates r c)).toFinset)
            else none).Nodup :=
          List.Nodup.filterMap
            (fun a a' b hb hb' =>
              ((if_two3_eq (Option.mem_def.mp hb)).1.symm).trans
                (if_two3_eq (Option.mem_def.mp hb')).1)
            (List.nodup_range g.size)
        obtain ⟨htne1, htne2, htne3⟩ := triplesOf_ne hnd ht
        obtain ⟨h1m, h2m, h3m⟩ := mem_triplesOf ht
        rw [List.mem_filterMap] at h1m h2m h3m
        obtain ⟨r1, hr1R, hf1⟩ := h1m
        obtain ⟨r2, hr2R, hf2⟩ := h2m
        obtain ⟨r3, hr3R, hf3⟩ := h3m
        have hr1lt := List.mem_range.mp hr1R
        have hr2lt := List.mem_range.mp hr2R
        have hr3lt := List.mem_range.mp hr3R
        obtain ⟨ht11, ht12, hlen1⟩ := if_two3_eq hf1
        obtain ⟨ht21, ht22, hlen2⟩ := if_two3_eq hf2
        obtain ⟨ht31, ht32, hlen3⟩ := if_two3_eq hf3
        have hr12 : r1 ≠ r2 := by
          intro h
          subst h
          rw [hf1] at hf2
          exact htne1 (Option.some_inj.mp hf2)
        have hr13 : r1 ≠ r3 := by
          intro h
          subst h
          rw [hf1] at hf3
          exact htne2 (Option.some_inj.mp hf3)
        have hr23 : r2 ≠ r3 := by
          intro h
          subst h
          rw [hf2] at hf3
          exact htne3 (Option.some_inj.mp hf3)
        have hrr1 : r ≠ r1 := fun h => hrns (by
          rw [Finset.mem_insert]; left; rw [ht11, h])
        have hrr2 : r ≠ r2 := fun h => hrns (by
          rw [Finset.mem_insert]; right; rw [Finset.mem_insert]; left; rw [ht21, h])
        have hrr3 : r ≠ r3 := fun h => hrns (by
          rw [Finset.mem_insert]; right; rw [Finset.mem_insert]; right;
          rw [Finset.mem_singleton, ht31, h])
        obtain ⟨c1, hc1m, hc1v⟩ := sol_num_in_rowFilter hgeom hsol hagr hcont hnpc
          hr1lt hn1 hn2 (by intro h; rw [h] at hlen1; simp at hlen1)
        obtain ⟨c2, hc2m, hc2v⟩ := sol_num_in_rowFilter hgeom hsol hagr hcont hnpc
          hr2lt hn1 hn2 (by intro h; rw [h] at hlen2; simp at hlen2)
        obtain ⟨c3, hc3m, hc3v⟩ := sol_num_in_rowFilter hgeom hsol hagr hcont hnpc
          hr3lt hn1 hn2 (by intro h; rw [h] at hlen3; simp at hlen3)
        have hc1lt := List.mem_range.mp (List.mem_of_mem_filter hc1m)
        have hc2lt := List.mem_range.mp (List.mem_of_mem_filter hc2m)
        have hc3lt := List.mem_range.mp (List.mem_of_mem_filter hc3m)
        have hc1A : c1 ∈ t.1.2 ∪ t.2.1.2 ∪ t.2.2.2 :=
          Finset.mem_union_left _ (Finset.mem_union_left _
            (by rw [ht12]; exact List.mem_toFinset.mpr hc1m))
        have hc2A : c2 ∈ t.1.2 ∪ t.2.1.2 ∪ t.2.2.2 :=
          Finset.mem_union_left _ (Finset.mem_union_right _
            (by rw [ht22]; exact List.mem_toFinset.mpr hc2m))
        have hc3A : c3 ∈ t.1.2 ∪ t.2.1.2 ∪ t.2.2.2 :=
          Finset.mem_union_right _ (by rw [ht32]; exact List.mem_toFinset.mpr hc3m)
        have hcolA := mem_candList.mp hcolm
        have hcollt : col < g.size := by
          rcases Finset.mem_union.mp hcolA with h | h
          · rcases Finset.mem_union.mp h with h | h
            · rw [ht12] at h
              exact List.mem_range.mp (List.mem_of_mem_filter (List.mem_toFinset.mp h))
            · rw [ht22] at h
              exact List.mem_range.mp (List.mem_of_mem_filter (List.mem_toFinset.mp h))
          · rw [ht32] at h
            exact List.mem_range.mp (List.mem_of_mem_filter (List.mem_toFinset.mp h))
        refine ⟨hrlt, hcollt, fun hvs => ?_⟩
        have hvs3 : num = s r col := hvs
        by_cases h12 : c1 = c2
        · exact col_inj_num hgeom hsol hc1lt hr1lt hr2lt hr12 hc1v (by rw [h12]; exact hc2v)
        by_cases h13 : c1 = c3
        · exact col_inj_num hgeom hsol hc1lt hr1lt hr3lt hr13 hc1v (by rw [h13]; exact hc3v)
        by_cases h1c : c1 = col
        · exact col_inj_num hgeom hsol hc1lt hr1lt hrlt hrr1.symm hc1v
            (by rw [h1c]; exact hvs3.symm)
        by_cases h23 : c2 = c3
        · exact col_inj_num hgeom hsol hc2lt hr2lt hr3lt hr23 hc2v (by rw [h23]; exact hc3v)
        by_cases h2c : c2 = col
        · exact col_inj_num hgeom hsol hc2lt hr2lt hrlt hrr2.symm hc2v
            (by rw [h2c]; exact hvs3.symm)
        by_cases h3c : c3 = col
        · exact col_inj_num hgeom hsol hc3lt hr3lt hrlt hrr3.symm hc3v
            (by rw [h3c]; exact hvs3.symm)
        exact four_in_three hcard3 hc1A hc2A hc3A hcolA h12 h13 h1c h23 h2c h3c
      · exact absurd he6 (by simp)
    · exact absurd he4 (List.not_mem_nil e)
  · rw [List.mem_flatMap] at heC
    obtain ⟨t, ht, he4⟩ := heC
    split at he4
    · rename_i hcard3
      rw [List.mem_flatMap] at he4
      obtain ⟨row, hrowm, he5⟩ := he4
      rw [List.mem_filterMap] at he5
      obtain ⟨c, hcR, he6⟩ := he5
      have hclt := List.mem_range.mp hcR
      split at he6
      · rename_i hg2
        obtain ⟨hcns, h0c, hcc⟩ := hg2
        rw [Option.some_inj] at he6
        subst he6
        have hnd : ((List.range g.size).filterMap fun c =>
            if 2 ≤ ((List.range g.size).filter fun r =>
                decide (g.grid r c = 0 ∧ num ∈ g.candidates r c)).length ∧
                ((List.range g.size).filter fun r =>
                decide (g.grid r c = 0 ∧ num ∈ g.candidates r c)).length ≤ 3 then
              some (c, ((List.range g.size).filter fun r =>
                decide (g.grid r c = 0 ∧ num ∈ g.candidates r c)).toFinset)
            else none).Nodup :=
          List.Nodup.filterMap
            (fun a a' b hb hb' =>
              ((if_two3_eq (Option.mem_def.mp hb)).1.symm).trans
                (if_two3_eq (Option.mem_def.mp hb')).1)
            (List.nodup_range g.size)
        obtain ⟨htne1, htne2, htne3⟩ := triplesOf_ne hnd ht
        obtain ⟨h1m, h2m, h3m⟩ := mem_triplesOf ht
        rw [List.mem_filterMap] at h1m h2m h3m
        obtain ⟨co1, hco1R, hf1⟩ := h1m
        obtain ⟨co2, hco2R, hf2⟩ := h2m
        obtain ⟨co3, hco3R, hf3⟩ := h3m
        have hco1lt := List.mem_range.mp hco1R
        have hco2lt := List.mem_range.mp hco2R
        have hco3lt := List.mem_range.mp hco3R
        obtain ⟨ht11, ht12, hlen1⟩ := if_two3_eq hf1
        obtain ⟨ht21, ht22, hlen2⟩ := if_two3_eq hf2
        obtain ⟨ht31, ht32, hlen3⟩ := if_two3_eq hf3
        have hc12 : co1 ≠ co2 := by
          intro h
          subst h
          rw [hf1] at hf2
          exact htne1 (Option.some_inj.mp hf2)
        have hc13 : co1 ≠ co3 := by
          intro h
          subst h
          rw [hf1] at hf3
          exact htne2 (Option.some_inj.mp hf3)
        have hc23 : co2 ≠ co3 := by
          intro h
          subst h
          rw [hf2] at hf3
          exact htne3 (Option.some_inj.mp hf3)
        have hcc1 : c ≠ co1 := fun h => hcns (by
          rw [Finset.mem_insert]; left; rw [ht11, h])
        have hcc2 : c ≠ co2 := fun h => hcns (by
          rw [Finset.mem_insert]; right; rw [Finset.mem_insert]; left; rw [ht21, h])
        have hcc3 : c ≠ co3 := fun h => hcns (by
          rw [Finset.mem_insert]; right; rw [Finset.mem_insert]; right;
          rw [Finset.mem_singleton, ht31, h])
        obtain ⟨r1, hr1m, hr1v⟩ := sol_num_in_colFilter hgeom hsol hagr hcont hnpc
          hco1lt hn1 hn2 (by intro h; rw [h] at hlen1; simp at hlen1)
        obtain ⟨r2, hr2m, hr2v⟩ := sol_num_in_colFilter hgeom hsol hagr hcont hnpc
          hco2lt hn1 hn2 (by intro h; rw [h] at hlen2; simp at hlen2)
        obtain ⟨r3, hr3m, hr3v⟩ := sol_num_in_colFilter hgeom hsol hagr hcont hnpc
          hco3lt hn1 hn2 (by intro h; rw [h] at hlen3; simp at hlen3)
        have hr1lt := List.mem_range.mp (List.mem_of_mem_filter hr1m)
        have hr2lt := List.mem_range.mp (List.mem_of_mem_filter hr2m)
        have hr3lt := List.mem_range.mp (List.mem_of_mem_filter hr3m)
        have hr1A : r1 ∈ t.1.2 ∪ t.2.1.2 ∪ t.2.2.2 :=
          Finset.mem_union_left _ (Finset.mem_union_left _
            (by rw [ht12]; exact List.mem_toFinset.mpr hr1m))
        have hr2A : r2 ∈ t.1.2 ∪ t.2.1.2 ∪ t.2.2.2 :=
          Finset.mem_union_left _ (Finset.mem_union_right _
            (by rw [ht22]; exact List.mem_toFinset.mpr hr2m))
        have hr3A : r3 ∈ t.1.2 ∪ t.2.1.2 ∪ t.2.2.2 :=
          Finset.mem_union_right _ (by rw [ht32]; exact List.mem_toFinset.mpr hr3m)
        have hrowA := mem_candList.mp hrowm
        have hrowlt : row < g.size := by
          rcases Finset.mem_union.mp hrowA with h | h
          · rcases Finset.mem_union.mp h with h | h
            · rw [ht12] at h
              exact List.mem_range.mp (List.mem_of_mem_filter (List.mem_toFinset.mp h))
            · rw [ht22] at h
              exact List.mem_range.mp (List.mem_of_mem_filter (List.mem_toFinset.mp h))
          · rw [ht32] at h
            exact List.mem_range.mp (List.mem_of_mem_filter (List.mem_toFinset.mp h))
        refine ⟨hrowlt, hclt, fun hvs => ?_⟩
        have hvs3 : num = s row c := hvs
        by_cases h12 : r1 = r2
        · exact row_inj_num hgeom hsol hr1lt hco1lt hco2lt hc12 hr1v (by rw [h12]; exact hr2v)
        by_cases h13 : r1 = r3
        · exact row_inj_num hgeom hsol hr1lt hco1lt hco3lt hc13 hr1v (by rw [h13]; exact hr3v)
        by_cases h1c : r1 = row
        · exact row_inj_num hgeom hsol hr1lt hco1lt hclt hcc1.symm hr1v
            (by rw [h1c]; exact hvs3.symm)
        by_cases h23 : r2 = r3
        · exact row_inj_num hgeom hsol hr2lt hco2lt hco3lt hc23 hr2v (by rw [h23]; exact hr3v)
        by_cases h2c : r2 = row
        · exact row_inj_num hgeom hsol hr2lt hco2lt hclt hcc2.symm hr2v
            (by rw [h2c]; exact hvs3.symm)
        by_cases h3c : r3 = row
        · exact row_inj_num hgeom hsol hr3lt hco3lt hclt hcc3.symm hr3v
            (by rw [h3c]; exact hvs3.symm)
        exact four_in_three hcard3 hr1A hr2A hr3A hrowA h12 h13 h1c h23 h2c h3c
      · exact absurd he6 (by simp)
    · exact absurd he4 (List.not_mem_nil e)

theorem if_bivalue_eq {g : SudokuGrid} {C : Finset Nat} {p : Nat × Nat}
    {out : Nat × Nat × Finset Nat}
    (h : (if g.grid p.1 p.2 = 0 ∧ (g.candidates p.1 p.2).card = 2 ∧
        g.candidates p.1 p.2 ⊆ C then
      some ((p.1, p.2, g.get_candidates p.1 p.2) : Nat × Nat × Finset Nat)
    else none) = some out) :
    out = (p.1, p.2, g.get_candidates p.1 p.2) ∧ g.grid p.1 p.2 = 0 ∧
      (g.candidates p.1 p.2).card = 2 ∧ g.candidates p.1 p.2 ⊆ C := by
  split at h
  · rename_i hcnd
    exact ⟨(Option.some_inj.mp h).symm, hcnd⟩
  · exact Option.noConfusion h

theorem xyz_wing_mem {g : SudokuGrid} {x : Nat × Nat × Nat}
    (hx : x ∈ (xyz_wing g).eliminations) :
    ∃ pr ∈ List.range g.size, ∃ pc ∈ List.range g.size,
      g.grid pr pc = 0 ∧ (g.get_candidates pr pc).card = 3 ∧
      ∃ ww ∈ pairsOf ((cellList (g.get_peers pr pc)).filterMap fun p =>
        if g.grid p.1 p.2 = 0 ∧ (g.candidates p.1 p.2).card = 2 ∧
            g.candidates p.1 p.2 ⊆ g.get_candidates pr pc then
          some (p.1, p.2, g.get_candidates p.1 p.2)
        else none),
        (ww.1.2.2 ∪ ww.2.2.2 = g.get_candidates pr pc ∧
          (ww.1.2.2 ∩ ww.2.2.2).card = 1) ∧
        ∃ rc ∈ cellList (g.get_peers pr pc ∩ g.get_peers ww.1.1 ww.1.2.1 ∩
          g.get_peers ww.2.1 ww.2.2.1),
          x = (rc.1, rc.2, (candList (ww.1.2.2 ∩ ww.2.2.2)).headD 0) ∧
          g.grid rc.1 rc.2 = 0 ∧
          (candList (ww.1.2.2 ∩ ww.2.2.2)).headD 0 ∈ g.candidates rc.1 rc.2 := by
  unfold xyz_wing at hx
  dsimp only at hx
  rcases foldl_mem (Q := fun pr y => ∃ pc ∈ List.range g.size,
      g.grid pr pc = 0 ∧ (g.get_candidates pr pc).card = 3 ∧
      ∃ ww ∈ pairsOf ((cellList (g.get_peers pr pc)).filterMap fun p =>
        if g.grid p.1 p.2 = 0 ∧ (g.candidates p.1 p.2).card = 2 ∧
            g.candidates p.1 p.2 ⊆ g.get_candidates pr pc then
          some (p.1, p.2, g.get_candidates p.1 p.2)
        else none),
        (ww.1.2.2 ∪ ww.2.2.2 = g.get_candidates pr pc ∧
          (ww.1.2.2 ∩ ww.2.2.2).card = 1) ∧
        ∃ rc ∈ cellList (g.get_peers pr pc ∩ g.get_peers ww.1.1 ww.1.2.1 ∩
          g.get_peers ww.2.1 ww.2.2.1),
          y = (rc.1, rc.2, (candList (ww.1.2.2 ∩ ww.2.2.2)).headD 0) ∧
          g.grid rc.1 rc.2 = 0 ∧
          (candList (ww.1.2.2 ∩ ww.2.2.2)).headD 0 ∈ g.candidates rc.1 rc.2)
    (fun acc pr y hy => by
      rcases foldl_mem (Q := fun pc y2 =>
          g.grid pr pc = 0 ∧ (g.get_candidates pr pc).card = 3 ∧
          ∃ ww ∈ pairsOf ((cellList (g.get_peers pr pc)).filterMap fun p =>
            if g.grid p.1 p.2 = 0 ∧ (g.candidates p.1 p.2).card = 2 ∧
                g.candidates p.1 p.2 ⊆ g.get_candidates pr pc then
              some (p.1, p.2, g.get_candidates p.1 p.2)
            else none),
            (ww.1.2.2 ∪ ww.2.2.2 = g.get_candidates pr pc ∧
              (ww.1.2.2 ∩ ww.2.2.2).card = 1) ∧
            ∃ rc ∈ cellList (g.get_peers pr pc ∩ g.get_peers ww.1.1 ww.1.2.1 ∩
              g.get_peers ww.2.1 ww.2.2.1),
              y2 = (rc.1, rc.2, (candList (ww.1.2.2 ∩ ww.2.2.2)).headD 0) ∧
              g.grid rc.1 rc.2 = 0 ∧
              (candList (ww.1.2.2 ∩ ww.2.2.2)).headD 0 ∈ g.candidates rc.1 rc.2)
        (fun acc2 pc y2 hy2 => by
          split at hy2
          · exact Or.inl hy2
          · rename_i hg0
            split at hy2
            · exact Or.inl hy2
            · rename_i hc3
              rcases foldl_mem (Q := fun ww y3 =>
                  (ww.1.2.2 ∪ ww.2.2.2 = g.get_candidates pr pc ∧
                    (ww.1.2.2 ∩ ww.2.2.2).card = 1) ∧
                  ∃ rc ∈ cellList (g.get_peers pr pc ∩ g.get_peers ww.1.1 ww.1.2.1 ∩
                    g.get_peers ww.2.1 ww.2.2.1),
                    y3 = (rc.1, rc.2, (candList (ww.1.2.2 ∩ ww.2.2.2)).headD 0) ∧
                    g.grid rc.1 rc.2 = 0 ∧
                    (candList (ww.1.2.2 ∩ ww.2.2.2)).headD 0 ∈ g.candidates rc.1 rc.2)
                (fun acc3 ww y3 hy3 => by
                  split at hy3
                  · rename_i hcnd
                    rcases foldl_mem (Q := fun rc y4 =>
                        y4 = (rc.1, rc.2, (candList (ww.1.2.2 ∩ ww.2.2.2)).headD 0) ∧
                        g.grid rc.1 rc.2 = 0 ∧
                        (candList (ww.1.2.2 ∩ ww.2.2.2)).headD 0 ∈ g.candidates rc.1 rc.2)
                      (fun acc4 rc y4 hy4 => by
                        split at hy4
                        · rename_i hcnd4
                          rcases List.mem_append.mp hy4 with h | h
                          · exact Or.inl h
                          · exact Or.inr ⟨by simpa using h, hcnd4.1, hcnd4.2.1⟩
                        · exact Or.inl hy4)
                      _ acc3 y3 hy3 with h | ⟨rc, hrc, hq⟩
                    · exact Or.inl h
                    · exact Or.inr ⟨hcnd, rc, hrc, hq⟩
                  · exact Or.inl hy3)
                _ acc2 y2 hy2 with h | ⟨ww, hww, hq⟩
              · exact Or.inl h
              · exact Or.inr ⟨not_not.mp hg0, not_not.mp hc3, ww, hww, hq⟩)
        (List.range g.size) acc y hy with h | ⟨pc, hpc, hq⟩
      · exact Or.inl h
      · exact Or.inr ⟨pc, hpc, hq⟩)
    (List.range g.size) _ x hx with hnil | ⟨pr, hpr, hq⟩
  · exact absurd hnil (List.not_mem_nil x)
  · exact ⟨pr, hpr, hq⟩

theorem sound_xyz_wing : TechniqueSound xyz_wing := by
  intro g s hgeom hsol hagr hcont hnpc hbnd
  refine ⟨fun p hp => absurd (hp : p ∈ ([] : List (Nat × Nat × Nat)))
    (List.not_mem_nil p), fun e he => ?_⟩
  obtain ⟨pr, hprR, pc, hpcR, h0P, hcard3, ww, hww, ⟨hunion, hinter1⟩, rc, hrcm, hxeq,
    h0rc, hzc⟩ := xyz_wing_mem he
  have hprlt := List.mem_range.mp hprR
  have hpclt := List.mem_range.mp hpcR
  obtain ⟨h1m, h2m⟩ := mem_pairsOf hww
  rw [List.mem_filterMap] at h1m h2m
  obtain ⟨w1, hw1m, hf1⟩ := h1m
  obtain ⟨w2, hw2m, hf2⟩ := h2m
  obtain ⟨hw1eq, h0w1, hcardw1, hsubw1⟩ := if_bivalue_eq hf1
  obtain ⟨hw2eq, h0w2, hcardw2, hsubw2⟩ := if_bivalue_eq hf2
  have hw1P : w1 ∈ g.get_peers pr pc := mem_cellList.mp hw1m
  have hw2P : w2 ∈ g.get_peers pr pc := mem_cellList.mp hw2m
  obtain ⟨_, hw11lt, hw12lt, _⟩ := (mem_get_peers hgeom hprlt hpclt).mp hw1P
  obtain ⟨_, hw21lt, hw22lt, _⟩ := (mem_get_peers hgeom hprlt hpclt).mp hw2P
  rw [hw1eq, hw2eq] at hrcm hunion hinter1 hxeq hzc
  have hrcI := mem_cellList.mp hrcm
  have hrcI2 : rc ∈ g.get_peers pr pc ∩ g.get_peers w1.1 w1.2 ∩
      g.get_peers w2.1 w2.2 := hrcI
  rw [Finset.mem_inter, Finset.mem_inter] at hrcI2
  obtain ⟨⟨hrcP, hrcW1⟩, hrcW2⟩ := hrcI2
  obtain ⟨_, hrc1lt, hrc2lt, _⟩ := (mem_get_peers hgeom hprlt hpclt).mp hrcP
  have hunion2 : g.get_candidates w1.1 w1.2 ∪ g.get_candidates w2.1 w2.2 =
      g.get_candidates pr pc := hunion
  have hinter2 : (g.get_candidates w1.1 w1.2 ∩ g.get_candidates w2.1 w2.2).card = 1 :=
    hinter1
  obtain ⟨z0, hzeq, hzhead⟩ := candList_card_one hinter2
  have hxeq2 : e = (rc.1, rc.2, (candList (g.get_candidates w1.1 w1.2 ∩
      g.get_candidates w2.1 w2.2)).headD 0) := hxeq
  rw [hzhead] at hxeq2
  subst hxeq2
  refine ⟨hrc1lt, hrc2lt, fun hvs => ?_⟩
  have hvs3 : z0 = s rc.1 rc.2 := hvs
  have hz0m : z0 ∈ g.get_candidates w1.1 w1.2 ∩ g.get_candidates w2.1 w2.2 := by
    rw [hzeq]; exact Finset.mem_singleton_self z0
  rw [Finset.mem_inter] at hz0m
  obtain ⟨hz0C1, hz0C2⟩ := hz0m
  have hsP : s pr pc ∈ g.get_candidates pr pc := hcont pr hprlt pc hpclt h0P
  have hsw1 : s w1.1 w1.2 ∈ g.get_candidates w1.1 w1.2 :=
    hcont w1.1 hw11lt w1.2 hw12lt h0w1
  have hsw2 : s w2.1 w2.2 ∈ g.get_candidates w2.1 w2.2 :=
    hcont w2.1 hw21lt w2.2 hw22lt h0w2
  have hne_rc_P : s rc.1 rc.2 ≠ s pr pc :=
    sol_ne_of_peer hgeom hsol hprlt hpclt hrcP
  have hne_rc_w1 : s rc.1 rc.2 ≠ s w1.1 w1.2 :=
    sol_ne_of_peer hgeom hsol hw11lt hw12lt hrcW1
  have hne_rc_w2 : s rc.1 rc.2 ≠ s w2.1 w2.2 :=
    sol_ne_of_peer hgeom hsol hw21lt hw22lt hrcW2
  have hne_P_w1 : s w1.1 w1.2 ≠ s pr pc :=
    sol_ne_of_peer hgeom hsol hprlt hpclt hw1P
  have hne_P_w2 : s w2.1 w2.2 ≠ s pr pc :=
    sol_ne_of_peer hgeom hsol hprlt hpclt hw2P
  have hz0w1 : z0 ≠ s w1.1 w1.2 := fun h => hne_rc_w1 (hvs3.symm.trans h)
  have hz0w2 : z0 ≠ s w2.1 w2.2 := fun h => hne_rc_w2 (hvs3.symm.trans h)
  have hor1 := pair_set_eq hcardw1 hz0C1 hsw1 hz0w1
  have hor2 := pair_set_eq hcardw2 hz0C2 hsw2 hz0w2
  rw [← hunion2] at hsP
  rcases Finset.mem_union.mp hsP with hmem | hmem
  · rcases hor1 (s pr pc) hmem with h | h
    · exact hne_rc_P (hvs3.symm.trans h.symm)
    · exact hne_P_w1 h.symm
  · rcases hor2 (s pr pc) hmem with h | h
    · exact hne_rc_P (hvs3.symm.trans h.symm)
    · exact hne_P_w2 h.symm

theorem bi_mem {g : SudokuGrid} {w : Nat × Nat × Finset Nat} (hw : w ∈ yWingBi g) :
    w.1 < g.size ∧ w.2.1 < g.size ∧ g.grid w.1 w.2.1 = 0 ∧
      (g.candidates w.1 w.2.1).card = 2 ∧ w.2.2 = g.get_candidates w.1 w.2.1 := by
  unfold yWingBi at hw
  rw [List.mem_filterMap] at hw
  obtain ⟨rc, hrcm, hf⟩ := hw
  obtain ⟨h1, h2⟩ := mem_allCellsList.mp hrcm
  split at hf
  · rename_i hcnd
    rw [Option.some_inj] at hf
    subst hf
    exact ⟨h1, h2, hcnd.1, hcnd.2, rfl⟩
  · exact Option.noConfusion hf

theorem y_wing_mem {g : SudokuGrid} {x : Nat × Nat × Nat}
    (hx : x ∈ (y_wing g).eliminations) :
    ∃ pivot ∈ yWingBi g, ∃ w1 ∈ yWingXZ g pivot, ∃ w2 ∈ yWingYZ g pivot,
      w1.2.2 = w2.2.2 ∧
      ∃ rc ∈ cellList (g.get_peers w1.1 w1.2.1 ∩ g.get_peers w2.1 w2.2.1),
        x = (rc.1, rc.2, w1.2.2) ∧ g.grid rc.1 rc.2 = 0 ∧
        w1.2.2 ∈ g.candidates rc.1 rc.2 := by
  unfold y_wing at hx
  dsimp only at hx
  rcases foldl_mem (Q := fun pivot y => ∃ w1 ∈ yWingXZ g pivot, ∃ w2 ∈ yWingYZ g pivot,
      w1.2.2 = w2.2.2 ∧
      ∃ rc ∈ cellList (g.get_peers w1.1 w1.2.1 ∩ g.get_peers w2.1 w2.2.1),
        y = (rc.1, rc.2, w1.2.2) ∧ g.grid rc.1 rc.2 = 0 ∧
        w1.2.2 ∈ g.candidates rc.1 rc.2)
    (fun acc pivot y hy => by
      rcases foldl_mem (Q := fun w1 y2 => ∃ w2 ∈ yWingYZ g pivot,
          w1.2.2 = w2.2.2 ∧
          ∃ rc ∈ cellList (g.get_peers w1.1 w1.2.1 ∩ g.get_peers w2.1 w2.2.1),
            y2 = (rc.1, rc.2, w1.2.2) ∧ g.grid rc.1 rc.2 = 0 ∧
            w1.2.2 ∈ g.candidates rc.1 rc.2)
        (fun acc2 w1 y2 hy2 => by
          rcases foldl_mem (Q := fun w2 y3 =>
              w1.2.2 = w2.2.2 ∧
              ∃ rc ∈ cellList (g.get_peers w1.1 w1.2.1 ∩ g.get_peers w2.1 w2.2.1),
                y3 = (rc.1, rc.2, w1.2.2) ∧ g.grid rc.1 rc.2 = 0 ∧
                w1.2.2 ∈ g.candidates rc.1 rc.2)
            (fun acc3 w2 y3 hy3 => by
              split at hy3
              · rename_i hzz
                rcases foldl_mem (Q := fun rc y4 =>
                    y4 = (rc.1, rc.2, w1.2.2) ∧ g.grid rc.1 rc.2 = 0 ∧
                    w1.2.2 ∈ g.candidates rc.1 rc.2)
                  (fun acc4 rc y4 hy4 => by
                    split at hy4
                    · rename_i hcnd4
                      rcases List.mem_append.mp hy4 with h | h
                      · exact Or.inl h
                      · exact Or.inr ⟨by simpa using h, hcnd4.1, hcnd4.2.1⟩
                    · exact Or.inl hy4)
                  _ acc3 y3 hy3 with h | ⟨rc, hrc, hq⟩
                · exact Or.inl h
                · exact Or.inr ⟨hzz, rc, hrc, hq⟩
              · exact Or.inl hy3)
            _ acc2 y2 hy2 with h | ⟨w2, hw2, hq⟩
          · exact Or.inl h
          · exact Or.inr ⟨w2, hw2, hq⟩)
        _ acc y hy with h | ⟨w1, hw1, hq⟩
      · exact Or.inl h
      · exact Or.inr ⟨w1, hw1, hq⟩)
    _ _ x hx with hnil | ⟨pivot, hpm, hq⟩
  · exact absurd hnil (List.not_mem_nil x)
  · exact ⟨pivot, hpm, hq⟩

theorem sound_y_wing : TechniqueSound y_wing := by
  intro g s hgeom hsol hagr hcont hnpc hbnd
  refine ⟨fun p hp => absurd (hp : p ∈ ([] : List (Nat × Nat × Nat)))
    (List.not_mem_nil p), fun e he => ?_⟩
  obtain ⟨pivot, hpm, w1, hw1m, w2, hw2m, hzeq12, rc, hrcm, hxeq, h0rc, hzc⟩ :=
    y_wing_mem he
  obtain ⟨hplt1, hplt2, h0P, hcardP, hPe⟩ := bi_mem hpm
  unfold yWingXZ at hw1m
  rw [List.mem_filterMap] at hw1m
  obtain ⟨u1, hu1bi, hf1⟩ := hw1m
  unfold yWingYZ at hw2m
  rw [List.mem_filterMap] at hw2m
  obtain ⟨u2, hu2bi, hf2⟩ := hw2m
  obtain ⟨hu1lt1, hu1lt2, h0u1, hcardu1, hu1e⟩ := bi_mem hu1bi
  obtain ⟨hu2lt1, hu2lt2, h0u2, hcardu2, hu2e⟩ := bi_mem hu2bi
  have hPcard2 : pivot.2.2.card = 2 := by rw [hPe]; exact hcardP
  obtain ⟨X0, Y0, hXYne, hPset, hgd0, hgd1⟩ := candList_card_two hPcard2
  have hW1card : u1.2.2.card = 2 := by rw [hu1e]; exact hcardu1
  obtain ⟨a1, b1, hab1, hW1set, hw10, hw11⟩ := candList_card_two hW1card
  have hW2card : u2.2.2.card = 2 := by rw [hu2e]; exact hcardu2
  obtain ⟨a2, b2, hab2, hW2set, hw20, hw21⟩ := candList_card_two hW2card
  split at hf1
  · rename_i hg1
    obtain ⟨hu1peer, hXin, hYnot⟩ := hg1
    rw [hgd0] at hXin
    rw [hgd1] at hYnot
    split at hf2
    · rename_i hg2
      obtain ⟨hu2peer, hnotand, hYin2, hXnot2⟩ := hg2
      rw [hgd1] at hYin2
      rw [hgd0] at hXnot2
      rw [Option.some_inj] at hf1 hf2
      rw [hw11, hw10, hgd0] at hf1
      rw [hw21, hw20, hgd1] at hf2
      subst hf1
      subst hf2
      have hz12 : (if b1 = X0 then a1 else b1) = (if b2 = Y0 then a2 else b2) := hzeq12
      have hrcI : rc ∈ g.get_peers u1.1 u1.2.1 ∩ g.get_peers u2.1 u2.2.1 :=
        mem_cellList.mp hrcm
      rw [Finset.mem_inter] at hrcI
      obtain ⟨hrcW1, hrcW2⟩ := hrcI
      obtain ⟨_, hrc1lt, hrc2lt, _⟩ := (mem_get_peers hgeom hu1lt1 hu1lt2).mp hrcW1
      have hz1 : (if b1 = X0 then a1 else b1) ∈ u1.2.2 ∧
          (if b1 = X0 then a1 else b1) ≠ X0 := by
        by_cases hbx : b1 = X0
        · rw [if_pos hbx]
          refine ⟨by rw [hW1set]; simp, fun h => hab1 (h.trans hbx.symm)⟩
        · rw [if_neg hbx]
          exact ⟨by rw [hW1set]; simp, hbx⟩
      have hz2 : (if b2 = Y0 then a2 else b2) ∈ u2.2.2 ∧
          (if b2 = Y0 then a2 else b2) ≠ Y0 := by
        by_cases hby : b2 = Y0
        · rw [if_pos hby]
          refine ⟨by rw [hW2set]; simp, fun h => hab2 (h.trans hby.symm)⟩
        · rw [if_neg hby]
          exact ⟨by rw [hW2set]; simp, hby⟩
      have hsP : s pivot.1 pivot.2.1 ∈ pivot.2.2 := by
        rw [hPe]
        exact hcont pivot.1 hplt1 pivot.2.1 hplt2 h0P
      rw [hPset, Finset.mem_insert, Finset.mem_singleton] at hsP
      have hsw1 : s u1.1 u1.2.1 ∈ u1.2.2 := by
        rw [hu1e]
        exact hcont u1.1 hu1lt1 u1.2.1 hu1lt2 h0u1
      have hsw2 : s u2.1 u2.2.1 ∈ u2.2.2 := by
        rw [hu2e]
        exact hcont u2.1 hu2lt1 u2.2.1 hu2lt2 h0u2
      have hor1 := pair_set_eq hW1card hXin hz1.1 (fun h => hz1.2 h.symm)
        (s u1.1 u1.2.1) hsw1
      have hor2 := pair_set_eq hW2card hYin2 hz2.1 (fun h => hz2.2 h.symm)
        (s u2.1 u2.2.1) hsw2
      have hne_rc_w1 : s rc.1 rc.2 ≠ s u1.1 u1.2.1 :=
        sol_ne_of_peer hgeom hsol hu1lt1 hu1lt2 hrcW1
      have hne_rc_w2 : s rc.1 rc.2 ≠ s u2.1 u2.2.1 :=
        sol_ne_of_peer hgeom hsol hu2lt1 hu2lt2 hrcW2
      have hne_w1_P : s u1.1 u1.2.1 ≠ s pivot.1 pivot.2.1 :=
        sol_ne_of_peer hgeom hsol hplt1 hplt2 hu1peer
      have hne_w2_P : s u2.1 u2.2.1 ≠ s pivot.1 pivot.2.1 :=
        sol_ne_of_peer hgeom hsol hplt1 hplt2 hu2peer
      subst hxeq
      refine ⟨hrc1lt, hrc2lt, fun hvs => ?_⟩
      have hvs3 : (if b1 = X0 then a1 else b1) = s rc.1 rc.2 := hvs
      have hsw1X : s u1.1 u1.2.1 = X0 := by
        rcases hor1 with h | h
        · exact h
        · exact absurd (h.trans hvs3).symm hne_rc_w1
      have hsw2Y : s u2.1 u2.2.1 = Y0 := by
        rcases hor2 with h | h
        · exact h
        · exact absurd (h.trans (hz12.symm.trans hvs3)).symm hne_rc_w2
      rcases hsP with h | h
      · exact hne_w1_P (hsw1X.trans h.symm)
      · exact hne_w2_P (hsw2Y.trans h.symm)
    · exact Option.noConfusion hf2
  · exact Option.noConfusion hf1

/-- C4: as literally stated the claim is false. On a grid agreeing with a
complete solution whose empty cell (0, 1) keeps the stale candidate 1
(already placed at peer (0, 0)) alongside the true value 2, the
`hidden_singles` registry technique emits the placement (0, 1, 1), which
contradicts the solution value 2 at that cell. -/
theorem C4_counterexample : ¬ (∀ (g : SudokuGrid) (s : Nat → Nat → Nat),
    WFGeom g → IsSolution g s → Agrees g s → CandsContainSol g s →
    ∀ f lv, (f, lv) ∈ TECHNIQUES →
      (∀ p ∈ (f g).placements,
        p.1 < g.size ∧ p.2.1 < g.size ∧ g.grid p.1 p.2.1 = 0 ∧ p.2.2 = s p.1 p.2.1) ∧
      (∀ e ∈ (f g).eliminations,
        e.1 < g.size ∧ e.2.1 < g.size ∧ e.2.2 ≠ s e.1 e.2.1)) := by
  intro h
  have hmem : ((0, 1, 1) : Nat × Nat × Nat) ∈ (hidden_singles g6bad).placements := by
    decide
  have hval := ((h g6bad s6Fun (by decide) (by decide) (by decide) (by decide)
    hidden_singles 1 (List.mem_cons_of_mem _ (List.mem_cons_self _ _))).1
    (0, 1, 1) hmem).2.2.2
  exact absurd hval (by decide)

/-- C4 (amended): every technique of the `TECHNIQUES` registry is sound on
any grid whose filled cells agree with a complete solution, provided the
candidate sets contain the solution's value at every empty cell, never keep
a value already placed in a peer, and stay within `[1, size]`: every
placement (r, c, v) has v equal to the solution's value at (r, c), and no
elimination removes the solution's value. -/
theorem C4_technique_soundness (f : SudokuGrid → TechniqueResult) (lv : Nat)
    (hf : (f, lv) ∈ TECHNIQUES) : TechniqueSound f := by
  simp only [TECHNIQUES, List.mem_cons, List.not_mem_nil, or_false, Prod.mk.injEq] at hf
  rcases hf with ⟨rfl, -⟩ | ⟨rfl, -⟩ | ⟨rfl, -⟩ | ⟨rfl, -⟩ | ⟨rfl, -⟩ | ⟨rfl, -⟩ |
    ⟨rfl, -⟩ | ⟨rfl, -⟩ | ⟨rfl, -⟩ | ⟨rfl, -⟩ | ⟨rfl, -⟩ | ⟨rfl, -⟩
  exacts [sound_naked_singles, sound_hidden_singles, sound_naked_pairs,
    sound_hidden_pairs, sound_naked_triples, sound_hidden_triples,
    sound_pointing_pairs, sound_box_line_reduction, sound_x_wing, sound_y_wing,
    sound_swordfish, sound_xyz_wing]

/-- Witness for C4 at the registry head `naked_singles` on the concrete
solved 6x6 grid. -/
theorem C4_technique_soundness_witness :
    (∀ p ∈ (naked_singles g6solved).placements,
      p.1 < g6solved.size ∧ p.2.1 < g6solved.size ∧ g6solved.grid p.1 p.2.1 = 0 ∧
        p.2.2 = s6Fun p.1 p.2.1) ∧
    (∀ e ∈ (naked_singles g6solved).eliminations,
      e.1 < g6solved.size ∧ e.2.1 < g6solved.size ∧ e.2.2 ≠ s6Fun e.1 e.2.1) :=
  C4_technique_soundness naked_singles 1 (List.mem_cons_self _ _) g6solved s6Fun
    (by decide) (by decide) (by decide) (by decide) (by decide) (by decide)

theorem TECHNIQUES_sorted : (TECHNIQUES.map Prod.snd).Pairwise (· ≤ ·) := by decide

theorem apply_placements_unchanged {name : String} {level : Nat} :
    ∀ (ps : List (Nat × Nat × Nat)) (g : SudokuGrid) (res : SolveResult) (ch : Bool),
      (apply_placements name level ps g res ch).2.2 = false →
      (apply_placements name level ps g res ch).2.1 = res ∧ ch = false := by
  intro ps
  induction ps with
  | nil => intro g res ch h; exact ⟨rfl, h⟩
  | cons p rest ih =>
    intro g res ch h
    obtain ⟨r, c, val⟩ := p
    simp only [apply_placements] at h ⊢
    by_cases he : g.is_empty r c = true
    · rw [if_pos he] at h ⊢
      obtain ⟨_, hch⟩ := ih _ _ _ h
      exact absurd hch (by simp)
    · rw [if_neg he] at h ⊢
      exact ih _ _ _ h

theorem apply_eliminations_unchanged {name : String} {level : Nat} :
    ∀ (es : List (Nat × Nat × Nat)) (g : SudokuGrid) (res : SolveResult) (ch : Bool),
      (apply_eliminations name level es g res ch).2.2 = false →
      (apply_eliminations name level es g res ch).2.1 = res ∧ ch = false := by
  intro es
  induction es with
  | nil => intro g res ch h; exact ⟨rfl, h⟩
  | cons p rest ih =>
    intro g res ch h
    obtain ⟨r, c, val⟩ := p
    simp only [apply_eliminations] at h ⊢
    by_cases hr : (g.remove_candidate r c val).1 = true
    · rw [if_pos hr] at h ⊢
      obtain ⟨_, hch⟩ := ih _ _ _ h
      exact absurd hch (by simp)
    · rw [if_neg hr] at h ⊢
      exact ih _ _ _ h

theorem apply_result_unchanged {tr : TechniqueResult} {g : SudokuGrid} {res : SolveResult}
    (h : (apply_result tr g res).2.2 = false) : (apply_result tr g res).2.1 = res := by
  unfold apply_result at h ⊢
  obtain ⟨h1, h2⟩ := apply_eliminations_unchanged _ _ _ _ h
  rw [h1]
  exact (apply_placements_unchanged _ _ _ _ h2).1

theorem scan_all_skipped {k : Nat} :
    ∀ {l : List ((SudokuGrid → TechniqueResult) × Nat)}, (∀ p ∈ l, k < p.2) →
      ∀ (g : SudokuGrid) (res : SolveResult), scan_go k l g res = (false, g, res) := by
  intro l
  induction l with
  | nil => intro _ g res; rfl
  | cons hd rest ih =>
    intro h g res
    obtain ⟨f, lv⟩ := hd
    have hlv : k < lv := h (f, lv) (List.mem_cons_self _ _)
    simp only [scan_go]
    rw [if_pos hlv]
    exact ih (fun p hp => h p (List.mem_cons_of_mem _ hp)) g res

theorem scan_true_agree {k : Nat} :
    ∀ {l : List ((SudokuGrid → TechniqueResult) × Nat)},
      (l.map Prod.snd).Pairwise (· ≤ ·) →
      ∀ (g : SudokuGrid) (res : SolveResult), (scan_go k l g res).1 = true →
        scan_go (k + 1) l g res = scan_go k l g res := by
  intro l
  induction l with
  | nil => intro _ g res h; exact absurd h (by simp [scan_go])
  | cons hd rest ih =>
    intro hsort g res h
    obtain ⟨f, lv⟩ := hd
    rw [List.map_cons, List.pairwise_cons] at hsort
    obtain ⟨hle, hsort2⟩ := hsort
    simp only [scan_go] at h ⊢
    by_cases hlv : lv > k
    · rw [if_pos hlv] at h
      have hall : ∀ p ∈ rest, k < p.2 := by
        intro p hp
        have := hle p.2 (List.mem_map_of_mem Prod.snd hp)
        omega
      rw [scan_all_skipped hall g res] at h
      exact absurd h (by simp)
    · rw [if_neg hlv] at h
      have hlv1 : ¬ lv > k + 1 := by omega
      rw [if_neg hlv, if_neg hlv1]
      by_cases ht : (f g).truthy = true
      · rw [if_pos ht] at h
        rw [if_pos ht, if_pos ht]
        by_cases hch : (apply_result (f g) g res).2.2 = true
        · rw [if_pos hch, if_pos hch]
        · rw [if_neg hch] at h
          rw [if_neg hch, if_neg hch]
          exact ih hsort2 _ _ h
      · rw [if_neg ht] at h
        rw [if_neg ht, if_neg ht]
        exact ih hsort2 g res h

theorem scan_false_res {k : Nat} :
    ∀ (l : List ((SudokuGrid → TechniqueResult) × Nat)) (g : SudokuGrid)
      (res : SolveResult), (scan_go k l g res).1 = false →
        (scan_go k l g res).2.2 = res := by
  intro l
  induction l with
  | nil => intro g res _; rfl
  | cons hd rest ih =>
    intro g res h
    obtain ⟨f, lv⟩ := hd
    simp only [scan_go] at h ⊢
    by_cases hlv : lv > k
    · rw [if_pos hlv] at h ⊢
      exact ih g res h
    · rw [if_neg hlv] at h ⊢
      by_cases ht : (f g).truthy = true
      · rw [if_pos ht] at h ⊢
        by_cases hch : (apply_result (f g) g res).2.2 = true
        · rw [if_pos hch] at h
          exact absurd h (by simp)
        · have hch2 : (apply_result (f g) g res).2.2 = false := by
            cases hb : (apply_result (f g) g res).2.2
            · rfl
            · exact absurd hb hch
          rw [if_neg hch] at h ⊢
          rw [ih _ _ h, apply_result_unchanged hch2]
      · rw [if_neg ht] at h ⊢
        exact ih g res h

theorem add_technique_mono (res : SolveResult) (n : String) (lv : Nat) (d : String) :
    res.techniques_used ⊆ (res.add_technique n lv d).techniques_used ∧
    res.max_technique_level ≤ (res.add_technique n lv d).max_technique_level :=
  ⟨Finset.subset_insert _ _, Nat.le_max_left _ _⟩

theorem apply_placements_mono {name : String} {level : Nat} :
    ∀ (ps : List (Nat × Nat × Nat)) (g : SudokuGrid) (res : SolveResult) (ch : Bool),
      res.techniques_used ⊆ (apply_placements name level ps g res ch).2.1.techniques_used ∧
      res.max_technique_level ≤
        (apply_placements name level ps g res ch).2.1.max_technique_level := by
  intro ps
  induction ps with
  | nil => intro g res ch; exact ⟨Finset.Subset.refl _, Nat.le_refl _⟩
  | cons p rest ih =>
    intro g res ch
    obtain ⟨r, c, val⟩ := p
    simp only [apply_placements]
    by_cases he : g.is_empty r c = true
    · rw [if_pos he]
      obtain ⟨h1, h2⟩ := ih (g.set_value r c val) (res.add_technique name level
        ("R" ++ Nat.repr (r + 1) ++ "C" ++ Nat.repr (c + 1) ++ "=" ++ Nat.repr val)) true
      obtain ⟨h3, h4⟩ := add_technique_mono res name level
        ("R" ++ Nat.repr (r + 1) ++ "C" ++ Nat.repr (c + 1) ++ "=" ++ Nat.repr val)
      exact ⟨Finset.Subset.trans h3 h1, Nat.le_trans h4 h2⟩
    · rw [if_neg he]
      exact ih g res ch

theorem apply_eliminations_mono {name : String} {level : Nat} :
    ∀ (es : List (Nat × Nat × Nat)) (g : SudokuGrid) (res : SolveResult) (ch : Bool),
      res.techniques_used ⊆
        (apply_eliminations name level es g res ch).2.1.techniques_used ∧
      res.max_technique_level ≤
        (apply_eliminations name level es g res ch).2.1.max_technique_level := by
  intro es
  induction es with
  | nil => intro g res ch; exact ⟨Finset.Subset.refl _, Nat.le_refl _⟩
  | cons p rest ih =>
    intro g res ch
    obtain ⟨r, c, val⟩ := p
    simp only [apply_eliminations]
    by_cases hr : (g.remove_candidate r c val).1 = true
    · rw [if_pos hr]
      obtain ⟨h1, h2⟩ := ih (g.remove_candidate r c val).2 (res.add_technique name level
        ("R" ++ Nat.repr (r + 1) ++ "C" ++ Nat.repr (c + 1) ++ " remove " ++ Nat.repr val))
        true
      obtain ⟨h3, h4⟩ := add_technique_mono res name level
        ("R" ++ Nat.repr (r + 1) ++ "C" ++ Nat.repr (c + 1) ++ " remove " ++ Nat.repr val)
      exact ⟨Finset.Subset.trans h3 h1, Nat.le_trans h4 h2⟩
    · rw [if_neg hr]
      exact ih _ res ch

theorem apply_result_mono (tr : TechniqueResult) (g : SudokuGrid) (res : SolveResult) :
    res.techniques_used ⊆ (apply_result tr g res).2.1.techniques_used ∧
    res.max_technique_level ≤ (apply_result tr g res).2.1.max_technique_level := by
  unfold apply_result
  obtain ⟨h1, h2⟩ := apply_placements_mono tr.placements g res false
  obtain ⟨h3, h4⟩ := apply_eliminations_mono tr.eliminations
    (apply_placements tr.name tr.level tr.placements g res false).1
    (apply_placements tr.name tr.level tr.placements g res false).2.1
    (apply_placements tr.name tr.level tr.placements g res false).2.2
  exact ⟨Finset.Subset.trans h1 h3, Nat.le_trans h2 h4⟩

theorem scan_go_mono {k : Nat} :
    ∀ (l : List ((SudokuGrid → TechniqueResult) × Nat)) (g : SudokuGrid)
      (res : SolveResult),
      res.techniques_used ⊆ (scan_go k l g res).2.2.techniques_used ∧
      res.max_technique_level ≤ (scan_go k l g res).2.2.max_technique_level := by
  intro l
  induction l with
  | nil => intro g res; exact ⟨Finset.Subset.refl _, Nat.le_refl _⟩
  | cons hd rest ih =>
    intro g res
    obtain ⟨f, lv⟩ := hd
    simp only [scan_go]
    by_cases hlv : lv > k
    · rw [if_pos hlv]
      exact ih g res
    · rw [if_neg hlv]
      by_cases ht : (f g).truthy = true
      · rw [if_pos ht]
        by_cases hch : (apply_result (f g) g res).2.2 = true
        · rw [if_pos hch]
          exact apply_result_mono (f g) g res
        · rw [if_neg hch]
          obtain ⟨h1, h2⟩ := apply_result_mono (f g) g res
          obtain ⟨h3, h4⟩ := ih (apply_result (f g) g res).1 (apply_result (f g) g res).2.1
          exact ⟨Finset.Subset.trans h1 h3, Nat.le_trans h2 h4⟩
      · rw [if_neg ht]
        exact ih g res

theorem solve_loop_mono {k : Nat} :
    ∀ (fuel : Nat) (g : SudokuGrid) (res : SolveResult),
      res.techniques_used ⊆ (solve_loop k fuel g res).2.techniques_used ∧
      res.max_technique_level ≤ (solve_loop k fuel g res).2.max_technique_level := by
  intro fuel
  induction fuel with
  | zero => intro g res; exact ⟨Finset.Subset.refl _, Nat.le_refl _⟩
  | succ n ih =>
    intro g res
    simp only [solve_loop]
    by_cases hc : g.is_complete = true
    · rw [if_pos hc]
      exact ⟨Finset.Subset.refl _, Nat.le_refl _⟩
    · rw [if_neg hc]
      by_cases hs : (scan_go k TECHNIQUES g res).1 = true
      · rw [if_pos hs]
        obtain ⟨h1, h2⟩ := scan_go_mono TECHNIQUES g res
        obtain ⟨h3, h4⟩ := ih (scan_go k TECHNIQUES g res).2.1
          (scan_go k TECHNIQUES g res).2.2
        exact ⟨Finset.Subset.trans h1 h3, Nat.le_trans h2 h4⟩
      · rw [if_neg hs]
        exact scan_go_mono TECHNIQUES g res

theorem solve_loop_level_mono {k : Nat} :
    ∀ (fuel : Nat) (g : SudokuGrid) (res : SolveResult),
      (solve_loop k fuel g res).2.techniques_used ⊆
        (solve_loop (k + 1) fuel g res).2.techniques_used ∧
      (solve_loop k fuel g res).2.max_technique_level ≤
        (solve_loop (k + 1) fuel g res).2.max_technique_level := by
  intro fuel
  induction fuel with
  | zero => intro g res; exact ⟨Finset.Subset.refl _, Nat.le_refl _⟩
  | succ n ih =>
    intro g res
    simp only [solve_loop]
    by_cases hc : g.is_complete = true
    · rw [if_pos hc, if_pos hc]
      exact ⟨Finset.Subset.refl _, Nat.le_refl _⟩
    · rw [if_neg hc, if_neg hc]
      by_cases hs : (scan_go k TECHNIQUES g res).1 = true
      · rw [scan_true_agree TECHNIQUES_sorted g res hs, if_pos hs, if_pos hs]
        exact ih _ _
      · have hs2 : (scan_go k TECHNIQUES g res).1 = false := by
          cases hb : (scan_go k TECHNIQUES g res).1
          · rfl
          · exact absurd hb hs
        rw [if_neg hs, scan_false_res TECHNIQUES g res hs2]
        by_cases hs1 : (scan_go (k + 1) TECHNIQUES g res).1 = true
        · rw [if_pos hs1]
          obtain ⟨h1, h2⟩ := scan_go_mono (k := k + 1) TECHNIQUES g res
          obtain ⟨h3, h4⟩ := solve_loop_mono (k := k + 1) n
            (scan_go (k + 1) TECHNIQUES g res).2.1 (scan_go (k + 1) TECHNIQUES g res).2.2
          exact ⟨Finset.Subset.trans h1 h3, Nat.le_trans h2 h4⟩
        · rw [if_neg hs1]
          exact scan_go_mono TECHNIQUES g res

theorem solve_fields (m : Nat) (g : SudokuGrid) :
    (solve m false g).techniques_used =
      (solve_loop m (solveFuel g) g (initResult g)).2.techniques_used ∧
    (solve m false g).max_technique_level =
      (solve_loop m (solveFuel g) g (initResult g)).2.max_technique_level := by
  unfold solve
  by_cases hc : (solve_loop m (solveFuel g) g (initResult g)).1.is_complete = true
  · rw [if_pos hc]
    exact ⟨rfl, rfl⟩
  · rw [if_neg hc]
    exact ⟨rfl, rfl⟩

/-- C8: classifier monotonicity.  For every well-formed grid `g` and
ceiling `k` in `[1, 4]`, if the fixed-point technique solver with
`max_level = k` and backtracking disabled fails to fully solve `g`, then
the solver with `max_level = k + 1` run from the same starting grid
reports a superset of the techniques used and a max technique level at
least as large. -/
theorem C8_classifier_monotonicity (g : SudokuGrid) (k : Nat) (hgeom : WFGeom g)
    (hk1 : 1 ≤ k) (hk4 : k ≤ 4) (hfail : (solve k false g).solved = false) :
    (solve k false g).techniques_used ⊆ (solve (k + 1) false g).techniques_used ∧
    (solve k false g).max_technique_level ≤
      (solve (k + 1) false g).max_technique_level := by
  obtain ⟨e1, e2⟩ := solve_fields k g
  obtain ⟨e3, e4⟩ := solve_fields (k + 1) g
  rw [e1, e2, e3, e4]
  exact solve_loop_level_mono (solveFuel g) g (initResult g)

/-- Witness for C8 on the empty 6x6 grid at ceiling 1 (which cannot solve
the empty grid). -/
theorem C8_classifier_monotonicity_witness :
    (solve 1 false grid6x6).solved = false ∧
    (solve 1 false grid6x6).techniques_used ⊆ (solve 2 false grid6x6).techniques_used ∧
    (solve 1 false grid6x6).max_technique_level ≤
      (solve 2 false grid6x6).max_technique_level :=
  ⟨by decide, C8_classifier_monotonicity grid6x6 1 (by decide) (by decide) (by decide)
    (by decide)⟩

theorem WFGeom_shape {g g' : SudokuGrid} (h1 : g'.size = g.size)
    (h2 : g'.box_rows = g.box_rows) (h3 : g'.box_cols = g.box_cols)
    (hgeom : WFGeom g) : WFGeom g' := by
  unfold WFGeom at *
  rw [h1, h2, h3]
  exact hgeom

theorem IsSolution_shape {g g' : SudokuGrid} {s : Nat → Nat → Nat} (h1 : g'.size = g.size)
    (h2 : g'.box_rows = g.box_rows) (h3 : g'.box_cols = g.box_cols)
    (hsol : IsSolution g s) : IsSolution g' s := by
  unfold IsSolution at *
  rw [h1, h2, h3]
  exact hsol

theorem is_valid_aux_true {g : SudokuGrid} {s : Nat → Nat → Nat} (hgeom : WFGeom g)
    (hsol : IsSolution g s) (hagr : Agrees g s) :
    ∀ l : List (Nat × Nat), (∀ p ∈ l, p.1 < g.size ∧ p.2 < g.size) →
      g.is_valid_aux l = (true, g) := by
  have hbr := WFGeom_br_pos hgeom
  have hbc := WFGeom_bc_pos hgeom
  intro l
  induction l with
  | nil => intro _; rfl
  | cons p rest ih =>
    intro hb
    obtain ⟨r, c⟩ := p
    obtain ⟨hr, hc⟩ := hb (r, c) (List.mem_cons_self _ _)
    have hbrest : ∀ p ∈ rest, p.1 < g.size ∧ p.2 < g.size :=
      fun p hp => hb p (List.mem_cons_of_mem _ hp)
    rw [SudokuGrid.is_valid_aux]
    by_cases h0 : g.grid r c = 0
    · rw [if_pos h0]
      exact ih hbrest
    · rw [if_neg h0]
      have hval : g.grid r c = s r c := hagr r hr c hc h0
      have hrow : g.grid r c ∉ (g.setCellRaw r c 0).get_row r := by
        unfold SudokuGrid.get_row SudokuGrid.setCellRaw
        dsimp only
        intro hmem
        rw [List.mem_map] at hmem
        obtain ⟨c2, hc2R, heq⟩ := hmem
        have hc2 := List.mem_range.mp hc2R
        by_cases hceq : c2 = c
        · subst hceq
          rw [upd2_same] at heq
          exact h0 heq.symm
        · rw [upd2_other _ _ _ _ _ _ (fun hh => hceq hh.2)] at heq
          by_cases h02 : g.grid r c2 = 0
          · rw [h02] at heq; exact h0 heq.symm
          · have hv2 : g.grid r c2 = s r c2 := hagr r hr c2 hc2 h02
            rw [hv2, hval] at heq
            exact hsol.2.1 r hr c2 hc2 c hc hceq heq
      have hcol : g.grid r c ∉ (g.setCellRaw r c 0).get_col c := by
        unfold SudokuGrid.get_col SudokuGrid.setCellRaw
        dsimp only
        intro hmem
        rw [List.mem_map] at hmem
        obtain ⟨r2, hr2R, heq⟩ := hmem
        have hr2 := List.mem_range.mp hr2R
        by_cases hreq : r2 = r
        · subst hreq
          rw [upd2_same] at heq
          exact h0 heq.symm
        · rw [upd2_other _ _ _ _ _ _ (fun hh => hreq hh.1)] at heq
          by_cases h02 : g.grid r2 c = 0
          · rw [h02] at heq; exact h0 heq.symm
          · have hv2 : g.grid r2 c = s r2 c := hagr r2 hr2 c hc h02
            rw [hv2, hval] at heq
            exact hsol.2.2.1 c hc r2 hr2 r hr hreq heq
      have hbox : g.grid r c ∉ (g.setCellRaw r c 0).get_box r c := by
        unfold SudokuGrid.get_box SudokuGrid.setCellRaw
        dsimp only
        intro hmem
        rw [List.mem_flatMap] at hmem
        obtain ⟨i, hiR, hmem2⟩ := hmem
        rw [List.mem_map] at hmem2
        obtain ⟨j, hjR, heq⟩ := hmem2
        have hi := List.mem_range.mp hiR
        have hj := List.mem_range.mp hjR
        have hr2lt : r / g.box_rows * g.box_rows + i < g.size :=
          Nat.lt_of_lt_of_le (Nat.add_lt_add_left hi _)
            (boxOrigin_bound hgeom (boxRow_origin_mem hgeom hr))
        have hc2lt : c / g.box_cols * g.box_cols + j < g.size :=
          Nat.lt_of_lt_of_le (Nat.add_lt_add_left hj _)
            (boxOrigin_bound_col hgeom (boxCol_origin_mem hgeom hc))
        have hdr : (r / g.box_rows * g.box_rows + i) / g.box_rows = r / g.box_rows := by
          rw [boxOrigin_div hbr ⟨r / g.box_rows, rfl⟩ hi, Nat.mul_div_cancel _ hbr]
        have hdc : (c / g.box_cols * g.box_cols + j) / g.box_cols = c / g.box_cols := by
          rw [boxOrigin_div hbc ⟨c / g.box_cols, rfl⟩ hj, Nat.mul_div_cancel _ hbc]
        by_cases heqc : r / g.box_rows * g.box_rows + i = r ∧
            c / g.box_cols * g.box_cols + j = c
        · rw [heqc.1, heqc.2, upd2_same] at heq
          exact h0 heq.symm
        · rw [upd2_other _ _ _ _ _ _ heqc] at heq
          by_cases h02 : g.grid (r / g.box_rows * g.box_rows + i)
              (c / g.box_cols * g.box_cols + j) = 0
          · rw [h02] at heq; exact h0 heq.symm
          · have hv2 := hagr _ hr2lt _ hc2lt h02
            rw [hv2, hval] at heq
            exact hsol.2.2.2 _ hr2lt _ hc2lt r hr c hc hdr hdc heqc heq
      rw [if_neg hrow, if_neg hcol, if_neg hbox, setCellRaw_restore]
      exact ih hbrest

theorem is_valid_true {g : SudokuGrid} {s : Nat → Nat → Nat} (hgeom : WFGeom g)
    (hsol : IsSolution g s) (hagr : Agrees g s) : g.is_valid = (true, g) :=
  is_valid_aux_true hgeom hsol hagr (allCellsList g.size)
    (fun p hp => mem_allCellsList.mp hp)

theorem set_value_sol_preserves {g : SudokuGrid} {s : Nat → Nat → Nat} (hgeom : WFGeom g)
    (hsol : IsSolution g s) (hinv : GridInv s g) {r c val : Nat} (hr : r < g.size)
    (hc : c < g.size) (hval : val = s r c) : GridInv s (g.set_value r c val) := by
  obtain ⟨hagr, hcont, hnpc, hbnd⟩ := hinv
  have hbr := WFGeom_br_pos hgeom
  have hbc := WFGeom_bc_pos hgeom
  have hvpos : val > 0 := by
    rw [hval]; exact (hsol.1 r hr c hc).1
  unfold SudokuGrid.set_value
  rw [if_pos hvpos]
  refine ⟨?_, ?_, ?_, ?_⟩
  · intro r2 hr2 c2 hc2 hne
    have hne2 : upd2 g.grid r c val r2 c2 ≠ 0 := hne
    show upd2 g.grid r c val r2 c2 = s r2 c2
    by_cases he : r2 = r ∧ c2 = c
    · rw [he.1, he.2, upd2_same, hval]
    · rw [upd2_other _ _ _ _ _ _ he] at hne2 ⊢
      exact hagr r2 hr2 c2 hc2 hne2
  · intro r2 hr2 c2 hc2 h0
    have h02 : upd2 g.grid r c val r2 c2 = 0 := h0
    have hne : ¬(r2 = r ∧ c2 = c) := by
      intro hh
      rw [hh.1, hh.2, upd2_same] at h02
      omega
    rw [upd2_other _ _ _ _ _ _ hne] at h02
    show s r2 c2 ∈ (if r2 = r ∧ c2 = c then (∅ : Finset Nat)
      else if g.hits r c r2 c2 then (g.candidates r2 c2).erase val else g.candidates r2 c2)
    rw [if_neg hne]
    by_cases hh : g.hits r c r2 c2
    · rw [if_pos hh]
      refine Finset.mem_erase.mpr ⟨?_, hcont r2 hr2 c2 hc2 h02⟩
      rw [hval]
      rcases (hits_iff g hbr hbc r c r2 c2).mp hh with ⟨h1, h2⟩ | ⟨h1, h2⟩ | ⟨h1, h2⟩
      · subst h1
        exact hsol.2.1 r2 hr2 c2 hc2 c hc (fun hcc => hne ⟨rfl, hcc⟩)
      · subst h1
        exact hsol.2.2.1 c2 hc2 r2 hr2 r hr (fun hrr => hne ⟨hrr, rfl⟩)
      · exact hsol.2.2.2 r2 hr2 c2 hc2 r hr c hc h1 h2 hne
    · rw [if_neg hh]
      exact hcont r2 hr2 c2 hc2 h02
  · intro r2 hr2 c2 hc2 h0 p hp hpfill
    have h02 : upd2 g.grid r c val r2 c2 = 0 := h0
    have hne : ¬(r2 = r ∧ c2 = c) := by
      intro hh
      rw [hh.1, hh.2, upd2_same] at h02
      omega
    rw [upd2_other _ _ _ _ _ _ hne] at h02
    have hp2 : p ∈ g.get_peers r2 c2 := hp
    show upd2 g.grid r c val p.1 p.2 ∉ (if r2 = r ∧ c2 = c then (∅ : Finset Nat)
      else if g.hits r c r2 c2 then (g.candidates r2 c2).erase val else g.candidates r2 c2)
    rw [if_neg hne]
    by_cases hpe : p.1 = r ∧ p.2 = c
    · rw [hpe.1, hpe.2, upd2_same]
      have hh : g.hits r c r2 c2 := by
        rw [mem_get_peers hgeom hr2 hc2] at hp2
        obtain ⟨hne2, _, _, hor⟩ := hp2
        rw [hits_iff g hbr hbc]
        rcases hor with h | h | ⟨h1, h2⟩
        · exact Or.inl ⟨by rw [← hpe.1, h], hc2⟩
        · exact Or.inr (Or.inl ⟨by rw [← hpe.2, h], hr2⟩)
        · exact Or.inr (Or.inr ⟨by rw [← hpe.1, h1], by rw [← hpe.2, h2]⟩)
      rw [if_pos hh]
      exact Finset.not_mem_erase val _
    · rw [upd2_other _ _ _ _ _ _ hpe]
      have hpfill2 : g.grid p.1 p.2 ≠ 0 := by
        have h3 : upd2 g.grid r c val p.1 p.2 ≠ 0 := hpfill
        rw [upd2_other _ _ _ _ _ _ hpe] at h3
        exact h3
      have hold := hnpc r2 hr2 c2 hc2 h02 p hp2 hpfill2
      by_cases hh : g.hits r c r2 c2
      · rw [if_pos hh]
        exact fun hmem => hold (Finset.mem_of_mem_erase hmem)
      · rw [if_neg hh]
        exact hold
  · intro r2 hr2 c2 hc2
    show (if r2 = r ∧ c2 = c then (∅ : Finset Nat)
      else if g.hits r c r2 c2 then (g.candidates r2 c2).erase val else g.candidates r2 c2) ⊆
      Finset.Icc 1 g.size
    by_cases hne : r2 = r ∧ c2 = c
    · rw [if_pos hne]
      exact Finset.empty_subset _
    · rw [if_neg hne]
      by_cases hh : g.hits r c r2 c2
      · rw [if_pos hh]
        exact Finset.Subset.trans (Finset.erase_subset _ _) (hbnd r2 hr2 c2 hc2)
      · rw [if_neg hh]
        exact hbnd r2 hr2 c2 hc2

theorem remove_candidate_preserves {g : SudokuGrid} {s : Nat → Nat → Nat}
    (hinv : GridInv s g) {r c val : Nat} (hval : val ≠ s r c) :
    GridInv s (g.remove_candidate r c val).2 := by
  obtain ⟨hagr, hcont, hnpc, hbnd⟩ := hinv
  unfold SudokuGrid.remove_candidate
  by_cases hmem : val ∈ g.candidates r c
  · rw [if_pos hmem]
    refine ⟨hagr, ?_, ?_, ?_⟩
    · intro r2 hr2 c2 hc2 h0
      show s r2 c2 ∈ (if r2 = r ∧ c2 = c then (g.candidates r2 c2).erase val
        else g.candidates r2 c2)
      by_cases he : r2 = r ∧ c2 = c
      · rw [if_pos he]
        refine Finset.mem_erase.mpr ⟨?_, hcont r2 hr2 c2 hc2 h0⟩
        rw [he.1, he.2]
        exact fun hq => hval hq.symm
      · rw [if_neg he]
        exact hcont r2 hr2 c2 hc2 h0
    · intro r2 hr2 c2 hc2 h0 p hp hpfill
      have hold := hnpc r2 hr2 c2 hc2 h0 p hp hpfill
      show g.grid p.1 p.2 ∉ (if r2 = r ∧ c2 = c then (g.candidates r2 c2).erase val
        else g.candidates r2 c2)
      by_cases he : r2 = r ∧ c2 = c
      · rw [if_pos he]
        exact fun hmem2 => hold (Finset.mem_of_mem_erase hmem2)
      · rw [if_neg he]
        exact hold
    · intro r2 hr2 c2 hc2
      show (if r2 = r ∧ c2 = c then (g.candidates r2 c2).erase val
        else g.candidates r2 c2) ⊆ Finset.Icc 1 g.size
      by_cases he : r2 = r ∧ c2 = c
      · rw [if_pos he]
        exact Finset.Subset.trans (Finset.erase_subset _ _) (hbnd r2 hr2 c2 hc2)
      · rw [if_neg he]
        exact hbnd r2 hr2 c2 hc2
  · rw [if_neg hmem]
    exact ⟨hagr, hcont, hnpc, hbnd⟩

theorem length_filter_le_of_imp {α : Type} (p q : α → Bool) :
    ∀ l : List α, (∀ x ∈ l, q x = true → p x = true) →
      (l.filter q).length ≤ (l.filter p).length := by
  intro l
  induction l with
  | nil => intro _; exact Nat.le_refl _
  | cons x xs ih =>
    intro h
    have hxs := fun y hy => h y (List.mem_cons_of_mem _ hy)
    simp only [List.filter_cons]
    by_cases hq : q x = true
    · rw [if_pos hq, if_pos (h x (List.mem_cons_self _ _) hq)]
      simpa using ih hxs
    · rw [if_neg hq]
      by_cases hp : p x = true
      · rw [if_pos hp]
        exact Nat.le_trans (ih hxs) (by simp)
      · rw [if_neg hp]
        exact ih hxs

theorem length_filter_lt_of_imp {α : Type} (p q : α → Bool) :
    ∀ l : List α, (∀ x ∈ l, q x = true → p x = true) →
      ∀ a ∈ l, p a = true → q a = false →
      (l.filter q).length < (l.filter p).length := by
  intro l
  induction l with
  | nil => intro _ a ha; exact absurd ha (List.not_mem_nil a)
  | cons x xs ih =>
    intro h a ha hpa hqa
    have hxs := fun y hy => h y (List.mem_cons_of_mem _ hy)
    simp only [List.filter_cons]
    rcases List.mem_cons.mp ha with rfl | ha2
    · rw [if_neg (by rw [hqa]; simp), if_pos hpa]
      simp only [List.length_cons]
      exact Nat.lt_succ_of_le (length_filter_le_of_imp p q xs hxs)
    · by_cases hq : q x = true
      · rw [if_pos hq, if_pos (h x (List.mem_cons_self _ _) hq)]
        simpa using ih hxs a ha2 hpa hqa
      · rw [if_neg hq]
        by_cases hp : p x = true
        · rw [if_pos hp]
          exact Nat.lt_trans (ih hxs a ha2 hpa hqa) (by simp)
        · rw [if_neg hp]
          exact ih hxs a ha2 hpa hqa

theorem empty_cells_decrease {g : SudokuGrid} {r c val : Nat} (hr : r < g.size)
    (hc : c < g.size) (h0 : g.grid r c = 0) (hv : val > 0) :
    (g.set_value r c val).get_empty_cells.length < g.get_empty_cells.length := by
  unfold SudokuGrid.set_value
  rw [if_pos hv]
  show ((allCellsList g.size).filter fun rc =>
      upd2 g.grid r c val rc.1 rc.2 == 0).length <
    ((allCellsList g.size).filter fun rc => g.grid rc.1 rc.2 == 0).length
  refine length_filter_lt_of_imp _ _ (allCellsList g.size) ?_ (r, c)
    (mem_allCellsList.mpr ⟨hr, hc⟩) (by simpa using h0) (by simp [upd2_same]; omega)
  intro x hx hq
  by_cases hxe : x.1 = r ∧ x.2 = c
  · rw [hxe.1, hxe.2] at hq
    rw [upd2_same] at hq
    simp at hq
    omega
  · rw [upd2_other _ _ _ _ _ _ hxe] at hq
    exact hq

theorem all_techniques_sound : ∀ fl ∈ TECHNIQUES, TechniqueSound fl.1 := by
  intro fl hfl
  simp only [TECHNIQUES, List.mem_cons, List.not_mem_nil, or_false] at hfl
  rcases hfl with rfl | rfl | rfl | rfl | rfl | rfl | rfl | rfl | rfl | rfl | rfl | rfl
  exacts [sound_naked_singles, sound_hidden_singles, sound_naked_pairs,
    sound_hidden_pairs, sound_naked_triples, sound_hidden_triples,
    sound_pointing_pairs, sound_box_line_reduction, sound_x_wing, sound_y_wing,
    sound_swordfish, sound_xyz_wing]

theorem remove_candidate_shape (g : SudokuGrid) (r c v : Nat) :
    (g.remove_candidate r c v).2.size = g.size ∧
    (g.remove_candidate r c v).2.box_rows = g.box_rows ∧
    (g.remove_candidate r c v).2.box_cols = g.box_cols := by
  unfold SudokuGrid.remove_candidate
  split
  · exact ⟨rfl, rfl, rfl⟩
  · exact ⟨rfl, rfl, rfl⟩

theorem apply_placements_preserves {s : Nat → Nat → Nat} {name : String} {level : Nat} :
    ∀ (ps : List (Nat × Nat × Nat)) (g : SudokuGrid) (res : SolveResult) (ch : Bool),
      WFGeom g → IsSolution g s → GridInv s g →
      (∀ p ∈ ps, p.1 < g.size ∧ p.2.1 < g.size ∧ p.2.2 = s p.1 p.2.1) →
      (apply_placements name level ps g res ch).1.size = g.size ∧
      (apply_placements name level ps g res ch).1.box_rows = g.box_rows ∧
      (apply_placements name level ps g res ch).1.box_cols = g.box_cols ∧
      GridInv s (apply_placements name level ps g res ch).1 := by
  intro ps
  induction ps with
  | nil => intro g res ch hgeom hsol hinv hps; exact ⟨rfl, rfl, rfl, hinv⟩
  | cons p rest ih =>
    intro g res ch hgeom hsol hinv hps
    obtain ⟨r, c, val⟩ := p
    obtain ⟨hr, hc, hval⟩ := hps (r, c, val) (List.mem_cons_self _ _)
    have hrest : ∀ p ∈ rest, p.1 < g.size ∧ p.2.1 < g.size ∧ p.2.2 = s p.1 p.2.1 :=
      fun p hp => hps p (List.mem_cons_of_mem _ hp)
    simp only [apply_placements]
    by_cases he : g.is_empty r c = true
    · rw [if_pos he]
      have hsh := set_value_shape g r c val
      have hgeom2 : WFGeom (g.set_value r c val) :=
        WFGeom_shape hsh.1 hsh.2.1 hsh.2.2 hgeom
      have hsol2 : IsSolution (g.set_value r c val) s :=
        IsSolution_shape hsh.1 hsh.2.1 hsh.2.2 hsol
      have hinv2 := set_value_sol_preserves hgeom hsol hinv hr hc hval
      have hrest2 : ∀ p ∈ rest, p.1 < (g.set_value r c val).size ∧
          p.2.1 < (g.set_value r c val).size ∧ p.2.2 = s p.1 p.2.1 := by
        intro p hp
        rw [hsh.1]
        exact hrest p hp
      obtain ⟨s1, s2, s3, hi⟩ := ih (g.set_value r c val) _ true hgeom2 hsol2 hinv2 hrest2
      exact ⟨s1.trans hsh.1, s2.trans hsh.2.1, s3.trans hsh.2.2, hi⟩
    · rw [if_neg he]
      exact ih g res ch hgeom hsol hinv hrest

theorem apply_eliminations_preserves {s : Nat → Nat → Nat} {name : String} {level : Nat} :
    ∀ (es : List (Nat × Nat × Nat)) (g : SudokuGrid) (res : SolveResult) (ch : Bool),
      WFGeom g → IsSolution g s → GridInv s g →
      (∀ e ∈ es, e.2.2 ≠ s e.1 e.2.1) →
      (apply_eliminations name level es g res ch).1.size = g.size ∧
      (apply_eliminations name level es g res ch).1.box_rows = g.box_rows ∧
      (apply_eliminations name level es g res ch).1.box_cols = g.box_cols ∧
      GridInv s (apply_eliminations name level es g res ch).1 := by
  intro es
  induction es with
  | nil => intro g res ch hgeom hsol hinv hes; exact ⟨rfl, rfl, rfl, hinv⟩
  | cons e rest ih =>
    intro g res ch hgeom hsol hinv hes
    obtain ⟨r, c, val⟩ := e
    have hval : val ≠ s r c := hes (r, c, val) (List.mem_cons_self _ _)
    have hrest : ∀ e ∈ rest, e.2.2 ≠ s e.1 e.2.1 :=
      fun e he => hes e (List.mem_cons_of_mem _ he)
    simp only [apply_eliminations]
    have hsh := remove_candidate_shape g r c val
    have hgeom2 : WFGeom (g.remove_candidate r c val).2 :=
      WFGeom_shape hsh.1 hsh.2.1 hsh.2.2 hgeom
    have hsol2 : IsSolution (g.remove_candidate r c val).2 s :=
      IsSolution_shape hsh.1 hsh.2.1 hsh.2.2 hsol
    have hinv2 := remove_candidate_preserves hinv hval
    by_cases hrc : (g.remove_candidate r c val).1 = true
    · rw [if_pos hrc]
      obtain ⟨s1, s2, s3, hi⟩ := ih (g.remove_candidate r c val).2 _ true hgeom2 hsol2
        hinv2 hrest
      exact ⟨s1.trans hsh.1, s2.trans hsh.2.1, s3.trans hsh.2.2, hi⟩
    · rw [if_neg hrc]
      obtain ⟨s1, s2, s3, hi⟩ := ih (g.remove_candidate r c val).2 res ch hgeom2 hsol2
        hinv2 hrest
      exact ⟨s1.trans hsh.1, s2.trans hsh.2.1, s3.trans hsh.2.2, hi⟩

theorem apply_result_preserves {s : Nat → Nat → Nat} {f : SudokuGrid → TechniqueResult}
    (hf : TechniqueSound f) {g : SudokuGrid} (hgeom : WFGeom g) (hsol : IsSolution g s)
    (hinv : GridInv s g) (res : SolveResult) :
    (apply_result (f g) g res).1.size = g.size ∧
    (apply_result (f g) g res).1.box_rows = g.box_rows ∧
    (apply_result (f g) g res).1.box_cols = g.box_cols ∧
    GridInv s (apply_result (f g) g res).1 := by
  obtain ⟨hagr, hcont, hnpc, hbnd⟩ := hinv
  obtain ⟨hpl, hel⟩ := hf g s hgeom hsol hagr hcont hnpc hbnd
  unfold apply_result
  obtain ⟨s1, s2, s3, hi⟩ := apply_placements_preserves (f g).placements g res false
    hgeom hsol ⟨hagr, hcont, hnpc, hbnd⟩
    (fun p hp => ⟨(hpl p hp).1, (hpl p hp).2.1, (hpl p hp).2.2.2⟩)
  have hgeom2 := WFGeom_shape s1 s2 s3 hgeom
  have hsol2 := IsSolution_shape s1 s2 s3 hsol
  obtain ⟨t1, t2, t3, hi2⟩ := apply_eliminations_preserves (f g).eliminations
    (apply_placements (f g).name (f g).level (f g).placements g res false).1
    (apply_placements (f g).name (f g).level (f g).placements g res false).2.1
    (apply_placements (f g).name (f g).level (f g).placements g res false).2.2
    hgeom2 hsol2 hi (fun e he => (hel e he).2.2)
  exact ⟨t1.trans s1, t2.trans s2, t3.trans s3, hi2⟩

theorem scan_go_preserves {s : Nat → Nat → Nat} {k : Nat} :
    ∀ (l : List ((SudokuGrid → TechniqueResult) × Nat)),
      (∀ fl ∈ l, TechniqueSound fl.1) →
      ∀ (g : SudokuGrid) (res : SolveResult), WFGeom g → IsSolution g s → GridInv s g →
      (scan_go k l g res).2.1.size = g.size ∧
      (scan_go k l g res).2.1.box_rows = g.box_rows ∧
      (scan_go k l g res).2.1.box_cols = g.box_cols ∧
      GridInv s (scan_go k l g res).2.1 := by
  intro l
  induction l with
  | nil => intro _ g res hgeom hsol hinv; exact ⟨rfl, rfl, rfl, hinv⟩
  | cons hd rest ih =>
    intro hl g res hgeom hsol hinv
    obtain ⟨f, lv⟩ := hd
    have hf : TechniqueSound f := hl (f, lv) (List.mem_cons_self _ _)
    have hrest := fun fl hfl => hl fl (List.mem_cons_of_mem _ hfl)
    simp only [scan_go]
    by_cases hlv : lv > k
    · rw [if_pos hlv]
      exact ih hrest g res hgeom hsol hinv
    · rw [if_neg hlv]
      by_cases ht : (f g).truthy = true
      · rw [if_pos ht]
        obtain ⟨s1, s2, s3, hi⟩ := apply_result_preserves hf hgeom hsol hinv res
        by_cases hch : (apply_result (f g) g res).2.2 = true
        · rw [if_pos hch]
          exact ⟨s1, s2, s3, hi⟩
        · rw [if_neg hch]
          have hgeom2 := WFGeom_shape s1 s2 s3 hgeom
          have hsol2 := IsSolution_shape s1 s2 s3 hsol
          obtain ⟨t1, t2, t3, hi2⟩ := ih hrest (apply_result (f g) g res).1
            (apply_result (f g) g res).2.1 hgeom2 hsol2 hi
          exact ⟨t1.trans s1, t2.trans s2, t3.trans s3, hi2⟩
      · rw [if_neg ht]
        exact ih hrest g res hgeom hsol hinv

theorem solve_loop_preserves {s : Nat → Nat → Nat} {k : Nat} :
    ∀ (fuel : Nat) (g : SudokuGrid) (res : SolveResult),
      WFGeom g → IsSolution g s → GridInv s g →
      (solve_loop k fuel g res).1.size = g.size ∧
      (solve_loop k fuel g res).1.box_rows = g.box_rows ∧
      (solve_loop k fuel g res).1.box_cols = g.box_cols ∧
      GridInv s (solve_loop k fuel g res).1 := by
  intro fuel
  induction fuel with
  | zero => intro g res hgeom hsol hinv; exact ⟨rfl, rfl, rfl, hinv⟩
  | succ n ih =>
    intro g res hgeom hsol hinv
    simp only [solve_loop]
    by_cases hc : g.is_complete = true
    · rw [if_pos hc]
      exact ⟨rfl, rfl, rfl, hinv⟩
    · rw [if_neg hc]
      obtain ⟨s1, s2, s3, hi⟩ := scan_go_preserves TECHNIQUES all_techniques_sound g res
        hgeom hsol hinv
      by_cases hs : (scan_go k TECHNIQUES g res).1 = true
      · rw [if_pos hs]
        have hgeom2 := WFGeom_shape s1 s2 s3 hgeom
        have hsol2 := IsSolution_shape s1 s2 s3 hsol
        obtain ⟨t1, t2, t3, hi2⟩ := ih (scan_go k TECHNIQUES g res).2.1
          (scan_go k TECHNIQUES g res).2.2 hgeom2 hsol2 hi
        exact ⟨t1.trans s1, t2.trans s2, t3.trans s3, hi2⟩
      · rw [if_neg hs]
        exact ⟨s1, s2, s3, hi⟩

theorem solve_grid_of_unsolved {k : Nat} {g : SudokuGrid}
    (h : (solve k false g).solved = false) :
    (solve k false g).grid = some (solve_loop k (solveFuel g) g (initResult g)).1 := by
  unfold solve at h ⊢
  by_cases hc : (solve_loop k (solveFuel g) g (initResult g)).1.is_complete = true
  · rw [if_pos hc] at h
    exact absurd h (by simp)
  · rw [if_neg hc] at h ⊢
    rfl

theorem backtrack_complete {s : Nat → Nat → Nat} :
    ∀ (fuel : Nat) (g : SudokuGrid), WFGeom g → IsSolution g s → GridInv s g →
      g.get_empty_cells.length < fuel → (backtrack_solve fuel g).isSome = true := by
  intro fuel
  induction fuel with
  | zero => intro g _ _ _ h; omega
  | succ n ih =>
    intro g hgeom hsol hinv hlen
    simp only [backtrack_solve, backtrack_step]
    cases hmin : minByKey (fun rc => (g.get_candidates rc.1 rc.2).card) g.get_empty_cells
      with
    | none =>
      rw [is_valid_true hgeom hsol hinv.1]
      rfl
    | some rc =>
      have hrce : rc ∈ g.get_empty_cells := minByKey_mem hmin
      unfold SudokuGrid.get_empty_cells at hrce
      rw [List.mem_filter] at hrce
      obtain ⟨hrcA, hrc0⟩ := hrce
      obtain ⟨hr, hc⟩ := mem_allCellsList.mp hrcA
      have hrc00 : g.grid rc.1 rc.2 = 0 := by simpa using hrc0
      have hsmem : s rc.1 rc.2 ∈ g.get_candidates rc.1 rc.2 :=
        hinv.2.1 rc.1 hr rc.2 hc hrc00
      have hlist : s rc.1 rc.2 ∈ candList (g.get_candidates rc.1 rc.2) :=
        mem_candList.mpr hsmem
      have hne : ¬ (candList (g.get_candidates rc.1 rc.2)).isEmpty = true := by
        cases hl : candList (g.get_candidates rc.1 rc.2) with
        | nil => rw [hl] at hlist; exact absurd hlist (List.not_mem_nil _)
        | cons a as => simp
      show (if (candList (g.get_candidates rc.1 rc.2)).isEmpty = true then none
        else firstSome (fun val =>
          if (g.set_value rc.1 rc.2 val).is_valid.1 = true then
            backtrack_solve n (g.set_value rc.1 rc.2 val).is_valid.2
          else none) (candList (g.get_candidates rc.1 rc.2))).isSome = true
      rw [if_neg hne]
      apply firstSome_isSome
      refine ⟨s rc.1 rc.2, hlist, ?_⟩
      have hsh := set_value_shape g rc.1 rc.2 (s rc.1 rc.2)
      have hgeom2 := WFGeom_shape hsh.1 hsh.2.1 hsh.2.2 hgeom
      have hsol2 := IsSolution_shape hsh.1 hsh.2.1 hsh.2.2 hsol
      have hinv2 := set_value_sol_preserves hgeom hsol hinv hr hc rfl
      rw [is_valid_true hgeom2 hsol2 hinv2.1, if_pos rfl]
      have hdec := empty_cells_decrease hr hc hrc00 (hsol.1 rc.1 hr rc.2 hc).1
      exact ih (g.set_value rc.1 rc.2 (s rc.1 rc.2)) hgeom2 hsol2 hinv2 (by omega)

theorem analyze_stages_preserves {s : Nat → Nat → Nat} :
    ∀ (ks : List Nat) (w : SudokuGrid) (res : SolveResult)
      (wr : SudokuGrid × SolveResult),
      WFGeom w → IsSolution w s → GridInv s w →
      analyze_stages ks w res = Sum.inr wr →
      WFGeom wr.1 ∧ IsSolution wr.1 s ∧ GridInv s wr.1 := by
  intro ks
  induction ks with
  | nil =>
    intro w res wr hgeom hsol hinv h
    have h2 : (w, res) = wr := by
      have h3 : Sum.inr (β := SudokuGrid × SolveResult) (α := SolveResult) (w, res) =
          Sum.inr wr := h
      exact Sum.inr.inj h3
    rw [← h2]
    exact ⟨hgeom, hsol, hinv⟩
  | cons k ks ih =>
    intro w res wr hgeom hsol hinv h
    simp only [analyze_stages] at h
    by_cases hsv : (solve k false w).solved = true
    · rw [if_pos hsv] at h
      exact absurd h (by simp)
    · rw [if_neg hsv] at h
      have hfail : (solve k false w).solved = false := by
        cases hb : (solve k false w).solved
        · rfl
        · exact absurd hb hsv
      rw [solve_grid_of_unsolved hfail, Option.getD_some] at h
      obtain ⟨s1, s2, s3, hi⟩ := solve_loop_preserves (k := k) (solveFuel w) w
        (initResult w) hgeom hsol hinv
      have hgeom2 := WFGeom_shape s1 s2 s3 hgeom
      have hsol2 := IsSolution_shape s1 s2 s3 hsol
      exact ih _ _ wr hgeom2 hsol2 hi h

/-- C6: if none of the technique ceilings 1..5 fully solves the (solvable,
well-formed, invariant-respecting) grid, `analyze_difficulty` with
backtracking allowed falls back to the backtracking solver — which succeeds
— and returns a result that is solved, has `used_backtracking` set, and
reports max technique level 6. -/
theorem C6_backtracking_fallback (g : SudokuGrid) (s : Nat → Nat → Nat)
    (hgeom : WFGeom g) (hsol : IsSolution g s) (hinv : GridInv s g)
    (wr : SudokuGrid × SolveResult)
    (hfail : analyze_stages [1, 2, 3, 4, 5] g ⟨false, none, ∅, 0, [], false⟩ =
      Sum.inr wr) :
    (analyze_difficulty true g).solved = true ∧
    (analyze_difficulty true g).used_backtracking = true ∧
    (analyze_difficulty true g).max_technique_level = 6 := by
  obtain ⟨hgeom2, hsol2, hinv2⟩ := analyze_stages_preserves [1, 2, 3, 4, 5] g
    ⟨false, none, ∅, 0, [], false⟩ wr hgeom hsol hinv hfail
  have hempty : wr.1.get_empty_cells.length < wr.1.size * wr.1.size + 1 := by
    have hle := List.length_filter_le (fun rc => wr.1.grid rc.1 rc.2 == 0)
      (allCellsList wr.1.size)
    rw [allCellsList_length] at hle
    have h2 : wr.1.get_empty_cells.length ≤ wr.1.size * wr.1.size := hle
    omega
  have hbt := backtrack_complete (wr.1.size * wr.1.size + 1) wr.1 hgeom2 hsol2 hinv2 hempty
  obtain ⟨bg, hbg⟩ := Option.isSome_iff_exists.mp hbt
  unfold analyze_difficulty
  rw [hfail]
  dsimp only
  rw [if_pos rfl, hbg]
  exact ⟨rfl, rfl, rfl⟩

/-- Witness for C6 on the empty 6x6 grid (no technique ceiling can solve
an empty grid, so the fallback fires). -/
theorem C6_backtracking_fallback_witness :
    (analyze_difficulty true grid6x6).solved = true ∧
    (analyze_difficulty true grid6x6).used_backtracking = true ∧
    (analyze_difficulty true grid6x6).max_technique_level = 6 := by
  have hir : (analyze_stages [1, 2, 3, 4, 5] grid6x6
      ⟨false, none, ∅, 0, [], false⟩).isRight = true := by decide
  cases hcase : analyze_stages [1, 2, 3, 4, 5] grid6x6 ⟨false, none, ∅, 0, [], false⟩ with
  | inl r =>
    rw [hcase] at hir
    exact absurd hir (by simp)
  | inr wr =>
    exact C6_backtracking_fallback grid6x6 s6Fun (by decide) (by decide)
      ⟨by decide, by decide, by decide, by decide⟩ wr hcase

theorem set_value_grid (g : SudokuGrid) (r c v r2 c2 : Nat) :
    (g.set_value r c v).grid r2 c2 = upd2 g.grid r c v r2 c2 := by
  unfold SudokuGrid.set_value
  by_cases hv : v > 0
  · rw [if_pos hv]
    rfl
  · rw [if_neg hv]
    rw [recalc_grid_eq]
    have hv0 : v = 0 := by omega
    rw [hv0]

theorem gen_recalc_fold_grid {g : SudokuGrid} :
    ∀ (l : List (Nat × Nat)) (acc : SudokuGrid) (r c : Nat),
      (l.foldl (fun acc rc =>
        if g.grid rc.1 rc.2 > 0 then acc.set_value_pos rc.1 rc.2 (g.grid rc.1 rc.2)
        else acc) acc).grid r c =
      if (r, c) ∈ l ∧ g.grid r c > 0 then g.grid r c else acc.grid r c := by
  intro l
  induction l with
  | nil =>
    intro acc r c
    rw [List.foldl_nil, if_neg]
    rintro ⟨h, -⟩
    exact List.not_mem_nil _ h
  | cons rc rest ih =>
    intro acc r c
    rw [List.foldl_cons, ih]
    by_cases hmem : (r, c) ∈ rest ∧ g.grid r c > 0
    · rw [if_pos hmem, if_pos ⟨List.mem_cons_of_mem _ hmem.1, hmem.2⟩]
    · rw [if_neg hmem]
      by_cases hg : g.grid rc.1 rc.2 > 0
      · rw [if_pos hg]
        by_cases hrc : r = rc.1 ∧ c = rc.2
        · have hm : ((r, c) : Nat × Nat) ∈ rc :: rest := by
            have : ((r, c) : Nat × Nat) = rc := Prod.ext hrc.1 hrc.2
            rw [this]
            exact List.mem_cons_self _ _
          have hgrc : g.grid r c > 0 := by rw [hrc.1, hrc.2]; exact hg
          rw [if_pos ⟨hm, hgrc⟩]
          show upd2 acc.grid rc.1 rc.2 (g.grid rc.1 rc.2) r c = g.grid r c
          rw [hrc.1, hrc.2, upd2_same]
        · rw [if_neg (fun hh => ?_)]
          · exact upd2_other _ _ _ _ _ _ hrc
          · rcases List.mem_cons.mp hh.1 with he | he
            · exact hrc ⟨congrArg Prod.fst he, congrArg Prod.snd he⟩
            · exact hmem ⟨he, hh.2⟩
      · rw [if_neg hg]
        rw [if_neg (fun hh => ?_)]
        rcases List.mem_cons.mp hh.1 with he | he
        · have h1 : r = rc.1 := congrArg Prod.fst he
          have h2 : c = rc.2 := congrArg Prod.snd he
          rw [h1, h2] at hh
          exact hg hh.2
        · exact hmem ⟨he, hh.2⟩

theorem create_grid_getD_zero (size r c : Nat) :
    ((create_grid size).getD grid9x9).grid r c = 0 := by
  unfold create_grid
  by_cases h6 : size = 6
  · rw [if_pos h6]
    rfl
  · rw [if_neg h6]
    by_cases h9 : size = 9
    · rw [if_pos h9]
      rfl
    · rw [if_neg h9]
      rfl

theorem gen_recalculate_grid (size : Nat) (g : SudokuGrid) (r c : Nat) (hr : r < size)
    (hc : c < size) :
    (gen_recalculate size g).grid r c = if g.grid r c > 0 then g.grid r c else 0 := by
  unfold gen_recalculate
  rw [gen_recalc_fold_grid]
  by_cases hg : g.grid r c > 0
  · rw [if_pos ⟨mem_allCellsList.mpr ⟨hr, hc⟩, hg⟩, if_pos hg]
  · rw [if_neg (fun hh => hg hh.2), if_neg hg]
    exact create_grid_getD_zero size r c

theorem create_puzzle_go_trace (size target_level min_clues max_clues : Nat)
    (solution : SudokuGrid) :
    ∀ (cells : List (Nat × Nat)) (p : SudokuGrid) (trace : List SudokuGrid),
      (∀ r, r < size → ∀ c, c < size → p.grid r c ≠ 0 → p.grid r c = solution.grid r c) →
      (∀ q ∈ trace, count_solutions q 2 = 1 ∧
        ∀ r, r < size → ∀ c, c < size → q.grid r c ≠ 0 → q.grid r c = solution.grid r c) →
      ∀ q ∈ (create_puzzle_go size target_level min_clues max_clues cells p trace).2,
        count_solutions q 2 = 1 ∧
        ∀ r, r < size → ∀ c, c < size → q.grid r c ≠ 0 →
          q.grid r c = solution.grid r c := by
  intro cells
  induction cells with
  | nil => intro p trace hp htr; exact htr
  | cons rc rest ih =>
    intro p trace hp htr
    obtain ⟨row, col⟩ := rc
    have hupd : ∀ r, r < size → ∀ c, c < size → upd2 p.grid row col 0 r c ≠ 0 →
        upd2 p.grid row col 0 r c = solution.grid r c := by
      intro r hr c hc h0
      by_cases he : r = row ∧ c = col
      · rw [he.1, he.2, upd2_same] at h0
        omega
      · rw [upd2_other _ _ _ _ _ _ he] at h0 ⊢
        exact hp r hr c hc h0
    have hgen : ∀ (w : SudokuGrid),
        (∀ r, r < size → ∀ c, c < size → w.grid r c ≠ 0 →
          w.grid r c = solution.grid r c) →
        ∀ r, r < size → ∀ c, c < size → (gen_recalculate size w).grid r c ≠ 0 →
          (gen_recalculate size w).grid r c = solution.grid r c := by
      intro w hw r hr c hc h0
      rw [gen_recalculate_grid size w r c hr hc] at h0 ⊢
      by_cases hg : w.grid r c > 0
      · rw [if_pos hg] at h0 ⊢
        exact hw r hr c hc h0
      · rw [if_neg hg] at h0
        omega
    simp only [create_puzzle_go]
    by_cases hclue : p.count_clues ≤ 17
    · rw [if_pos hclue]
      exact htr
    · rw [if_neg hclue]
      by_cases hmin : p.count_clues ≤ min_clues ∧
          (analyze_difficulty false p).max_technique_level ≥ target_level
      · rw [if_pos hmin]
        exact htr
      · rw [if_neg hmin]
        set p2 := gen_recalculate size { p with
          grid := upd2 p.grid row col 0
          candidates := fun r c =>
            if r = row ∧ c = col then fullCands size else p.candidates r c } with hp2def
        have hp2inv : ∀ r, r < size → ∀ c, c < size → p2.grid r c ≠ 0 →
            p2.grid r c = solution.grid r c := by
          rw [hp2def]
          exact hgen _ hupd
        have hrevinv : ∀ r, r < size → ∀ c, c < size →
            (p2.set_value row col (p.get_value row col)).grid r c ≠ 0 →
            (p2.set_value row col (p.get_value row col)).grid r c = solution.grid r c := by
          intro r hr c hc h0
          rw [set_value_grid] at h0 ⊢
          by_cases he : r = row ∧ c = col
          · rw [he.1, he.2, upd2_same] at h0 ⊢
            exact hp row (he.1 ▸ hr) col (he.2 ▸ hc) h0
          · rw [upd2_other _ _ _ _ _ _ he] at h0 ⊢
            exact hp2inv r hr c hc h0
        by_cases hu : (!has_unique_solution p2) = true
        · rw [if_pos hu]
          exact ih _ _ hrevinv htr
        · rw [if_neg hu]
          have huniq : count_solutions p2 2 = 1 := by
            have h1 : has_unique_solution p2 = true := by
              cases hb : has_unique_solution p2
              · rw [hb] at hu
                simp at hu
              · rfl
            have h2 : (count_solutions p2 2 == 1) = true := h1
            simpa using h2
          by_cases hs : (!(analyze_difficulty false p2).solved) = true
          · rw [if_pos hs]
            exact ih _ _ hrevinv htr
          · rw [if_neg hs]
            by_cases hl : (analyze_difficulty false p2).max_technique_level >
                target_level + 1
            · rw [if_pos hl]
              exact ih _ _ hrevinv htr
            · rw [if_neg hl]
              refine ih _ _ hp2inv ?_
              intro q hq
              rcases List.mem_append.mp hq with h | h
              · exact htr q h
              · rw [List.mem_singleton] at h
                subst h
                exact ⟨huniq, hp2inv⟩

/-- C2: during the clue-removal scan of `_create_puzzle`, every removal
that is kept (not reverted) leaves a reduced puzzle with exactly one
solution (`count_solutions` with limit 2 returns 1), and every non-zero
cell of that puzzle equals the same-position cell of the original solved
grid — at every step of the scan, for every input solution grid and every
cell ordering. -/
theorem C2_kept_removal_invariant (size target_level min_clues max_clues : Nat)
    (cells : List (Nat × Nat)) (solution : SudokuGrid) :
    ∀ q ∈ (create_puzzle size target_level min_clues max_clues cells solution).2,
      count_solutions q 2 = 1 ∧
      ∀ r, r < size → ∀ c, c < size → q.grid r c ≠ 0 →
        q.grid r c = solution.grid r c := by
  unfold create_puzzle
  exact create_puzzle_go_trace size target_level min_clues max_clues solution cells
    solution [] (fun r hr c hc h0 => rfl) (fun q hq => absurd hq (List.not_mem_nil q))

/-- Witness for C2: removing cell (0, 0) from the concrete solved 6x6 grid
is kept, and the traced reduced puzzle satisfies both conclusions. -/
theorem C2_kept_removal_invariant_witness :
    ∃ q ∈ (create_puzzle 6 1 30 40 [(0, 0)] g6solved).2,
      count_solutions q 2 = 1 ∧
      ∀ r, r < 6 → ∀ c, c < 6 → q.grid r c ≠ 0 → q.grid r c = g6solved.grid r c := by
  have hlen : (create_puzzle 6 1 30 40 [(0, 0)] g6solved).2.length = 1 := by decide
  cases hL : (create_puzzle 6 1 30 40 [(0, 0)] g6solved).2 with
  | nil =>
    rw [hL] at hlen
    simp at hlen
  | cons q rest =>
    refine ⟨q, List.mem_cons_self _ _, ?_⟩
    exact C2_kept_removal_invariant 6 1 30 40 [(0, 0)] g6solved q
      (by rw [hL]; exact List.mem_cons_self _ _)

theorem generate_puzzle_go_bounds (size target_level minC maxC : Nat)
    (fillShuffle : Nat → Nat → List Nat) (cellShuffle : Nat → List (Nat × Nat)) :
    ∀ (n attempt : Nat) (res : GeneratorResult),
      generate_puzzle_go size target_level minC maxC fillShuffle cellShuffle n attempt =
        some res →
      target_level ≤ res.technique_level ∧ res.technique_level ≤ target_level + 1 ∧
      minC ≤ res.clue_count ∧ res.clue_count ≤ maxC ∧
      res.clue_count = res.puzzle.count_clues := by
  intro n
  induction n with
  | zero => intro attempt res h; exact Option.noConfusion h
  | succ m ih =>
    intro attempt res h
    simp only [generate_puzzle_go] at h
    split at h
    · rename_i hg1
      split at h
      · rename_i hg2
        rw [Option.some_inj] at h
        subst h
        exact ⟨hg1.2.1, hg1.2.2, hg2.1, hg2.2, rfl⟩
      · exact ih _ res h
    · exact ih _ res h

/-- C1: whenever `generate_puzzle` returns a result rather than `None`,
the result's technique level lies in `[target_level, target_level + 1]`
and its clue count — which equals the puzzle grid's number of non-zero
cells — lies in `[min_clues, max_clues]`; and zero remaining attempts
always yield `None`. -/
theorem C1_generate_puzzle_bounds (size target_level : Nat) (hsz : size = 6 ∨ size = 9)
    (htl1 : 1 ≤ target_level) (htl5 : target_level ≤ 5) (minC maxC max_attempts : Nat)
    (fillShuffle : Nat → Nat → List Nat) (cellShuffle : Nat → List (Nat × Nat))
    (res : GeneratorResult)
    (h : generate_puzzle size target_level (some minC) (some maxC) max_attempts
      fillShuffle cellShuffle = some res) :
    (target_level ≤ res.technique_level ∧ res.technique_level ≤ target_level + 1 ∧
      minC ≤ res.clue_count ∧ res.clue_count ≤ maxC ∧
      res.clue_count = res.puzzle.count_clues) ∧
    generate_puzzle size target_level (some minC) (some maxC) 0 fillShuffle
      cellShuffle = none := by
  refine ⟨?_, rfl⟩
  have h2 : generate_puzzle_go size target_level minC maxC fillShuffle cellShuffle
      max_attempts 0 = some res := h
  exact generate_puzzle_go_bounds size target_level minC maxC fillShuffle cellShuffle
    max_attempts 0 res h2

/-- Witness for C1: a full 6x6 generation run (target level 1, clue range
[30, 40], one attempt) succeeds and its result satisfies all the bounds. -/
theorem C1_generate_puzzle_bounds_witness :
    ∃ res, generate_puzzle 6 1 (some 30) (some 40) 1 w1fill w1cells = some res ∧
      1 ≤ res.technique_level ∧ res.technique_level ≤ 2 ∧
      30 ≤ res.clue_count ∧ res.clue_count ≤ 40 ∧
      res.clue_count = res.puzzle.count_clues := by
  have hs : (generate_puzzle 6 1 (some 30) (some 40) 1 w1fill w1cells).isSome = true := by
    decide
  cases hg : generate_puzzle 6 1 (some 30) (some 40) 1 w1fill w1cells with
  | none =>
    rw [hg] at hs
    exact absurd hs (by simp)
  | some res =>
    obtain ⟨h1, h2, h3, h4, h5⟩ := (C1_generate_puzzle_bounds 6 1 (Or.inl rfl)
      (by decide) (by decide) 30 40 1 w1fill w1cells res hg).1
    exact ⟨res, rfl, h1, h2, h3, h4, h5⟩
